import Mathlib

/-!
# Nibiru perp: reserve algebra, margin and fee calculations

A shallow embedding of `x/perp/amm/types/pool.go`, `x/perp/keeper/calc.go` and
the fee split of `x/stablecoin/keeper/mint_burn_stable.go`.

`sdk.Dec` is a fixed-point decimal: an integer mantissa `i` standing for the
value `i / 10^18`.  `sdk.Int` is an integer.  Both are arbitrary-precision in
Go and abort the transaction (panic) when a result needs more than the
permitted number of bits; the embedding keeps the arithmetic on the mantissa
and does not represent that abort.  The aborts that a function of `pool.go` can
reach without a guard, a quotient by zero, the square root of a negative number
and the product with an unset decimal, are the outcome `Error.runtimePanic`.

The helpers of package `common` (`SqrtDec`, `MustSqrtDec`,
`ChopPrecisionAndRound`, `MaxDecBitLen`) and the type `ReserveSnapshot` with its
fluctuation limits are not among the sources and are modelled, the former in
the namespace `common`.
-/

namespace Nibiru

/-! ## sdk.Dec -/

/-- The mantissa scale of `sdk.Dec`, `10^18` (`precisionReuse`). -/
def precisionReuse : Int := 1000000000000000000

/-- Half of the mantissa scale, `5 * 10^17` (`fivePrecision`). -/
def fivePrecision : Int := 500000000000000000

/-- The type `sdk.Dec`: the decimal whose value is `i / 10^18`. -/
structure Dec where
  i : Int
deriving DecidableEq, Repr

/-- The type `sdk.Int`. -/
abbrev SdkInt := Int

/-- The body of `chopPrecisionAndRound` for a non-negative argument: truncated
quotient and remainder by `10^18`, then round half to even. -/
def chopPrecisionAndRoundNonNeg (d : Int) : Int :=
  let quo := d.tdiv precisionReuse
  let rem := d.tmod precisionReuse
  if rem = 0 then quo
  else if rem < fivePrecision then quo
  else if rem > fivePrecision then quo + 1
  else if quo % 2 = 0 then quo
  else quo + 1

/-- The function `chopPrecisionAndRound`: removes 18 digits of precision with
banker's rounding; a negative argument is negated, chopped and negated back. -/
def chopPrecisionAndRound (d : Int) : Int :=
  if d < 0 then -(chopPrecisionAndRoundNonNeg (-d))
  else chopPrecisionAndRoundNonNeg d

/-- The function `chopPrecisionAndTruncate`: `big.Int.Quo` by `10^18`, which
truncates toward zero. -/
def chopPrecisionAndTruncate (d : Int) : Int :=
  d.tdiv precisionReuse

namespace Dec

/-- The constant `sdk.ZeroDec()`. -/
def ZeroDec : Dec := ⟨0⟩

/-- The constant `sdk.OneDec()`. -/
def OneDec : Dec := ⟨precisionReuse⟩

/-- The constructor `sdk.NewDec(n)`: the decimal with integer value `n`. -/
def NewDec (n : Int) : Dec := ⟨n * precisionReuse⟩

def IsZero (d : Dec) : Bool := d.i = 0

def IsNegative (d : Dec) : Bool := d.i < 0

def IsPositive (d : Dec) : Bool := 0 < d.i

def Equal (d d2 : Dec) : Bool := d.i = d2.i

def LT (d d2 : Dec) : Bool := d.i < d2.i

def LTE (d d2 : Dec) : Bool := d.i ≤ d2.i

def GT (d d2 : Dec) : Bool := d.i > d2.i

def GTE (d d2 : Dec) : Bool := d.i ≥ d2.i

def Add (d d2 : Dec) : Dec := ⟨d.i + d2.i⟩

def Sub (d d2 : Dec) : Dec := ⟨d.i - d2.i⟩

def Neg (d : Dec) : Dec := ⟨-d.i⟩

/-- The method `Dec.Abs`: the mantissa with its sign cleared. -/
def Abs (d : Dec) : Dec := ⟨if d.i < 0 then -d.i else d.i⟩

/-- The method `Dec.Mul`: the product of the mantissas, chopped and rounded. -/
def Mul (d d2 : Dec) : Dec := ⟨chopPrecisionAndRound (d.i * d2.i)⟩

/-- The method `Dec.Quo`: the mantissa times `10^36`, truncated quotient by the
divisor's mantissa, chopped and rounded. -/
def Quo (d d2 : Dec) : Dec :=
  ⟨chopPrecisionAndRound ((d.i * precisionReuse * precisionReuse).tdiv d2.i)⟩

/-- The method `Dec.RoundInt`: banker's rounding to an integer. -/
def RoundInt (d : Dec) : SdkInt := chopPrecisionAndRound d.i

/-- The method `Dec.TruncateInt`: truncation toward zero to an integer. -/
def TruncateInt (d : Dec) : SdkInt := chopPrecisionAndTruncate d.i

/-- The function `sdk.MinDec`. -/
def MinDec (d1 d2 : Dec) : Dec := if d1.LT d2 then d1 else d2

/-- The exact rational value of a decimal. -/
def toRat (d : Dec) : ℚ := (d.i : ℚ) / 1000000000000000000

end Dec

/-- The method `sdk.Int.ToDec`. -/
def SdkInt.ToDec (n : SdkInt) : Dec := ⟨n * precisionReuse⟩

/-! ## Errors -/

/-- The error kinds that the embedded functions return.  A wrapped error keeps
its kind; `other` stands for errors made with `fmt.Errorf` and for errors
returned by collaborators; `runtimePanic` is not an error value but the abort of
the call by a Go run-time panic (division by zero, square root of a negative
number, use of an unset decimal). -/
inductive Error where
  | ErrQuoteReserveAtZero
  | ErrBaseReserveAtZero
  | ErrNonPositivePegMultiplier
  | ErrNilSwapInvariantMutliplier
  | ErrNonPositiveSwapInvariantMutliplier
  | ErrLiquidityDepthOverflow
  | ErrLiquidityDepth
  | ErrOverTradingLimit
  | ErrNonPositiveReserves
  | other (msg : String)
  | runtimePanic (msg : String)
deriving DecidableEq, Repr

/-- The method `Dec.Quo` with its abort: the division of the big integers panics
on a zero divisor. -/
def Dec.QuoChecked (d d2 : Dec) : Except Error Dec :=
  if d2.i = 0 then
    .error (Error.runtimePanic "division by zero")
  else
    .ok (d.Quo d2)

/-- The method `Dec.Mul` with an operand that may be unset: the product with the
nil decimal panics on the nil pointer. -/
def Dec.MulChecked (d : Dec) (d2 : Option Dec) : Except Error Dec :=
  match d2 with
  | none => .error (Error.runtimePanic "nil pointer dereference")
  | some d2 => .ok (d.Mul d2)

/-! ## Package common -/

namespace common

/-- Modelled from the spec: the function `common.ChopPrecisionAndRound` is not
among the sources.  It is the exported copy of the decimal's own rounding to its
internal precision, so the model is `chopPrecisionAndRound`. -/
def ChopPrecisionAndRound (d : Int) : Int := chopPrecisionAndRound d

/-- Modelled from the spec: the constant `common.MaxDecBitLen` is not among the
sources.  It is the representable bit length of the decimal implementation:
256 bits for the integer part and 59 for the 18 fractional digits. -/
def MaxDecBitLen : Nat := 315

/-- The method `big.Int.BitLen`: the length of the absolute value in bits, `0`
for `0`. -/
def BitLen (x : Int) : Nat := Nat.size x.natAbs

/-- Modelled from the spec: the function `common.MustSqrtDec` is not among the
sources.  The spec calls it the square root of a decimal at the decimal's fixed
precision.  The model takes the integer square root of the mantissa
(`big.Int.Sqrt`), which stands for the root scaled by `10^9`, and rescales it by
`10^9`; a negative argument panics. -/
def MustSqrtDec (dec : Dec) : Except Error Dec :=
  if dec.i < 0 then
    .error (Error.runtimePanic "square root of negative number")
  else
    .ok ⟨(Nat.sqrt dec.i.toNat : Int) * 1000000000⟩

/-- Modelled from the spec: the function `common.SqrtDec` is not among the
sources.  It is the panic-safe `MustSqrtDec`: the panic on a negative argument
is recovered and returned as an error. -/
def SqrtDec (dec : Dec) : Except Error Dec :=
  match MustSqrtDec dec with
  | .error _ => .error (Error.other "square root of negative number")
  | .ok sqrtDec => .ok sqrtDec

end common

/-! ## Market (pool.go) -/

/-- The risk parameters of a market. -/
structure MarketConfig where
  TradeLimitRatio : Dec
  FluctuationLimitRatio : Dec
  MaxOracleSpreadRatio : Dec
  MaintenanceMarginRatio : Dec
  MaxLeverage : Dec
deriving DecidableEq, Repr

/-- One virtual AMM. -/
structure Market where
  Pair : String
  BaseReserve : Dec
  QuoteReserve : Dec
  SqrtDepth : Dec
  PegMultiplier : Dec
  Config : MarketConfig
  TotalLong : Dec
  TotalShort : Dec
deriving DecidableEq, Repr

namespace MarketConfig

/-- The method `MarketConfig.Validate`. -/
def Validate (cfg : MarketConfig) : Except Error Unit :=
  if cfg.TradeLimitRatio.LT Dec.ZeroDec || cfg.TradeLimitRatio.GT Dec.OneDec then
    .error (Error.other "trade limit ratio of must be 0 <= ratio <= 1")
  else if cfg.FluctuationLimitRatio.LT Dec.ZeroDec ||
      cfg.FluctuationLimitRatio.GT Dec.OneDec then
    .error (Error.other "fluctuation limit ratio must be 0 <= ratio <= 1")
  else if cfg.MaxOracleSpreadRatio.LT Dec.ZeroDec ||
      cfg.MaxOracleSpreadRatio.GT Dec.OneDec then
    .error (Error.other "max oracle spread ratio must be 0 <= ratio <= 1")
  else if cfg.MaintenanceMarginRatio.LT Dec.ZeroDec ||
      cfg.MaintenanceMarginRatio.GT Dec.OneDec then
    .error (Error.other "maintenance margin ratio ratio must be 0 <= ratio <= 1")
  else if cfg.MaxLeverage.LTE Dec.ZeroDec then
    .error (Error.other "max leverage must be > 0")
  else if (Dec.OneDec.Quo cfg.MaxLeverage).LT cfg.MaintenanceMarginRatio then
    .error (Error.other
      "margin ratio opened with max leverage position will be lower than Maintenance margin ratio")
  else
    .ok ()

/-- The method `MarketConfig.SetConfig`. -/
def SetConfig (_poolCfg : MarketConfig) (cfg : MarketConfig) : MarketConfig :=
  { TradeLimitRatio := cfg.TradeLimitRatio
    FluctuationLimitRatio := cfg.FluctuationLimitRatio
    MaxOracleSpreadRatio := cfg.MaxOracleSpreadRatio
    MaintenanceMarginRatio := cfg.MaintenanceMarginRatio
    MaxLeverage := cfg.MaxLeverage }

/-- The method `MarketConfig.WithMaintenanceMarginRatio`. -/
def WithMaintenanceMarginRatio (poolCfg : MarketConfig) (value : Dec) : MarketConfig :=
  { SetConfig poolCfg poolCfg with MaintenanceMarginRatio := value }

/-- The method `MarketConfig.WithMaxLeverage`. -/
def WithMaxLeverage (poolCfg : MarketConfig) (value : Dec) : MarketConfig :=
  { SetConfig poolCfg poolCfg with MaxLeverage := value }

end MarketConfig

/-- The function `DefaultMarketConfig`: ratios `0.1`, `0.1`, `0.1`, maintenance
margin ratio `0.0625`, max leverage `10`. -/
def DefaultMarketConfig : MarketConfig :=
  { TradeLimitRatio := ⟨100000000000000000⟩
    FluctuationLimitRatio := ⟨100000000000000000⟩
    MaxOracleSpreadRatio := ⟨100000000000000000⟩
    MaintenanceMarginRatio := ⟨62500000000000000⟩
    MaxLeverage := Dec.NewDec 10 }

/-- Modelled from the spec: the type `ReserveSnapshot` is not among the sources.
It is the point-in-time capture of the pair, the two reserves, the peg
multiplier and a timestamp. -/
structure ReserveSnapshot where
  Pair : String
  BaseReserve : Dec
  QuoteReserve : Dec
  PegMultiplier : Dec
  TimestampMs : Int
deriving DecidableEq, Repr

namespace ReserveSnapshot

/-- Modelled from the spec: the price of a snapshot is not among the sources.
It is the mark price formula on the captured values, `(quoteReserve /
baseReserve) * pegMultiplier`; a snapshot is validated when it is made, so its
base reserve is not zero. -/
def getMarkPrice (snapshot : ReserveSnapshot) : Dec :=
  (snapshot.QuoteReserve.Quo snapshot.BaseReserve).Mul snapshot.PegMultiplier

/-- Modelled from the spec: the method `GetUpperMarkPriceFluctuationLimit` is not
among the sources.  It is `snapshot.price * (1 + fluctuationLimitRatio)`. -/
def GetUpperMarkPriceFluctuationLimit (snapshot : ReserveSnapshot)
    (fluctuationLimitRatio : Dec) : Dec :=
  snapshot.getMarkPrice.Mul (Dec.OneDec.Add fluctuationLimitRatio)

/-- Modelled from the spec: the method `GetLowerMarkPriceFluctuationLimit` is not
among the sources.  It is `snapshot.price * (1 - fluctuationLimitRatio)`. -/
def GetLowerMarkPriceFluctuationLimit (snapshot : ReserveSnapshot)
    (fluctuationLimitRatio : Dec) : Dec :=
  snapshot.getMarkPrice.Mul (Dec.OneDec.Sub fluctuationLimitRatio)

end ReserveSnapshot

namespace Market

/-- The method `Market.FromQuoteAssetToReserve`.  The peg multiplier is the
divisor; Go panics when it is zero. -/
def FromQuoteAssetToReserve (market : Market) (quoteAsset : Dec) : Dec :=
  quoteAsset.Quo market.PegMultiplier

/-- The method `Market.FromQuoteReserveToAsset`. -/
def FromQuoteReserveToAsset (market : Market) (quoteReserve : Dec) : Dec :=
  quoteReserve.Mul market.PegMultiplier

/-- The method `Market.GetBias`. -/
def GetBias (market : Market) : Dec :=
  market.TotalLong.Sub market.TotalShort

/-- The method `Market.GetBaseAmountByQuoteAmount`. -/
def GetBaseAmountByQuoteAmount (market : Market) (quoteDelta : Dec) : Except Error Dec :=
  if quoteDelta.IsZero then
    .ok Dec.ZeroDec
  else
    let invariant := market.QuoteReserve.Mul market.BaseReserve
    let quoteReservesAfter := market.QuoteReserve.Add quoteDelta
    if quoteReservesAfter.LTE Dec.ZeroDec then
      .error Error.ErrQuoteReserveAtZero
    else
      let baseReservesAfter := invariant.Quo quoteReservesAfter
      let baseOutAbs := (baseReservesAfter.Sub market.BaseReserve).Abs
      .ok baseOutAbs

/-- The method `Market.GetQuoteReserveByBase`. -/
def GetQuoteReserveByBase (market : Market) (baseDelta : Dec) : Except Error Dec :=
  if baseDelta.IsZero then
    .ok Dec.ZeroDec
  else
    let invariant := market.QuoteReserve.Mul market.BaseReserve
    let baseReservesAfter := market.BaseReserve.Add baseDelta
    if baseReservesAfter.LTE Dec.ZeroDec then
      .error Error.ErrBaseReserveAtZero
    else
      let quoteReservesAfter := invariant.Quo baseReservesAfter
      let quoteOutAbs := (quoteReservesAfter.Sub market.QuoteReserve).Neg.Abs
      .ok quoteOutAbs

/-- The method `Market.ValidateReserves`: both reserves are positive. -/
def ValidateReserves (market : Market) : Except Error Unit :=
  if !market.QuoteReserve.IsPositive || !market.BaseReserve.IsPositive then
    .error Error.ErrNonPositiveReserves
  else
    .ok ()

/-- The method `Market.GetRepegCost`. -/
def GetRepegCost (market : Market) (pegCandidate : Dec) : Except Error Dec :=
  if !pegCandidate.IsPositive then
    .error Error.ErrNonPositivePegMultiplier
  else
    let bias := market.GetBias
    if bias.IsZero then
      .ok Dec.ZeroDec
    else
      match market.GetQuoteReserveByBase bias with
      | .error err => .error err
      | .ok biasInQuoteReserve =>
        let cost := biasInQuoteReserve.Mul (pegCandidate.Sub market.PegMultiplier)
        if bias.IsNegative then .ok cost.Neg else .ok cost

/-- The method `Market.AddToQuoteReserve`; the market after the call. -/
def AddToQuoteReserve (market : Market) (amount : Dec) : Market :=
  { market with QuoteReserve := market.QuoteReserve.Add amount }

/-- The method `Market.AddToBaseReserveAndTotalLongShort`; the market after the
call. -/
def AddToBaseReserveAndTotalLongShort (market : Market) (amount : Dec) : Market :=
  let market1 :=
    if amount.IsPositive then
      { market with TotalShort := market.TotalShort.Add amount }
    else if amount.IsNegative then
      { market with TotalLong := market.TotalLong.Add amount.Neg }
    else
      market
  { market1 with BaseReserve := market1.BaseReserve.Add amount }

/-- The method `Market.ComputeSqrtDepth`.  The overflow check multiplies the
mantissa of `BaseReserve` by itself, as the source does. -/
def ComputeSqrtDepth (market : Market) : Except Error Dec :=
  let mul := market.BaseReserve.i * market.BaseReserve.i
  let chopped := common.ChopPrecisionAndRound mul
  if common.BitLen chopped > common.MaxDecBitLen then
    .error Error.ErrLiquidityDepthOverflow
  else
    let liqDepth := market.QuoteReserve.Mul market.BaseReserve
    common.SqrtDec liqDepth

/-- The method `Market.ValidateLiquidityDepth`.  In the second branch the source
formats a new error around the nil error of `ComputeSqrtDepth`, so the error
returned there wraps no error kind. -/
def ValidateLiquidityDepth (market : Market) : Except Error Unit :=
  match market.ComputeSqrtDepth with
  | .error err => .error err
  | .ok computedSqrtDepth =>
    if !market.SqrtDepth.IsPositive then
      .error Error.ErrLiquidityDepth
    else if !((market.SqrtDepth.Sub computedSqrtDepth).Abs.LTE (Dec.NewDec 1)) then
      .error (Error.other "%!w(<nil>): market: computed sqrt and current sqrt differ")
    else
      .ok ()

/-- The method `Market.Validate`.  The result of `market.Pair.Validate()` is the
argument `pair`. -/
def Validate (pair : Except Error Unit) (market : Market) : Except Error Unit :=
  match pair with
  | .error err => .error err
  | .ok _ =>
    match market.ValidateReserves with
    | .error err => .error err
    | .ok _ =>
      match market.ValidateLiquidityDepth with
      | .error err => .error err
      | .ok _ =>
        if market.PegMultiplier.LTE Dec.ZeroDec then
          .error Error.ErrNonPositivePegMultiplier
        else
          match market.Config.Validate with
          | .error err => .error err
          | .ok _ => .ok ()

/-- The method `Market.UpdateSwapInvariant`.  An unset multiplier is `none`; the
result of `market.Pair.Validate()` is the argument `pair`.  The quotient by a
zero swap invariant and `MustSqrtDec` of a negative product abort the call. -/
def UpdateSwapInvariant (pair : Except Error Unit) (market : Market)
    (swapInvariantMultiplier : Option Dec) : Except Error Market :=
  match swapInvariantMultiplier with
  | none => .error Error.ErrNilSwapInvariantMutliplier
  | some multiplier =>
    if !multiplier.IsPositive then
      .error Error.ErrNonPositiveSwapInvariantMutliplier
    else
      let swapInvariant := market.BaseReserve.Mul market.QuoteReserve
      let newSwapInvariant := swapInvariant.Mul multiplier
      if swapInvariant.IsZero then
        .error (Error.runtimePanic "division by zero")
      else
        let cSquared := newSwapInvariant.Quo swapInvariant
        match common.SqrtDec cSquared with
        | .error err => .error err
        | .ok c =>
          let newBaseAmount := c.Mul market.BaseReserve
          let newQuoteAmount := c.Mul market.QuoteReserve
          match common.MustSqrtDec (newBaseAmount.Mul newQuoteAmount) with
          | .error err => .error err
          | .ok newSqrtDepth =>
            let newMarket : Market :=
              { Pair := market.Pair
                BaseReserve := newBaseAmount
                QuoteReserve := newQuoteAmount
                SqrtDepth := newSqrtDepth
                PegMultiplier := market.PegMultiplier
                Config := market.Config
                TotalLong := market.TotalLong
                TotalShort := market.TotalShort }
            match newMarket.Validate pair with
            | .error err => .error err
            | .ok _ => .ok newMarket

/-- The method `Market.getMarketQuoteReserveValue`. -/
def getMarketQuoteReserveValue (market : Market) : Except Error Dec :=
  match market.GetQuoteReserveByBase market.TotalLong with
  | .error err => .error err
  | .ok longQuoteReserve =>
    match market.GetQuoteReserveByBase market.TotalShort with
    | .error err => .error err
    | .ok shortQuoteReserve => .ok (longQuoteReserve.Add shortQuoteReserve)

/-- The method `Market.GetSwapInvariantUpdateCost`.  The result of
`market.Pair.Validate()` is the argument `pair`. -/
def GetSwapInvariantUpdateCost (pair : Except Error Unit) (market : Market)
    (swapInvariantMultiplier : Option Dec) : Except Error Dec :=
  match market.getMarketQuoteReserveValue with
  | .error err => .error err
  | .ok quoteReserveBefore =>
    match market.UpdateSwapInvariant pair swapInvariantMultiplier with
    | .error err => .error err
    | .ok newMarket =>
      match newMarket.getMarketQuoteReserveValue with
      | .error err => .error err
      | .ok quoteReserveAfter =>
        .ok (market.FromQuoteReserveToAsset (quoteReserveAfter.Sub quoteReserveBefore))

/-- The method `Market.GetMarkPrice` on fields that may be unset: `none` is the
nil decimal.  The four tests are made in the order of the source, each nil test
before the zero test of the same reserve; the quotient and the product that
follow are the aborting ones, the peg multiplier being tested by none of the
guards. -/
def GetMarkPriceOf (baseReserve quoteReserve pegMultiplier : Option Dec) :
    Except Error Dec :=
  match baseReserve with
  | none => .ok Dec.ZeroDec
  | some base =>
    if base.IsZero then
      .ok Dec.ZeroDec
    else
      match quoteReserve with
      | none => .ok Dec.ZeroDec
      | some quote =>
        if quote.IsZero then
          .ok Dec.ZeroDec
        else
          match quote.QuoChecked base with
          | .error err => .error err
          | .ok price => price.MulChecked pegMultiplier

/-- The method `Market.GetMarkPrice` on a market whose fields are all set: both
nil tests are false there, and the quotient is only taken of a base reserve that
is not zero. -/
def GetMarkPrice (market : Market) : Dec :=
  if market.BaseReserve.IsZero || market.QuoteReserve.IsZero then
    Dec.ZeroDec
  else
    (market.QuoteReserve.Quo market.BaseReserve).Mul market.PegMultiplier

/-- The method `Market.HasEnoughQuoteReserve`. -/
def HasEnoughQuoteReserve (market : Market) (quoteAmount : Dec) : Bool :=
  (market.QuoteReserve.Mul market.Config.TradeLimitRatio).GTE quoteAmount.Abs

/-- The method `Market.HasEnoughBaseReserve`. -/
def HasEnoughBaseReserve (market : Market) (baseAmount : Dec) : Bool :=
  (market.BaseReserve.Mul market.Config.TradeLimitRatio).GTE baseAmount.Abs

/-- The method `Market.HasEnoughReservesForTrade`. -/
def HasEnoughReservesForTrade (market : Market) (quoteAmtAbs baseAmtAbs : Dec) :
    Except Error Unit :=
  if !market.HasEnoughQuoteReserve quoteAmtAbs then
    .error Error.ErrOverTradingLimit
  else if !market.HasEnoughBaseReserve baseAmtAbs then
    .error Error.ErrOverTradingLimit
  else
    .ok ()

/-- The method `Market.IsOverFluctuationLimitInRelationWithSnapshot`. -/
def IsOverFluctuationLimitInRelationWithSnapshot (market : Market)
    (snapshot : ReserveSnapshot) : Bool :=
  if market.Config.FluctuationLimitRatio.IsZero then
    false
  else
    let markPrice := market.GetMarkPrice
    let snapshotUpperLimit :=
      snapshot.GetUpperMarkPriceFluctuationLimit market.Config.FluctuationLimitRatio
    let snapshotLowerLimit :=
      snapshot.GetLowerMarkPriceFluctuationLimit market.Config.FluctuationLimitRatio
    if markPrice.GT snapshotUpperLimit || markPrice.LT snapshotLowerLimit then
      true
    else
      false

/-- The method `Market.IsOverSpreadLimit`.  The index price is the divisor, and
the quotient by a zero index price aborts the call. -/
def IsOverSpreadLimit (market : Market) (indexPrice : Dec) : Except Error Bool :=
  if indexPrice.IsZero then
    .error (Error.runtimePanic "division by zero")
  else
    .ok ((((market.GetMarkPrice.Sub indexPrice).Quo indexPrice).Abs).GTE
      market.Config.MaxOracleSpreadRatio)

end Market

/-! ## Margin and fee calculations (calc.go) -/

/-- The constant `initMarginRatio`, `0.01`. -/
def initMarginRatio : Dec := ⟨10000000000000000⟩

/-- The fields of `types.Position` that the calculations read. -/
structure Position where
  Pair : String
  Size_ : Dec
  Margin : Dec
  OpenNotional : Dec
  LastUpdateCumulativePremiumFraction : Dec
deriving DecidableEq, Repr

structure RemainingMarginWithFundingPayment where
  Margin : Dec
  BadDebt : Dec
  FundingPayment : Dec
  LatestCumulativePremiumFraction : Dec
deriving DecidableEq, Repr

/-- The method `Keeper.CalcRemainMarginWithFundingPayment`.  The keeper's
lookup `getLatestCumulativePremiumFraction` is the argument `latest`. -/
def CalcRemainMarginWithFundingPayment (latest : Except Error Dec)
    (currentPosition : Position) (marginDelta : Dec) :
    Except Error RemainingMarginWithFundingPayment :=
  match latest with
  | .error err => .error err
  | .ok latestCumulativePremiumFraction =>
    let fundingPayment :=
      if currentPosition.Size_.IsZero then
        Dec.ZeroDec
      else
        (latestCumulativePremiumFraction.Sub
          currentPosition.LastUpdateCumulativePremiumFraction).Mul currentPosition.Size_
    let remainingMargin := (currentPosition.Margin.Add marginDelta).Sub fundingPayment
    if remainingMargin.IsNegative then
      .ok { Margin := Dec.ZeroDec
            BadDebt := remainingMargin.Abs
            FundingPayment := fundingPayment
            LatestCumulativePremiumFraction := latestCumulativePremiumFraction }
    else
      .ok { Margin := remainingMargin.Abs
            BadDebt := Dec.ZeroDec
            FundingPayment := fundingPayment
            LatestCumulativePremiumFraction := latestCumulativePremiumFraction }

/-- The margin requirement inside `calcFreeCollateral`: the open notional of a
long position, else the current position notional, times `initMarginRatio`,
through `RoundInt`. -/
def marginRequirement (pos : Position) (positionNotional : Dec) : SdkInt :=
  if pos.Size_.IsPositive then
    (initMarginRatio.Mul pos.OpenNotional).RoundInt
  else
    (initMarginRatio.Mul positionNotional).RoundInt

/-- The method `Keeper.calcFreeCollateral`.  The results of
`common.NewTokenPairFromStr`, of `requireVpool` and of
`getPreferencePositionNotionalAndUnrealizedPnL` (unrealized PnL first, position
notional second) are the arguments `pair`, `vpool` and `preference`. -/
def calcFreeCollateral (pair vpool : Except Error Unit)
    (preference : Except Error (Dec × Dec))
    (pos : Position) (fundingPayment : Dec) : Except Error SdkInt :=
  match pair with
  | .error err => .error err
  | .ok _ =>
    match vpool with
    | .error err => .error err
    | .ok _ =>
      match preference with
      | .error err => .error err
      | .ok (unrealizedPnL, positionNotional) =>
        let freeMargin := pos.Margin.Sub fundingPayment
        let accountValue := unrealizedPnL.Add freeMargin
        let minCollateral := Dec.MinDec accountValue freeMargin
        let freeCollateral :=
          (minCollateral.Sub (SdkInt.ToDec (marginRequirement pos positionNotional))).TruncateInt
        .ok freeCollateral

/-- The method `Keeper.CalcPerpTxFee`.  The two ratios read from the module
parameters are the arguments `tollRatio` and `spreadRatio`. -/
def CalcPerpTxFee (tollRatio spreadRatio : Dec) (quoteAmt : Dec) :
    Except Error (SdkInt × SdkInt) :=
  if quoteAmt.Equal Dec.ZeroDec then
    .ok (0, 0)
  else
    .ok ((quoteAmt.Mul tollRatio).TruncateInt, (quoteAmt.Mul spreadRatio).TruncateInt)

/-! ## Stablecoin fee split (mint_burn_stable.go) -/

/-- The two amounts that the loop of `Keeper.splitAndSendFeesToEfAndTreasury`
computes for one fee coin of amount `amount`: `amountEf` for the ecosystem fund
and `amountTreasury` for the treasury. -/
def splitAndSendFeesToEfAndTreasury (efFeeRatio : Dec) (amount : SdkInt) :
    SdkInt × SdkInt :=
  let amountEf := ((SdkInt.ToDec amount).Mul efFeeRatio).TruncateInt
  let amountTreasury := amount - amountEf
  (amountEf, amountTreasury)

/-! ## Worked examples -/

/-- The market of the worked example: base reserve 100, quote reserve 1000,
peg multiplier 1. -/
def exampleMarket : Market :=
  { Pair := "ubtc:unusd"
    BaseReserve := Dec.NewDec 100
    QuoteReserve := Dec.NewDec 1000
    SqrtDepth := ⟨316227766016837933200⟩
    PegMultiplier := Dec.OneDec
    Config :=
      { TradeLimitRatio := ⟨100000000000000000⟩
        FluctuationLimitRatio := ⟨100000000000000000⟩
        MaxOracleSpreadRatio := ⟨100000000000000000⟩
        MaintenanceMarginRatio := ⟨62500000000000000⟩
        MaxLeverage := Dec.NewDec 10 }
    TotalLong := Dec.ZeroDec
    TotalShort := Dec.ZeroDec }

/-- A long position of size 5 with margin 10 whose funding index is up to
date. -/
def examplePosition : Position :=
  { Pair := "ubtc:unusd"
    Size_ := Dec.NewDec 5
    Margin := Dec.NewDec 10
    OpenNotional := Dec.NewDec 50
    LastUpdateCumulativePremiumFraction := Dec.ZeroDec }

/-- A long position of the smallest size, `10^-18`. -/
def dustPosition : Position :=
  { Pair := "ubtc:unusd"
    Size_ := ⟨1⟩
    Margin := Dec.NewDec 10
    OpenNotional := Dec.NewDec 50
    LastUpdateCumulativePremiumFraction := Dec.ZeroDec }

/-- A long position with margin 100 and open notional 1650, whose required
margin at the ratio `0.01` is exactly `16.5`. -/
def marginPosition : Position :=
  { Pair := "ubtc:unusd"
    Size_ := Dec.NewDec 1
    Margin := Dec.NewDec 100
    OpenNotional := Dec.NewDec 1650
    LastUpdateCumulativePremiumFraction := Dec.ZeroDec }

/-- A long position with margin `0.5` and open notional 100, whose required
margin is `1`. -/
def thinPosition : Position :=
  { Pair := "ubtc:unusd"
    Size_ := Dec.NewDec 1
    Margin := ⟨500000000000000000⟩
    OpenNotional := Dec.NewDec 100
    LastUpdateCumulativePremiumFraction := Dec.ZeroDec }

/-- The market of the repeg example: base reserve 50, quote reserve 1000, total
long 50, total short 0, peg multiplier 1. -/
def repegMarket : Market :=
  { Pair := "ubtc:unusd"
    BaseReserve := Dec.NewDec 50
    QuoteReserve := Dec.NewDec 1000
    SqrtDepth := ⟨223606797749000000000⟩
    PegMultiplier := Dec.OneDec
    Config := DefaultMarketConfig
    TotalLong := Dec.NewDec 50
    TotalShort := Dec.ZeroDec }

/-- The worked example market with a stored depth of 317, less than 1 away from
the square root of its invariant `100000`. -/
def wideDepthMarket : Market :=
  { exampleMarket with SqrtDepth := Dec.NewDec 317 }

/-- A market with base reserve `10^40` and quote reserve 1. -/
def lopsidedMarket : Market :=
  { Pair := "ubtc:unusd"
    BaseReserve := Dec.NewDec 10000000000000000000000000000000000000000
    QuoteReserve := Dec.NewDec 1
    SqrtDepth := Dec.NewDec 100000000000000000000
    PegMultiplier := Dec.OneDec
    Config := DefaultMarketConfig
    TotalLong := Dec.ZeroDec
    TotalShort := Dec.ZeroDec }

/-- A market with both reserves `10^-9`, whose fixed-point invariant is the
smallest unit `10^-18`. -/
def dustMarket : Market :=
  { Pair := "ubtc:unusd"
    BaseReserve := ⟨1000000000⟩
    QuoteReserve := ⟨1000000000⟩
    SqrtDepth := ⟨1000000000⟩
    PegMultiplier := Dec.OneDec
    Config := DefaultMarketConfig
    TotalLong := Dec.ZeroDec
    TotalShort := Dec.ZeroDec }

/-- A market with base reserve `0.5` and quote reserve 1. -/
def halfMarket : Market :=
  { Pair := "ubtc:unusd"
    BaseReserve := ⟨500000000000000000⟩
    QuoteReserve := Dec.NewDec 1
    SqrtDepth := ⟨707106781000000000⟩
    PegMultiplier := Dec.OneDec
    Config := DefaultMarketConfig
    TotalLong := Dec.ZeroDec
    TotalShort := Dec.ZeroDec }

/-- The snapshot of the worked example market: base reserve 100, quote reserve
1000, peg multiplier 1, so a price of 10. -/
def exampleSnapshot : ReserveSnapshot :=
  { Pair := "ubtc:unusd"
    BaseReserve := Dec.NewDec 100
    QuoteReserve := Dec.NewDec 1000
    PegMultiplier := Dec.OneDec
    TimestampMs := 0 }

/-- The worked example market with a stored depth of 400, more than 1 away from
the square root of its invariant. -/
def wrongDepthMarket : Market :=
  { exampleMarket with SqrtDepth := Dec.NewDec 400 }

/-- The example market with its base reserve set to zero. -/
def zeroBaseMarket : Market :=
  { exampleMarket with BaseReserve := Dec.ZeroDec }

/-- The example market with its peg multiplier set to zero. -/
def zeroPegMarket : Market :=
  { exampleMarket with PegMultiplier := Dec.ZeroDec }

/-! ## Rounding lemmas -/

theorem chopPrecisionAndRoundNonNeg_bounds (d : Int) (h : 0 ≤ d) :
    2 * (chopPrecisionAndRoundNonNeg d * precisionReuse) ≤ 2 * d + precisionReuse ∧
    2 * d ≤ 2 * (chopPrecisionAndRoundNonNeg d * precisionReuse) + precisionReuse ∧
    0 ≤ chopPrecisionAndRoundNonNeg d := by
  unfold chopPrecisionAndRoundNonNeg
  simp only [Int.tdiv_eq_ediv h (show (0 : Int) ≤ precisionReuse by decide),
    Int.tmod_eq_emod h (show (0 : Int) ≤ precisionReuse by decide)]
  simp only [precisionReuse, fivePrecision]
  split_ifs <;> omega

theorem chopPrecisionAndRound_bounds (d : Int) :
    2 * (chopPrecisionAndRound d * precisionReuse) ≤ 2 * d + precisionReuse ∧
    2 * d ≤ 2 * (chopPrecisionAndRound d * precisionReuse) + precisionReuse := by
  unfold chopPrecisionAndRound
  split_ifs with hd
  · have h := chopPrecisionAndRoundNonNeg_bounds (-d) (by omega)
    simp only [precisionReuse] at h ⊢
    omega
  · have h := chopPrecisionAndRoundNonNeg_bounds d (by omega)
    simp only [precisionReuse] at h ⊢
    omega

theorem chopPrecisionAndRound_nonneg (d : Int) (h : 0 ≤ d) :
    0 ≤ chopPrecisionAndRound d := by
  unfold chopPrecisionAndRound
  rw [if_neg (by omega)]
  exact (chopPrecisionAndRoundNonNeg_bounds d h).2.2

theorem chopPrecisionAndRound_nonpos (d : Int) (h : d ≤ 0) :
    chopPrecisionAndRound d ≤ 0 := by
  have hb := chopPrecisionAndRound_bounds d
  simp only [precisionReuse] at hb
  omega

/-- Rounding never passes an integer bound: a product mantissa at most `n` units
rounds to at most `n`. -/
theorem chopPrecisionAndRound_le_of_le (d n : Int) (h : d ≤ n * precisionReuse) :
    chopPrecisionAndRound d ≤ n := by
  have hb := chopPrecisionAndRound_bounds d
  simp only [precisionReuse] at hb h
  omega

theorem Dec.Abs_nonneg (d : Dec) : 0 ≤ d.Abs.i := by
  unfold Dec.Abs
  dsimp only
  split_ifs <;> omega

/-! ## Reserve algebra -/

/-- C2. `GetBaseAmountByQuoteAmount`: a zero delta gives zero with no error; a
non-zero delta fails with `ErrQuoteReserveAtZero` exactly when the quote reserve
after the swap is not positive, and otherwise gives the non-negative fixed-point
value `|invariant / (quoteReserve + quoteDelta) - baseReserve|`; on the worked
example (base 100, quote 1000, delta +100) the result is within `10^-18` of
`100/11`. -/
theorem GetBaseAmountByQuoteAmount_spec (market : Market) (quoteDelta : Dec) :
    (quoteDelta.i = 0 →
      market.GetBaseAmountByQuoteAmount quoteDelta = .ok ⟨0⟩) ∧
    (quoteDelta.i ≠ 0 →
      (market.GetBaseAmountByQuoteAmount quoteDelta = .error Error.ErrQuoteReserveAtZero ↔
        market.QuoteReserve.i + quoteDelta.i ≤ 0) ∧
      (0 < market.QuoteReserve.i + quoteDelta.i →
        market.GetBaseAmountByQuoteAmount quoteDelta =
          .ok (((market.QuoteReserve.Mul market.BaseReserve).Quo
                  (market.QuoteReserve.Add quoteDelta)).Sub market.BaseReserve).Abs ∧
        0 ≤ ((((market.QuoteReserve.Mul market.BaseReserve).Quo
                  (market.QuoteReserve.Add quoteDelta)).Sub market.BaseReserve).Abs).i)) ∧
    (∃ baseOut, exampleMarket.GetBaseAmountByQuoteAmount (Dec.NewDec 100) = .ok baseOut ∧
      baseOut.toRat - 100 / 11 ≤ 1 / 1000000000000000000 ∧
      100 / 11 - baseOut.toRat ≤ 1 / 1000000000000000000) := by
  refine ⟨?_, ?_, ?_⟩
  · intro h0
    simp [Market.GetBaseAmountByQuoteAmount, Dec.IsZero, h0, Dec.ZeroDec]
  · intro h0
    refine ⟨?_, ?_⟩
    · by_cases hle : market.QuoteReserve.i + quoteDelta.i ≤ 0
      · simp [Market.GetBaseAmountByQuoteAmount, Dec.IsZero, h0, Dec.LTE, Dec.Add,
          Dec.ZeroDec, hle]
      · simp [Market.GetBaseAmountByQuoteAmount, Dec.IsZero, h0, Dec.LTE, Dec.Add,
          Dec.ZeroDec, hle]
    · intro hpos
      refine ⟨?_, Dec.Abs_nonneg _⟩
      have hle : ¬ market.QuoteReserve.i + quoteDelta.i ≤ 0 := by omega
      simp [Market.GetBaseAmountByQuoteAmount, Dec.IsZero, h0, Dec.LTE, Dec.Add,
        Dec.ZeroDec, hle]
  · refine ⟨⟨9090909090909090909⟩, rfl, ?_, ?_⟩ <;> norm_num [Dec.toRat]

/-- C3. `GetQuoteReserveByBase`: a zero delta gives zero with no error; a
non-zero delta fails with `ErrBaseReserveAtZero` exactly when the base reserve
after the swap is not positive, and otherwise gives the non-negative fixed-point
value `|invariant / (baseReserve + baseDelta) - quoteReserve|`. -/
theorem GetQuoteReserveByBase_spec (market : Market) (baseDelta : Dec) :
    (baseDelta.i = 0 →
      market.GetQuoteReserveByBase baseDelta = .ok ⟨0⟩) ∧
    (baseDelta.i ≠ 0 →
      (market.GetQuoteReserveByBase baseDelta = .error Error.ErrBaseReserveAtZero ↔
        market.BaseReserve.i + baseDelta.i ≤ 0) ∧
      (0 < market.BaseReserve.i + baseDelta.i →
        market.GetQuoteReserveByBase baseDelta =
          .ok (((market.QuoteReserve.Mul market.BaseReserve).Quo
                  (market.BaseReserve.Add baseDelta)).Sub market.QuoteReserve).Abs ∧
        0 ≤ ((((market.QuoteReserve.Mul market.BaseReserve).Quo
                  (market.BaseReserve.Add baseDelta)).Sub market.QuoteReserve).Abs).i)) := by
  have hna : ∀ d : Dec, d.Neg.Abs = d.Abs := by
    intro d
    simp only [Dec.Neg, Dec.Abs, Dec.mk.injEq]
    split_ifs <;> omega
  refine ⟨?_, ?_⟩
  · intro h0
    simp [Market.GetQuoteReserveByBase, Dec.IsZero, h0, Dec.ZeroDec]
  · intro h0
    refine ⟨?_, ?_⟩
    · by_cases hle : market.BaseReserve.i + baseDelta.i ≤ 0
      · simp [Market.GetQuoteReserveByBase, Dec.IsZero, h0, Dec.LTE, Dec.Add,
          Dec.ZeroDec, hle]
      · simp [Market.GetQuoteReserveByBase, Dec.IsZero, h0, Dec.LTE, Dec.Add,
          Dec.ZeroDec, hle]
    · intro hpos
      refine ⟨?_, Dec.Abs_nonneg _⟩
      have hle : ¬ market.BaseReserve.i + baseDelta.i ≤ 0 := by omega
      simp [Market.GetQuoteReserveByBase, Dec.IsZero, h0, Dec.LTE, Dec.Add,
        Dec.ZeroDec, hle, hna]

/-- The quotient step of a swap on mantissas: with `K` the rounded invariant,
`T` the truncated quotient of `K * P * P` by the reserve after the swap and `R`
the rounded `T`, the product `R * (Q + D)` is within `(Q + D) + P / 2` of
`Q * B`. -/
theorem swap_product_bounds (P Q B D K T R : Int) (hP : 2 ≤ P) (hA : 0 < Q + D)
    (hK1 : 2 * (K * P) ≤ 2 * (Q * B) + P) (hK2 : 2 * (Q * B) ≤ 2 * (K * P) + P)
    (hT1 : T * (Q + D) ≤ K * P * P) (hT2 : K * P * P < (T + 1) * (Q + D))
    (hR1 : 2 * (R * P) ≤ 2 * T + P) (hR2 : 2 * T ≤ 2 * (R * P) + P) :
    2 * (R * (Q + D)) ≤ 2 * (Q * B) + (Q + D) + P ∧
    2 * (Q * B) < 2 * (R * (Q + D)) + 2 * (Q + D) + P := by
  have hP0 : 0 < P := by omega
  constructor
  · have h1 : 2 * (R * P) * (Q + D) ≤ (2 * T + P) * (Q + D) :=
      mul_le_mul_of_nonneg_right hR1 hA.le
    have h2 : P * (2 * (R * (Q + D))) ≤ P * (2 * (K * P) + (Q + D)) := by nlinarith
    have h3 := le_of_mul_le_mul_left h2 hP0
    linarith
  · have h1 : 2 * T * (Q + D) ≤ (2 * (R * P) + P) * (Q + D) :=
      mul_le_mul_of_nonneg_right hR2 hA.le
    have h4 : 2 * (Q + D) ≤ P * (Q + D) := mul_le_mul_of_nonneg_right hP hA.le
    have h2 : P * (2 * (K * P)) < P * (2 * (R * (Q + D)) + 2 * (Q + D)) := by nlinarith
    have h3 := lt_of_mul_lt_mul_left h2 hP0.le
    linarith

/-- The reserve that results from applying the absolute output `|R - B|` in the
direction of the swap, times the quote reserve after the swap, is within
`(Q + D) + P` of `Q * B`. -/
theorem swap_applied_bounds (P Q B D R X : Int) (hP : 2 ≤ P) (hB : 0 < B)
    (hD : D ≠ 0) (hA : 0 < Q + D)
    (hu : 2 * (R * (Q + D)) ≤ 2 * (Q * B) + (Q + D) + P)
    (hl : 2 * (Q * B) < 2 * (R * (Q + D)) + 2 * (Q + D) + P)
    (hX : X = if 0 < D then B - (if R - B < 0 then -(R - B) else R - B)
               else B + (if R - B < 0 then -(R - B) else R - B)) :
    (Q + D) * X - Q * B ≤ (Q + D) + P ∧ Q * B - (Q + D) * X ≤ (Q + D) + P := by
  by_cases hD0 : 0 < D
  · have hDB : 0 < D * B := mul_pos hD0 hB
    rw [if_pos hD0] at hX
    by_cases hRB : R - B < 0
    · rw [if_pos hRB] at hX
      have hX1 : X = R := by omega
      subst hX1
      constructor <;> nlinarith
    · rw [if_neg hRB] at hX
      have hX1 : X = 2 * B - R := by omega
      subst hX1
      have h5 : 0 ≤ (R - B) * (Q + D) := mul_nonneg (by omega) hA.le
      constructor <;> nlinarith
  · have hD1 : D < 0 := by omega
    have hDB : D * B < 0 := mul_neg_of_neg_of_pos hD1 hB
    rw [if_neg hD0] at hX
    by_cases hRB : R - B < 0
    · rw [if_pos hRB] at hX
      have hX1 : X = 2 * B - R := by omega
      subst hX1
      have h5 : 0 ≤ (B - R - 1) * (Q + D) := mul_nonneg (by omega) hA.le
      constructor <;> nlinarith
    · rw [if_neg hRB] at hX
      have hX1 : X = R := by omega
      subst hX1
      constructor <;> nlinarith

/-- The mantissa inequality behind the invariant bound of
`GetBaseAmountByQuoteAmount`. -/
theorem GetBaseAmountByQuoteAmount_mantissa (Q B D X : Int) (hQ : 0 < Q) (hB : 0 < B)
    (hD : D ≠ 0) (hA : 0 < Q + D)
    (hX : X =
      if 0 < D then
        B - (Dec.Abs ((Dec.Quo (Dec.Mul ⟨Q⟩ ⟨B⟩) (Dec.Add ⟨Q⟩ ⟨D⟩)).Sub ⟨B⟩)).i
      else
        B + (Dec.Abs ((Dec.Quo (Dec.Mul ⟨Q⟩ ⟨B⟩) (Dec.Add ⟨Q⟩ ⟨D⟩)).Sub ⟨B⟩)).i) :
    (Q + D) * X - Q * B ≤ (Q + D) + precisionReuse ∧
    Q * B - (Q + D) * X ≤ (Q + D) + precisionReuse := by
  have hQB : 0 ≤ Q * B := (mul_pos hQ hB).le
  have hK := chopPrecisionAndRound_bounds (Q * B)
  have hK0 := chopPrecisionAndRound_nonneg (Q * B) hQB
  have hP : (0 : Int) ≤ precisionReuse := by decide
  have hKPP : 0 ≤ chopPrecisionAndRound (Q * B) * precisionReuse * precisionReuse :=
    mul_nonneg (mul_nonneg hK0 hP) hP
  have hT : (chopPrecisionAndRound (Q * B) * precisionReuse * precisionReuse).tdiv (Q + D) =
      chopPrecisionAndRound (Q * B) * precisionReuse * precisionReuse / (Q + D) :=
    Int.tdiv_eq_ediv hKPP hA.le
  have hT1 := Int.ediv_mul_le
    (chopPrecisionAndRound (Q * B) * precisionReuse * precisionReuse) (ne_of_gt hA)
  have hT2 := Int.lt_ediv_add_one_mul_self
    (chopPrecisionAndRound (Q * B) * precisionReuse * precisionReuse) hA
  have hR := chopPrecisionAndRound_bounds
    (chopPrecisionAndRound (Q * B) * precisionReuse * precisionReuse / (Q + D))
  have hb := swap_product_bounds precisionReuse Q B D _ _ _ (by decide) hA
    hK.1 hK.2 hT1 hT2 hR.1 hR.2
  refine swap_applied_bounds precisionReuse Q B D _ X (by decide) hB hD hA hb.1 hb.2 ?_
  rw [hX]
  simp only [Dec.Abs, Dec.Sub, Dec.Quo, Dec.Mul, Dec.Add, hT]

/-- Exact values: a mantissa bound of `A + P` on the difference of two products
is a bound of `(a + 1) * 10^-18` on the difference of the values. -/
theorem toRat_product_bound (A X Q B : Int)
    (h1 : A * X - Q * B ≤ A + precisionReuse) (h2 : Q * B - A * X ≤ A + precisionReuse) :
    |Dec.toRat ⟨A⟩ * Dec.toRat ⟨X⟩ - Dec.toRat ⟨Q⟩ * Dec.toRat ⟨B⟩| ≤
      (Dec.toRat ⟨A⟩ + 1) / 1000000000000000000 := by
  have c1 : ((A * X - Q * B : Int) : ℚ) ≤ ((A + precisionReuse : Int) : ℚ) := by
    exact_mod_cast h1
  have c2 : ((Q * B - A * X : Int) : ℚ) ≤ ((A + precisionReuse : Int) : ℚ) := by
    exact_mod_cast h2
  simp only [precisionReuse] at c1 c2
  push_cast at c1 c2
  simp only [Dec.toRat]
  have e2 : ((A : ℚ) / 1000000000000000000 + 1) / 1000000000000000000 =
      ((A : ℚ) + 1000000000000000000) / 1000000000000000000000000000000000000 := by ring
  rw [abs_le, e2]
  constructor
  · have e : (A : ℚ) / 1000000000000000000 * ((X : ℚ) / 1000000000000000000) -
        (Q : ℚ) / 1000000000000000000 * ((B : ℚ) / 1000000000000000000) =
        -(((Q : ℚ) * B - A * X) / 1000000000000000000000000000000000000) := by ring
    rw [e, neg_le_neg_iff]
    exact div_le_div_of_nonneg_right c2 (by norm_num)
  · have e : (A : ℚ) / 1000000000000000000 * ((X : ℚ) / 1000000000000000000) -
        (Q : ℚ) / 1000000000000000000 * ((B : ℚ) / 1000000000000000000) =
        ((A : ℚ) * X - Q * B) / 1000000000000000000000000000000000000 := by ring
    rw [e]
    exact div_le_div_of_nonneg_right c1 (by norm_num)

/-- C1 (amended). For a market with positive reserves and a non-zero quote delta
that leaves the quote reserve positive, `GetBaseAmountByQuoteAmount` returns a
`baseOut` for which the exact product `(quoteReserve + quoteDelta) *
(baseReserve - baseOut)` (delta positive), respectively `(quoteReserve +
quoteDelta) * (baseReserve + baseOut)` (delta negative), differs from
`quoteReserve * baseReserve` by at most `(quoteReserve + quoteDelta + 1)`
smallest units of `10^-18`. -/
theorem GetBaseAmountByQuoteAmount_invariant (market : Market) (quoteDelta : Dec)
    (hB : 0 < market.BaseReserve.i) (hQ : 0 < market.QuoteReserve.i)
    (hD : quoteDelta.i ≠ 0) (hA : 0 < market.QuoteReserve.i + quoteDelta.i) :
    ∃ baseOut, market.GetBaseAmountByQuoteAmount quoteDelta = .ok baseOut ∧
      (0 < quoteDelta.i →
        |(market.QuoteReserve.Add quoteDelta).toRat * (market.BaseReserve.Sub baseOut).toRat -
            market.QuoteReserve.toRat * market.BaseReserve.toRat| ≤
          ((market.QuoteReserve.Add quoteDelta).toRat + 1) / 1000000000000000000) ∧
      (quoteDelta.i < 0 →
        |(market.QuoteReserve.Add quoteDelta).toRat * (market.BaseReserve.Add baseOut).toRat -
            market.QuoteReserve.toRat * market.BaseReserve.toRat| ≤
          ((market.QuoteReserve.Add quoteDelta).toRat + 1) / 1000000000000000000) := by
  have hle : ¬ market.QuoteReserve.i + quoteDelta.i ≤ 0 := by omega
  refine ⟨(((market.QuoteReserve.Mul market.BaseReserve).Quo
      (market.QuoteReserve.Add quoteDelta)).Sub market.BaseReserve).Abs, ?_, ?_, ?_⟩
  · simp [Market.GetBaseAmountByQuoteAmount, Dec.IsZero, hD, Dec.LTE, Dec.Add,
      Dec.ZeroDec, hle]
  · intro hpos
    have h := GetBaseAmountByQuoteAmount_mantissa market.QuoteReserve.i market.BaseReserve.i
      quoteDelta.i _ hQ hB hD hA rfl
    rw [if_pos hpos] at h
    exact toRat_product_bound _ _ _ _ h.1 h.2
  · intro hneg
    have h := GetBaseAmountByQuoteAmount_mantissa market.QuoteReserve.i market.BaseReserve.i
      quoteDelta.i _ hQ hB hD hA rfl
    rw [if_neg (by omega)] at h
    exact toRat_product_bound _ _ _ _ h.1 h.2

/-- The amended invariant bound at the worked example: base 100, quote 1000,
delta +100. -/
theorem GetBaseAmountByQuoteAmount_invariant_witness :
    (0 < exampleMarket.BaseReserve.i ∧ 0 < exampleMarket.QuoteReserve.i ∧
      (Dec.NewDec 100).i ≠ 0 ∧ 0 < exampleMarket.QuoteReserve.i + (Dec.NewDec 100).i) ∧
    ∃ baseOut, exampleMarket.GetBaseAmountByQuoteAmount (Dec.NewDec 100) = .ok baseOut ∧
      (0 < (Dec.NewDec 100).i →
        |(exampleMarket.QuoteReserve.Add (Dec.NewDec 100)).toRat *
              (exampleMarket.BaseReserve.Sub baseOut).toRat -
            exampleMarket.QuoteReserve.toRat * exampleMarket.BaseReserve.toRat| ≤
          ((exampleMarket.QuoteReserve.Add (Dec.NewDec 100)).toRat + 1) /
            1000000000000000000) ∧
      ((Dec.NewDec 100).i < 0 →
        |(exampleMarket.QuoteReserve.Add (Dec.NewDec 100)).toRat *
              (exampleMarket.BaseReserve.Add baseOut).toRat -
            exampleMarket.QuoteReserve.toRat * exampleMarket.BaseReserve.toRat| ≤
          ((exampleMarket.QuoteReserve.Add (Dec.NewDec 100)).toRat + 1) /
            1000000000000000000) :=
  ⟨⟨by decide, by decide, by decide, by decide⟩,
    GetBaseAmountByQuoteAmount_invariant exampleMarket (Dec.NewDec 100)
      (by decide) (by decide) (by decide) (by decide)⟩

/-- C1 (as stated) fails on the worked example: with base 100, quote 1000 and
delta +100 the call returns `9.090909090909090909`, and the exact product
`1100 * (100 - baseOut)` exceeds the invariant `100000` by `100` smallest units,
not by at most one; the fixed-point product `Mul` differs by `100` units too. -/
theorem GetBaseAmountByQuoteAmount_invariant_counterexample :
    0 < exampleMarket.BaseReserve.i ∧ 0 < exampleMarket.QuoteReserve.i ∧
    0 < (Dec.NewDec 100).i ∧
    ∃ baseOut, exampleMarket.GetBaseAmountByQuoteAmount (Dec.NewDec 100) = .ok baseOut ∧
      ¬ (|(exampleMarket.QuoteReserve.Add (Dec.NewDec 100)).toRat *
              (exampleMarket.BaseReserve.Sub baseOut).toRat -
            exampleMarket.QuoteReserve.toRat * exampleMarket.BaseReserve.toRat| ≤
          1 / 1000000000000000000) ∧
      (((exampleMarket.QuoteReserve.Add (Dec.NewDec 100)).Mul
            (exampleMarket.BaseReserve.Sub baseOut)).i -
          (exampleMarket.QuoteReserve.Mul exampleMarket.BaseReserve).i = 100) := by
  refine ⟨by decide, by decide, by decide, ⟨9090909090909090909⟩, rfl, ?_, rfl⟩
  rw [abs_le]
  norm_num [Dec.toRat, Dec.Add, Dec.Sub, Dec.NewDec, exampleMarket, precisionReuse]

/-! ## Remaining margin and funding payment -/

/-- The result of `CalcRemainMarginWithFundingPayment` when the premium fraction
lookup succeeds, with the funding payment and the remaining margin named. -/
theorem CalcRemainMarginWithFundingPayment_ok (latest : Dec) (pos : Position)
    (marginDelta : Dec) :
    ∃ r, CalcRemainMarginWithFundingPayment (.ok latest) pos marginDelta = .ok r ∧
      r.LatestCumulativePremiumFraction = latest ∧
      r.FundingPayment =
        (if pos.Size_.i = 0 then ⟨0⟩
          else (latest.Sub pos.LastUpdateCumulativePremiumFraction).Mul pos.Size_) ∧
      (pos.Margin.i + marginDelta.i - r.FundingPayment.i < 0 →
        r.Margin.i = 0 ∧
          r.BadDebt.i = -(pos.Margin.i + marginDelta.i - r.FundingPayment.i)) ∧
      (0 ≤ pos.Margin.i + marginDelta.i - r.FundingPayment.i →
        r.Margin.i = pos.Margin.i + marginDelta.i - r.FundingPayment.i ∧
          r.BadDebt.i = 0) := by
  unfold CalcRemainMarginWithFundingPayment
  dsimp only
  have hfp : (if pos.Size_.IsZero = true then Dec.ZeroDec
      else (latest.Sub pos.LastUpdateCumulativePremiumFraction).Mul pos.Size_) =
      (if pos.Size_.i = 0 then ⟨0⟩
        else (latest.Sub pos.LastUpdateCumulativePremiumFraction).Mul pos.Size_) := by
    simp [Dec.IsZero, Dec.ZeroDec]
  rw [hfp]
  generalize (if pos.Size_.i = 0 then (⟨0⟩ : Dec)
    else (latest.Sub pos.LastUpdateCumulativePremiumFraction).Mul pos.Size_) = fp
  by_cases hneg : pos.Margin.i + marginDelta.i - fp.i < 0
  · have hc : ((pos.Margin.Add marginDelta).Sub fp).IsNegative = true := by
      simp [Dec.IsNegative, Dec.Sub, Dec.Add, hneg]
    rw [if_pos hc]
    refine ⟨_, rfl, rfl, rfl, ?_, ?_⟩
    · intro _
      simp [Dec.ZeroDec, Dec.Abs, Dec.Sub, Dec.Add, hneg]
    · intro h
      dsimp only at h
      omega
  · have hc : ¬ ((pos.Margin.Add marginDelta).Sub fp).IsNegative = true := by
      simp [Dec.IsNegative, Dec.Sub, Dec.Add, hneg]
    rw [if_neg hc]
    refine ⟨_, rfl, rfl, rfl, ?_, ?_⟩
    · intro h
      dsimp only at h
      omega
    · intro _
      simp [Dec.ZeroDec, Dec.Abs, Dec.Sub, Dec.Add, hneg]

/-- C4 (amended). For every position, margin delta and latest cumulative premium
fraction, at most one of `Margin` and `BadDebt` of the result is non-zero, and
exactly one is non-zero if and only if the remaining margin `position.Margin +
marginDelta - FundingPayment` is not zero; when it is zero both are zero. -/
theorem CalcRemainMarginWithFundingPayment_exclusive (latest : Dec) (pos : Position)
    (marginDelta : Dec) :
    ∃ r, CalcRemainMarginWithFundingPayment (.ok latest) pos marginDelta = .ok r ∧
      (r.Margin.i = 0 ∨ r.BadDebt.i = 0) ∧
      (((r.Margin.i ≠ 0 ∧ r.BadDebt.i = 0) ∨ (r.Margin.i = 0 ∧ r.BadDebt.i ≠ 0)) ↔
        pos.Margin.i + marginDelta.i - r.FundingPayment.i ≠ 0) ∧
      (pos.Margin.i + marginDelta.i - r.FundingPayment.i = 0 →
        r.Margin.i = 0 ∧ r.BadDebt.i = 0) := by
  obtain ⟨r, hr, _, _, hneg, hpos⟩ :=
    CalcRemainMarginWithFundingPayment_ok latest pos marginDelta
  refine ⟨r, hr, ?_, ?_, ?_⟩
  · by_cases h : pos.Margin.i + marginDelta.i - r.FundingPayment.i < 0
    · exact Or.inl (hneg h).1
    · exact Or.inr (hpos (by omega)).2
  · by_cases h : pos.Margin.i + marginDelta.i - r.FundingPayment.i < 0
    · have := hneg h
      omega
    · have := hpos (by omega)
      omega
  · intro h
    have := hpos (by omega)
    omega

/-- C4 (as stated) fails when the remaining margin is exactly zero: removing the
whole margin of 10 from a position with no funding payment due gives
`Margin = 0` and `BadDebt = 0`, so neither field is non-zero. -/
theorem CalcRemainMarginWithFundingPayment_exclusive_counterexample :
    ∃ r, CalcRemainMarginWithFundingPayment (.ok Dec.ZeroDec) examplePosition
          (Dec.NewDec (-10)) = .ok r ∧
      r.Margin.i = 0 ∧ r.BadDebt.i = 0 ∧
      ¬ ((r.Margin.i ≠ 0 ∧ r.BadDebt.i = 0) ∨ (r.Margin.i = 0 ∧ r.BadDebt.i ≠ 0)) :=
  ⟨⟨⟨0⟩, ⟨0⟩, ⟨0⟩, ⟨0⟩⟩, rfl, rfl, rfl, by decide⟩

/-- C5. With `remaining = position.Margin + marginDelta - FundingPayment`, the
result of `CalcRemainMarginWithFundingPayment` has `Margin >= 0`, `BadDebt >= 0`,
at least one of them zero, and `Margin - BadDebt = remaining`: a negative
remaining gives `Margin = 0`, `BadDebt = -remaining`, a non-negative one gives
`Margin = remaining`, `BadDebt = 0`. -/
theorem CalcRemainMarginWithFundingPayment_margin_badDebt (latest : Dec) (pos : Position)
    (marginDelta : Dec) :
    ∃ r, CalcRemainMarginWithFundingPayment (.ok latest) pos marginDelta = .ok r ∧
      0 ≤ r.Margin.i ∧ 0 ≤ r.BadDebt.i ∧
      (r.Margin.i = 0 ∨ r.BadDebt.i = 0) ∧
      r.Margin.i - r.BadDebt.i = pos.Margin.i + marginDelta.i - r.FundingPayment.i ∧
      (pos.Margin.i + marginDelta.i - r.FundingPayment.i < 0 →
        r.Margin.i = 0 ∧
          r.BadDebt.i = -(pos.Margin.i + marginDelta.i - r.FundingPayment.i)) ∧
      (0 ≤ pos.Margin.i + marginDelta.i - r.FundingPayment.i →
        r.Margin.i = pos.Margin.i + marginDelta.i - r.FundingPayment.i ∧
          r.BadDebt.i = 0) := by
  obtain ⟨r, hr, _, _, hneg, hpos⟩ :=
    CalcRemainMarginWithFundingPayment_ok latest pos marginDelta
  refine ⟨r, hr, ?_, ?_, ?_, ?_, hneg, hpos⟩
  all_goals
    by_cases h : pos.Margin.i + marginDelta.i - r.FundingPayment.i < 0
    · have := hneg h
      omega
    · have := hpos (by omega)
      omega

/-- The sign of a fixed-point product: `Mul` never has the sign opposite to the
exact product, and it is non-zero once the exact product reaches one smallest
unit. -/
theorem Dec.Mul_sign (a b : Dec) :
    (0 ≤ a.i * b.i → 0 ≤ (a.Mul b).i) ∧
    (a.i * b.i ≤ 0 → (a.Mul b).i ≤ 0) ∧
    (precisionReuse ≤ a.i * b.i → 0 < (a.Mul b).i) ∧
    (a.i * b.i ≤ -precisionReuse → (a.Mul b).i < 0) := by
  have hb := chopPrecisionAndRound_bounds (a.i * b.i)
  simp only [Dec.Mul, precisionReuse] at hb ⊢
  refine ⟨fun h => ?_, fun h => ?_, fun h => ?_, fun h => ?_⟩ <;> omega

/-- C6 (amended). The funding payment is `0` when the position size is `0` and
otherwise the fixed-point product `(latest - lastUpdate) * size`.  For a long
position it is non-negative when the premium fraction has risen and non-positive
when it has fallen, with the signs reversed for a short position; it is strictly
positive, respectively negative, whenever the exact product has magnitude at
least `10^-18`. -/
theorem CalcRemainMarginWithFundingPayment_fundingPayment (latest : Dec) (pos : Position)
    (marginDelta : Dec) :
    ∃ r, CalcRemainMarginWithFundingPayment (.ok latest) pos marginDelta = .ok r ∧
      (pos.Size_.i = 0 → r.FundingPayment = ⟨0⟩) ∧
      (pos.Size_.i ≠ 0 → r.FundingPayment =
        (latest.Sub pos.LastUpdateCumulativePremiumFraction).Mul pos.Size_) ∧
      (0 < pos.Size_.i → pos.LastUpdateCumulativePremiumFraction.i < latest.i →
        0 ≤ r.FundingPayment.i ∧
        (precisionReuse ≤ (latest.i - pos.LastUpdateCumulativePremiumFraction.i) * pos.Size_.i →
          0 < r.FundingPayment.i)) ∧
      (0 < pos.Size_.i → latest.i < pos.LastUpdateCumulativePremiumFraction.i →
        r.FundingPayment.i ≤ 0 ∧
        ((latest.i - pos.LastUpdateCumulativePremiumFraction.i) * pos.Size_.i ≤ -precisionReuse →
          r.FundingPayment.i < 0)) ∧
      (pos.Size_.i < 0 → pos.LastUpdateCumulativePremiumFraction.i < latest.i →
        r.FundingPayment.i ≤ 0 ∧
        ((latest.i - pos.LastUpdateCumulativePremiumFraction.i) * pos.Size_.i ≤ -precisionReuse →
          r.FundingPayment.i < 0)) ∧
      (pos.Size_.i < 0 → latest.i < pos.LastUpdateCumulativePremiumFraction.i →
        0 ≤ r.FundingPayment.i ∧
        (precisionReuse ≤ (latest.i - pos.LastUpdateCumulativePremiumFraction.i) * pos.Size_.i →
          0 < r.FundingPayment.i)) := by
  obtain ⟨r, hr, _, hfp, _, _⟩ :=
    CalcRemainMarginWithFundingPayment_ok latest pos marginDelta
  have hs := Dec.Mul_sign (latest.Sub pos.LastUpdateCumulativePremiumFraction) pos.Size_
  simp only [Dec.Sub] at hs
  refine ⟨r, hr, ?_, ?_, ?_, ?_, ?_, ?_⟩
  · intro h0
    rw [hfp, if_pos h0]
  · intro h0
    rw [hfp, if_neg h0]
  · intro hsz hd
    rw [hfp, if_neg (by omega)]
    simp only [Dec.Sub]
    exact ⟨hs.1 (mul_nonneg (by omega) hsz.le), hs.2.2.1⟩
  · intro hsz hd
    rw [hfp, if_neg (by omega)]
    simp only [Dec.Sub]
    exact ⟨hs.2.1 (mul_nonpos_of_nonpos_of_nonneg (by omega) hsz.le), hs.2.2.2⟩
  · intro hsz hd
    rw [hfp, if_neg (by omega)]
    simp only [Dec.Sub]
    exact ⟨hs.2.1 (mul_nonpos_of_nonneg_of_nonpos (by omega) hsz.le), hs.2.2.2⟩
  · intro hsz hd
    rw [hfp, if_neg (by omega)]
    simp only [Dec.Sub]
    exact ⟨hs.1 (mul_nonneg_of_nonpos_of_nonpos (by omega) hsz.le), hs.2.2.1⟩

/-- C6 (as stated) fails for dust amounts: a long position of size `10^-18` whose
premium fraction has risen by `10^-18` owes a funding payment of exactly `0`,
because the product `10^-36` rounds to zero; it is not positive. -/
theorem CalcRemainMarginWithFundingPayment_fundingPayment_counterexample :
    0 < dustPosition.Size_.i ∧
    dustPosition.LastUpdateCumulativePremiumFraction.i < (⟨1⟩ : Dec).i ∧
    ∃ r, CalcRemainMarginWithFundingPayment (.ok ⟨1⟩) dustPosition Dec.ZeroDec = .ok r ∧
      r.FundingPayment.i = 0 ∧ ¬ (0 < r.FundingPayment.i) :=
  ⟨by decide, by decide, ⟨⟨10000000000000000000⟩, ⟨0⟩, ⟨0⟩, ⟨1⟩⟩, rfl, rfl, by decide⟩

/-! ## Free collateral -/

/-- C7. The margin requirement does not round up: for the long position with
open notional 1650 the required margin `0.01 * 1650` is exactly `16.5`, whose
ceiling is `17`, and the code computes `16` (`RoundInt` rounds half to even), so
`calcFreeCollateral` returns `100 - 16 = 84`; a required margin of `16.2` gives
`16` as well. -/
theorem marginRequirement_rounds_half_to_even :
    marginPosition.Size_.IsPositive = true ∧
    initMarginRatio.toRat * marginPosition.OpenNotional.toRat = 33 / 2 ∧
    ⌈initMarginRatio.toRat * marginPosition.OpenNotional.toRat⌉ = 17 ∧
    marginRequirement marginPosition (Dec.NewDec 1650) = 16 ∧
    calcFreeCollateral (.ok ()) (.ok ()) (.ok (Dec.ZeroDec, Dec.NewDec 1650))
      marginPosition Dec.ZeroDec = .ok 84 ∧
    marginRequirement { marginPosition with OpenNotional := Dec.NewDec 1620 }
      (Dec.NewDec 1620) = 16 := by
  have hv : initMarginRatio.toRat * marginPosition.OpenNotional.toRat = 33 / 2 := by
    norm_num [Dec.toRat, initMarginRatio, marginPosition, Dec.NewDec, precisionReuse]
  refine ⟨rfl, hv, ?_, rfl, rfl, rfl⟩
  rw [hv, Int.ceil_eq_iff]
  norm_num

/-- Truncation toward zero on mantissas: a non-negative mantissa is rounded
down, a negative one is rounded up, in both cases by less than one unit. -/
theorem chopPrecisionAndTruncate_bounds (d : Int) :
    (0 ≤ d →
      0 ≤ chopPrecisionAndTruncate d ∧
      chopPrecisionAndTruncate d * precisionReuse ≤ d ∧
      d < (chopPrecisionAndTruncate d + 1) * precisionReuse) ∧
    (d < 0 →
      chopPrecisionAndTruncate d ≤ 0 ∧
      d ≤ chopPrecisionAndTruncate d * precisionReuse ∧
      (chopPrecisionAndTruncate d - 1) * precisionReuse < d) := by
  unfold chopPrecisionAndTruncate
  constructor
  · intro h
    rw [Int.tdiv_eq_ediv h (show (0 : Int) ≤ precisionReuse by decide)]
    simp only [precisionReuse]
    omega
  · intro h
    have e : d.tdiv precisionReuse = -((-d) / precisionReuse) := by
      have h1 := Int.neg_tdiv (-d) precisionReuse
      rw [neg_neg] at h1
      rw [h1, Int.tdiv_eq_ediv (by omega) (show (0 : Int) ≤ precisionReuse by decide)]
    rw [e]
    simp only [precisionReuse]
    omega

/-- C8 (amended). With `freeMargin = pos.Margin - fundingPayment` and
`minCollateral = min(unrealizedPnL + freeMargin, freeMargin)`, the returned
`freeCollateral` is `minCollateral - marginRequirement` truncated toward zero:
when that difference is non-negative, `freeCollateral` is non-negative and at
most the difference; when it is negative, `freeCollateral` lies between the
difference and zero.  In both cases it is less than one unit away. -/
theorem calcFreeCollateral_truncates (pos : Position)
    (fundingPayment unrealizedPnL positionNotional : Dec) :
    ∃ freeCollateral,
      calcFreeCollateral (.ok ()) (.ok ()) (.ok (unrealizedPnL, positionNotional))
        pos fundingPayment = .ok freeCollateral ∧
      ∃ minCollateral : Dec,
        minCollateral.i =
          min (unrealizedPnL.i + (pos.Margin.i - fundingPayment.i))
            (pos.Margin.i - fundingPayment.i) ∧
        (0 ≤ (minCollateral.Sub
              (SdkInt.ToDec (marginRequirement pos positionNotional))).i →
          0 ≤ freeCollateral ∧
          (SdkInt.ToDec freeCollateral).i ≤
            (minCollateral.Sub (SdkInt.ToDec (marginRequirement pos positionNotional))).i ∧
          (minCollateral.Sub (SdkInt.ToDec (marginRequirement pos positionNotional))).i <
            (SdkInt.ToDec (freeCollateral + 1)).i) ∧
        ((minCollateral.Sub
              (SdkInt.ToDec (marginRequirement pos positionNotional))).i < 0 →
          freeCollateral ≤ 0 ∧
          (minCollateral.Sub (SdkInt.ToDec (marginRequirement pos positionNotional))).i ≤
            (SdkInt.ToDec freeCollateral).i ∧
          (SdkInt.ToDec (freeCollateral - 1)).i <
            (minCollateral.Sub (SdkInt.ToDec (marginRequirement pos positionNotional))).i) := by
  refine ⟨_, rfl, Dec.MinDec (unrealizedPnL.Add (pos.Margin.Sub fundingPayment))
    (pos.Margin.Sub fundingPayment), ?_, ?_⟩
  · simp only [Dec.MinDec, Dec.LT, Dec.Add, Dec.Sub, decide_eq_true_eq]
    by_cases h : unrealizedPnL.i + (pos.Margin.i - fundingPayment.i) <
        pos.Margin.i - fundingPayment.i
    · rw [if_pos h, min_eq_left h.le]
    · rw [if_neg h, min_eq_right (by omega)]
  · exact chopPrecisionAndTruncate_bounds _

/-- C8 (as stated) fails when the difference is negative: with margin `0.5`, no
funding payment, no unrealized PnL and a margin requirement of `1`, the
difference `minCollateral - marginRequirement` is `-0.5` and the returned
`freeCollateral` is `0`, which is greater. -/
theorem calcFreeCollateral_truncates_counterexample :
    ∃ freeCollateral,
      calcFreeCollateral (.ok ()) (.ok ()) (.ok (Dec.ZeroDec, Dec.NewDec 100))
        thinPosition Dec.ZeroDec = .ok freeCollateral ∧
      freeCollateral = 0 ∧
      ((Dec.MinDec (Dec.ZeroDec.Add (thinPosition.Margin.Sub Dec.ZeroDec))
          (thinPosition.Margin.Sub Dec.ZeroDec)).Sub
        (SdkInt.ToDec (marginRequirement thinPosition (Dec.NewDec 100)))).i =
          -500000000000000000 ∧
      ¬ ((SdkInt.ToDec freeCollateral).i ≤
        ((Dec.MinDec (Dec.ZeroDec.Add (thinPosition.Margin.Sub Dec.ZeroDec))
            (thinPosition.Margin.Sub Dec.ZeroDec)).Sub
          (SdkInt.ToDec (marginRequirement thinPosition (Dec.NewDec 100)))).i) :=
  ⟨0, rfl, rfl, rfl, by decide⟩

/-! ## Fees -/

/-- The fixed-point product is within half a smallest unit of the exact
product. -/
theorem Dec.toRat_Mul_close (a b : Dec) :
    (a.Mul b).toRat ≤ a.toRat * b.toRat + 1 / 2000000000000000000 ∧
    a.toRat * b.toRat ≤ (a.Mul b).toRat + 1 / 2000000000000000000 := by
  have hb := chopPrecisionAndRound_bounds (a.i * b.i)
  simp only [precisionReuse] at hb
  have c1 : ((2 * (chopPrecisionAndRound (a.i * b.i) * 1000000000000000000) : Int) : ℚ) ≤
      ((2 * (a.i * b.i) + 1000000000000000000 : Int) : ℚ) := by exact_mod_cast hb.1
  have c2 : ((2 * (a.i * b.i) : Int) : ℚ) ≤
      ((2 * (chopPrecisionAndRound (a.i * b.i) * 1000000000000000000) +
        1000000000000000000 : Int) : ℚ) := by exact_mod_cast hb.2
  push_cast at c1 c2
  simp only [Dec.toRat, Dec.Mul]
  constructor
  · have e1 : (chopPrecisionAndRound (a.i * b.i) : ℚ) / 1000000000000000000 =
        (2 * ((chopPrecisionAndRound (a.i * b.i) : ℚ) * 1000000000000000000)) /
          2000000000000000000000000000000000000 := by ring
    have e2 : (a.i : ℚ) / 1000000000000000000 * ((b.i : ℚ) / 1000000000000000000) +
        1 / 2000000000000000000 =
        (2 * ((a.i : ℚ) * b.i) + 1000000000000000000) /
          2000000000000000000000000000000000000 := by ring
    rw [e1, e2]
    exact div_le_div_of_nonneg_right c1 (by norm_num)
  · have e1 : (chopPrecisionAndRound (a.i * b.i) : ℚ) / 1000000000000000000 +
        1 / 2000000000000000000 =
        (2 * ((chopPrecisionAndRound (a.i * b.i) : ℚ) * 1000000000000000000) +
          1000000000000000000) / 2000000000000000000000000000000000000 := by ring
    have e2 : (a.i : ℚ) / 1000000000000000000 * ((b.i : ℚ) / 1000000000000000000) =
        (2 * ((a.i : ℚ) * b.i)) / 2000000000000000000000000000000000000 := by ring
    rw [e1, e2]
    exact div_le_div_of_nonneg_right c2 (by norm_num)

/-- On a non-negative decimal `TruncateInt` is the floor of the value. -/
theorem Dec.TruncateInt_eq_floor (d : Dec) (h : 0 ≤ d.i) :
    d.TruncateInt = ⌊d.toRat⌋ := by
  have hb := (chopPrecisionAndTruncate_bounds d.i).1 h
  simp only [precisionReuse] at hb
  have c1 : ((chopPrecisionAndTruncate d.i * 1000000000000000000 : Int) : ℚ) ≤ (d.i : ℚ) := by
    exact_mod_cast hb.2.1
  have c2 : (d.i : ℚ) <
      (((chopPrecisionAndTruncate d.i + 1) * 1000000000000000000 : Int) : ℚ) := by
    exact_mod_cast hb.2.2
  push_cast at c1 c2
  symm
  rw [Int.floor_eq_iff]
  simp only [Dec.toRat, Dec.TruncateInt]
  constructor
  · rw [le_div_iff₀ (by norm_num)]
    exact c1
  · rw [div_lt_iff₀ (by norm_num)]
    exact c2

/-- The result of `CalcPerpTxFee` in one expression, zero notional included. -/
theorem CalcPerpTxFee_eq (tollRatio spreadRatio quoteAmt : Dec) :
    CalcPerpTxFee tollRatio spreadRatio quoteAmt =
      .ok ((quoteAmt.Mul tollRatio).TruncateInt, (quoteAmt.Mul spreadRatio).TruncateInt) := by
  unfold CalcPerpTxFee
  split_ifs with h
  · simp only [Dec.Equal, Dec.ZeroDec, decide_eq_true_eq] at h
    have e : ∀ r : Dec, (quoteAmt.Mul r).TruncateInt = 0 := by
      intro r
      simp only [Dec.Mul, h, zero_mul, Dec.TruncateInt]
      rfl
    rw [e, e]
  · rfl

/-- C9 (amended). A zero notional returns `(0, 0)` with no error, and for every
non-negative notional and non-negative ratios the toll is the floor of the
fixed-point product `Mul(notional, tollRatio)`, which is the exact product
rounded half to even at 18 digits, and likewise the spread; hence each fee is at
most the exact product plus half a smallest unit. -/
theorem CalcPerpTxFee_truncates (tollRatio spreadRatio quoteAmt : Dec)
    (hq : 0 ≤ quoteAmt.i) (ht : 0 ≤ tollRatio.i) (hs : 0 ≤ spreadRatio.i) :
    CalcPerpTxFee tollRatio spreadRatio Dec.ZeroDec = .ok (0, 0) ∧
    ∃ toll spread, CalcPerpTxFee tollRatio spreadRatio quoteAmt = .ok (toll, spread) ∧
      toll = ⌊(quoteAmt.Mul tollRatio).toRat⌋ ∧
      spread = ⌊(quoteAmt.Mul spreadRatio).toRat⌋ ∧
      (toll : ℚ) ≤ (quoteAmt.Mul tollRatio).toRat ∧
      (spread : ℚ) ≤ (quoteAmt.Mul spreadRatio).toRat ∧
      (toll : ℚ) ≤ quoteAmt.toRat * tollRatio.toRat + 1 / 2000000000000000000 ∧
      (spread : ℚ) ≤ quoteAmt.toRat * spreadRatio.toRat + 1 / 2000000000000000000 := by
  have hmt : 0 ≤ (quoteAmt.Mul tollRatio).i :=
    chopPrecisionAndRound_nonneg _ (mul_nonneg hq ht)
  have hms : 0 ≤ (quoteAmt.Mul spreadRatio).i :=
    chopPrecisionAndRound_nonneg _ (mul_nonneg hq hs)
  have ft := Dec.TruncateInt_eq_floor _ hmt
  have fs := Dec.TruncateInt_eq_floor _ hms
  have lt : ((quoteAmt.Mul tollRatio).TruncateInt : ℚ) ≤ (quoteAmt.Mul tollRatio).toRat := by
    rw [ft]
    exact Int.floor_le _
  have ls : ((quoteAmt.Mul spreadRatio).TruncateInt : ℚ) ≤
      (quoteAmt.Mul spreadRatio).toRat := by
    rw [fs]
    exact Int.floor_le _
  refine ⟨rfl, _, _, CalcPerpTxFee_eq tollRatio spreadRatio quoteAmt, ft, fs, lt, ls, ?_, ?_⟩
  · exact le_trans lt (Dec.toRat_Mul_close quoteAmt tollRatio).1
  · exact le_trans ls (Dec.toRat_Mul_close quoteAmt spreadRatio).1

/-- The amended fee statement at a notional of 1000 with both ratios `0.001`. -/
theorem CalcPerpTxFee_truncates_witness :
    (0 ≤ (Dec.NewDec 1000).i ∧ 0 ≤ (⟨1000000000000000⟩ : Dec).i) ∧
    (CalcPerpTxFee ⟨1000000000000000⟩ ⟨1000000000000000⟩ Dec.ZeroDec = .ok (0, 0) ∧
    ∃ toll spread,
      CalcPerpTxFee ⟨1000000000000000⟩ ⟨1000000000000000⟩ (Dec.NewDec 1000) =
        .ok (toll, spread) ∧
      toll = ⌊((Dec.NewDec 1000).Mul ⟨1000000000000000⟩).toRat⌋ ∧
      spread = ⌊((Dec.NewDec 1000).Mul ⟨1000000000000000⟩).toRat⌋ ∧
      (toll : ℚ) ≤ ((Dec.NewDec 1000).Mul ⟨1000000000000000⟩).toRat ∧
      (spread : ℚ) ≤ ((Dec.NewDec 1000).Mul ⟨1000000000000000⟩).toRat ∧
      (toll : ℚ) ≤ (Dec.NewDec 1000).toRat * (⟨1000000000000000⟩ : Dec).toRat +
        1 / 2000000000000000000 ∧
      (spread : ℚ) ≤ (Dec.NewDec 1000).toRat * (⟨1000000000000000⟩ : Dec).toRat +
        1 / 2000000000000000000) :=
  ⟨⟨by decide, by decide⟩,
    CalcPerpTxFee_truncates ⟨1000000000000000⟩ ⟨1000000000000000⟩ (Dec.NewDec 1000)
      (by decide) (by decide) (by decide)⟩

/-- C9 (as stated) fails: for the notional `999.9999999999999995` and the toll
ratio `0.001` the exact product is `0.9999999999999999995`, whose floor is `0`,
and the code returns a toll of `1`, more than the exact product. -/
theorem CalcPerpTxFee_truncates_counterexample :
    0 ≤ (⟨999999999999999999500⟩ : Dec).i ∧ 0 ≤ (⟨1000000000000000⟩ : Dec).i ∧
    ∃ toll spread,
      CalcPerpTxFee ⟨1000000000000000⟩ ⟨1000000000000000⟩ ⟨999999999999999999500⟩ =
        .ok (toll, spread) ∧
      toll = 1 ∧
      ⌊(⟨999999999999999999500⟩ : Dec).toRat * (⟨1000000000000000⟩ : Dec).toRat⌋ = 0 ∧
      ¬ ((toll : ℚ) ≤
        (⟨999999999999999999500⟩ : Dec).toRat * (⟨1000000000000000⟩ : Dec).toRat) := by
  refine ⟨by decide, by decide, 1, 1, rfl, rfl, ?_, ?_⟩
  · rw [Int.floor_eq_iff]
    norm_num [Dec.toRat]
  · norm_num [Dec.toRat]

/-- A fee on a non-negative notional at a ratio in `[0, 1)`: the rounded product
mantissa `m` is non-negative, at most the notional mantissa, and twice `m * P`
is at most `2 * (N * T) + P`. -/
theorem fee_product_bounds (quoteAmt ratio : Dec) (hq : 0 ≤ quoteAmt.i)
    (h0 : 0 ≤ ratio.i) (h1 : ratio.i < precisionReuse) :
    0 ≤ (quoteAmt.Mul ratio).i ∧ (quoteAmt.Mul ratio).i ≤ quoteAmt.i ∧
    2 * ((quoteAmt.Mul ratio).i * precisionReuse) ≤
      2 * (quoteAmt.i * ratio.i) + precisionReuse := by
  have hle : quoteAmt.i * ratio.i ≤ quoteAmt.i * precisionReuse :=
    mul_le_mul_of_nonneg_left h1.le hq
  exact ⟨chopPrecisionAndRound_nonneg _ (mul_nonneg hq h0),
    chopPrecisionAndRound_le_of_le _ _ hle,
    (chopPrecisionAndRound_bounds _).1⟩

/-- C10 (amended). For every non-negative notional and ratios each in `[0, 1)`,
the toll and the spread are non-negative and each is at most the notional; their
sum is at most the notional whenever `tollRatio + spreadRatio < 1`. -/
theorem CalcPerpTxFee_bounds (tollRatio spreadRatio quoteAmt : Dec)
    (hq : 0 ≤ quoteAmt.i)
    (ht0 : 0 ≤ tollRatio.i) (ht1 : tollRatio.i < precisionReuse)
    (hs0 : 0 ≤ spreadRatio.i) (hs1 : spreadRatio.i < precisionReuse) :
    ∃ toll spread, CalcPerpTxFee tollRatio spreadRatio quoteAmt = .ok (toll, spread) ∧
      0 ≤ toll ∧ 0 ≤ spread ∧
      (SdkInt.ToDec toll).i ≤ quoteAmt.i ∧
      (SdkInt.ToDec spread).i ≤ quoteAmt.i ∧
      (tollRatio.i + spreadRatio.i < precisionReuse →
        (SdkInt.ToDec (toll + spread)).i ≤ quoteAmt.i) := by
  obtain ⟨mt0, mtN, mtB⟩ := fee_product_bounds quoteAmt tollRatio hq ht0 ht1
  obtain ⟨ms0, msN, msB⟩ := fee_product_bounds quoteAmt spreadRatio hq hs0 hs1
  have tt := (chopPrecisionAndTruncate_bounds (quoteAmt.Mul tollRatio).i).1 mt0
  have ts := (chopPrecisionAndTruncate_bounds (quoteAmt.Mul spreadRatio).i).1 ms0
  refine ⟨_, _, CalcPerpTxFee_eq tollRatio spreadRatio quoteAmt, tt.1, ts.1, ?_, ?_, ?_⟩
  · simp only [SdkInt.ToDec, Dec.TruncateInt, precisionReuse] at tt ⊢
    omega
  · simp only [SdkInt.ToDec, Dec.TruncateInt, precisionReuse] at ts ⊢
    omega
  · intro hsum
    have hprod : quoteAmt.i * tollRatio.i + quoteAmt.i * spreadRatio.i ≤
        quoteAmt.i * precisionReuse - quoteAmt.i := by
      have h := mul_le_mul_of_nonneg_left
        (show tollRatio.i + spreadRatio.i ≤ precisionReuse - 1 by omega) hq
      linarith
    simp only [SdkInt.ToDec, Dec.TruncateInt, precisionReuse] at tt ts mtB msB hprod ⊢
    omega

/-- The amended fee bounds at a notional of 1000 with both ratios `0.001`. -/
theorem CalcPerpTxFee_bounds_witness :
    (0 ≤ (Dec.NewDec 1000).i ∧ 0 ≤ (⟨1000000000000000⟩ : Dec).i ∧
      (⟨1000000000000000⟩ : Dec).i < precisionReuse) ∧
    ∃ toll spread,
      CalcPerpTxFee ⟨1000000000000000⟩ ⟨1000000000000000⟩ (Dec.NewDec 1000) =
        .ok (toll, spread) ∧
      0 ≤ toll ∧ 0 ≤ spread ∧
      (SdkInt.ToDec toll).i ≤ (Dec.NewDec 1000).i ∧
      (SdkInt.ToDec spread).i ≤ (Dec.NewDec 1000).i ∧
      ((⟨1000000000000000⟩ : Dec).i + (⟨1000000000000000⟩ : Dec).i < precisionReuse →
        (SdkInt.ToDec (toll + spread)).i ≤ (Dec.NewDec 1000).i) :=
  ⟨⟨by decide, by decide, by decide⟩,
    CalcPerpTxFee_bounds ⟨1000000000000000⟩ ⟨1000000000000000⟩ (Dec.NewDec 1000)
      (by decide) (by decide) (by decide) (by decide) (by decide)⟩

/-- C10 (as stated) fails: with a notional of 10 and both ratios `0.9`, each in
`[0, 1)`, the toll is 9 and the spread is 9, so their sum 18 exceeds the
notional. -/
theorem CalcPerpTxFee_bounds_counterexample :
    0 ≤ (Dec.NewDec 10).i ∧
    0 ≤ (⟨900000000000000000⟩ : Dec).i ∧ (⟨900000000000000000⟩ : Dec).i < precisionReuse ∧
    ∃ toll spread,
      CalcPerpTxFee ⟨900000000000000000⟩ ⟨900000000000000000⟩ (Dec.NewDec 10) =
        .ok (toll, spread) ∧
      toll = 9 ∧ spread = 9 ∧
      ¬ ((SdkInt.ToDec (toll + spread)).i ≤ (Dec.NewDec 10).i) :=
  ⟨by decide, by decide, by decide, 9, 9, rfl, rfl, rfl, by decide⟩

/-! ## Repeg cost -/

/-- C11. `GetRepegCost` for a positive peg candidate: the cost is `0` when the
bias is `0`; otherwise, when `GetQuoteReserveByBase(bias)` gives `q`, the cost is
the fixed-point product `q * (pegCandidate - PegMultiplier)` for a positive bias
and its negation for a negative bias.  On the example (base 50, quote 1000, total
long 50, total short 0, peg 1, candidate 1.1) `q = 500` and the cost is `50`. -/
theorem GetRepegCost_value (market : Market) (pegCandidate : Dec) :
    (0 < pegCandidate.i → market.GetBias.i = 0 →
      market.GetRepegCost pegCandidate = .ok ⟨0⟩) ∧
    (∀ q, 0 < pegCandidate.i → market.GetBias.i ≠ 0 →
      market.GetQuoteReserveByBase market.GetBias = .ok q →
      (0 < market.GetBias.i →
        market.GetRepegCost pegCandidate =
          .ok (q.Mul (pegCandidate.Sub market.PegMultiplier))) ∧
      (market.GetBias.i < 0 →
        market.GetRepegCost pegCandidate =
          .ok (q.Mul (pegCandidate.Sub market.PegMultiplier)).Neg)) ∧
    (repegMarket.GetBias = Dec.NewDec 50 ∧
      repegMarket.GetQuoteReserveByBase repegMarket.GetBias = .ok (Dec.NewDec 500) ∧
      repegMarket.GetRepegCost ⟨1100000000000000000⟩ = .ok (Dec.NewDec 50)) := by
  refine ⟨?_, ?_, rfl, rfl, rfl⟩
  · intro hpos h0
    simp [Market.GetRepegCost, Dec.IsPositive, Dec.IsZero, hpos, h0, Dec.ZeroDec]
  · intro q hpos h0 hq
    constructor
    · intro hb
      have hn : ¬ market.GetBias.i < 0 := by omega
      simp [Market.GetRepegCost, Dec.IsPositive, Dec.IsZero, Dec.IsNegative, hpos, h0, hq, hn]
    · intro hb
      simp [Market.GetRepegCost, Dec.IsPositive, Dec.IsZero, Dec.IsNegative, hpos, h0, hq, hb]

/-! ## Reserve mutators -/

/-- C20. `AddToBaseReserveAndTotalLongShort(amount)` sets `BaseReserve` to
`BaseReserve + amount`; a positive amount is added to `TotalShort` and leaves
`TotalLong`, a negative amount has its negation added to `TotalLong` and leaves
`TotalShort`, a zero amount leaves both; `QuoteReserve`, `PegMultiplier`,
`SqrtDepth`, `Config` and `Pair` never change.  `AddToQuoteReserve(amount)`
changes only `QuoteReserve`, to `QuoteReserve + amount`. -/
theorem AddToReserves_frame (market : Market) (amount : Dec) :
    ((market.AddToBaseReserveAndTotalLongShort amount).BaseReserve =
        market.BaseReserve.Add amount ∧
      (0 < amount.i →
        (market.AddToBaseReserveAndTotalLongShort amount).TotalShort =
            market.TotalShort.Add amount ∧
          (market.AddToBaseReserveAndTotalLongShort amount).TotalLong = market.TotalLong) ∧
      (amount.i < 0 →
        (market.AddToBaseReserveAndTotalLongShort amount).TotalLong =
            market.TotalLong.Add amount.Neg ∧
          (market.AddToBaseReserveAndTotalLongShort amount).TotalShort = market.TotalShort) ∧
      (amount.i = 0 →
        (market.AddToBaseReserveAndTotalLongShort amount).TotalLong = market.TotalLong ∧
          (market.AddToBaseReserveAndTotalLongShort amount).TotalShort = market.TotalShort) ∧
      (market.AddToBaseReserveAndTotalLongShort amount).QuoteReserve = market.QuoteReserve ∧
      (market.AddToBaseReserveAndTotalLongShort amount).PegMultiplier = market.PegMultiplier ∧
      (market.AddToBaseReserveAndTotalLongShort amount).SqrtDepth = market.SqrtDepth ∧
      (market.AddToBaseReserveAndTotalLongShort amount).Config = market.Config ∧
      (market.AddToBaseReserveAndTotalLongShort amount).Pair = market.Pair) ∧
    market.AddToQuoteReserve amount =
      { market with QuoteReserve := market.QuoteReserve.Add amount } := by
  refine ⟨⟨?_, ?_, ?_, ?_, ?_, ?_, ?_, ?_, ?_⟩, rfl⟩
  all_goals
    simp only [Market.AddToBaseReserveAndTotalLongShort, Dec.IsPositive, Dec.IsNegative,
      decide_eq_true_eq]
  all_goals
    first
      | (intro h
         first
           | (rw [if_pos h]; exact ⟨rfl, rfl⟩)
           | (rw [if_neg (by omega), if_pos h]; exact ⟨rfl, rfl⟩)
           | (rw [if_neg (by omega), if_neg (by omega)]; exact ⟨rfl, rfl⟩))
      | (split_ifs <;> rfl)

/-! ## Swap invariant update -/

/-- C14. `UpdateSwapInvariant` rejects its input before anything else: an unset
multiplier fails with `ErrNilSwapInvariantMutliplier` and every set multiplier
`<= 0`, zero included, fails with `ErrNonPositiveSwapInvariantMutliplier`.  The
method has a value receiver, so neither outcome carries a changed market. -/
theorem UpdateSwapInvariant_rejects (pair : Except Error Unit) (market : Market) :
    market.UpdateSwapInvariant pair none = .error Error.ErrNilSwapInvariantMutliplier ∧
    (∀ multiplier : Dec, multiplier.i ≤ 0 →
      market.UpdateSwapInvariant pair (some multiplier) =
        .error Error.ErrNonPositiveSwapInvariantMutliplier) ∧
    market.UpdateSwapInvariant pair (some Dec.ZeroDec) =
      .error Error.ErrNonPositiveSwapInvariantMutliplier := by
  refine ⟨rfl, ?_, rfl⟩
  intro multiplier h
  have hn : ¬ 0 < multiplier.i := by omega
  simp [Market.UpdateSwapInvariant, Dec.IsPositive, hn]

/-! ## Market configuration -/

/-- The conditions under which `MarketConfig.Validate` returns no error. -/
theorem MarketConfig.Validate_config_ok_iff (cfg : MarketConfig) :
    cfg.Validate = .ok () ↔
      (0 ≤ cfg.TradeLimitRatio.i ∧ cfg.TradeLimitRatio.i ≤ precisionReuse) ∧
      (0 ≤ cfg.FluctuationLimitRatio.i ∧ cfg.FluctuationLimitRatio.i ≤ precisionReuse) ∧
      (0 ≤ cfg.MaxOracleSpreadRatio.i ∧ cfg.MaxOracleSpreadRatio.i ≤ precisionReuse) ∧
      (0 ≤ cfg.MaintenanceMarginRatio.i ∧ cfg.MaintenanceMarginRatio.i ≤ precisionReuse) ∧
      0 < cfg.MaxLeverage.i ∧
      cfg.MaintenanceMarginRatio.i ≤ (Dec.OneDec.Quo cfg.MaxLeverage).i := by
  simp only [MarketConfig.Validate, Dec.LT, Dec.GT, Dec.LTE, Dec.ZeroDec, Dec.OneDec,
    Bool.or_eq_true, decide_eq_true_eq, gt_iff_lt]
  split_ifs with h1 h2 h3 h4 h5 h6
  all_goals simp only [reduceCtorEq, false_iff, true_iff, not_and, not_le, not_lt]
  all_goals (intros; omega)

/-- C15. `MarketConfig.Validate` returns no error if and only if the trade limit
ratio, the fluctuation limit ratio, the max oracle spread ratio and the
maintenance margin ratio each lie in `[0, 1]`, the max leverage is positive and
the fixed-point quotient `1 / MaxLeverage` is at least the maintenance margin
ratio.  The default config with maintenance margin ratio 2 is rejected with the
message of the test; max leverage 10 validates with ratio `0.0625` and fails with
ratio `0.2`. -/
theorem MarketConfig_Validate_iff (cfg : MarketConfig) :
    (cfg.Validate = .ok () ↔
      (0 ≤ cfg.TradeLimitRatio.i ∧ cfg.TradeLimitRatio.i ≤ precisionReuse) ∧
      (0 ≤ cfg.FluctuationLimitRatio.i ∧ cfg.FluctuationLimitRatio.i ≤ precisionReuse) ∧
      (0 ≤ cfg.MaxOracleSpreadRatio.i ∧ cfg.MaxOracleSpreadRatio.i ≤ precisionReuse) ∧
      (0 ≤ cfg.MaintenanceMarginRatio.i ∧ cfg.MaintenanceMarginRatio.i ≤ precisionReuse) ∧
      0 < cfg.MaxLeverage.i ∧
      cfg.MaintenanceMarginRatio.i ≤ (Dec.OneDec.Quo cfg.MaxLeverage).i) ∧
    (DefaultMarketConfig.WithMaintenanceMarginRatio (Dec.NewDec 2)).Validate =
      .error (Error.other "maintenance margin ratio ratio must be 0 <= ratio <= 1") ∧
    ((DefaultMarketConfig.WithMaxLeverage (Dec.NewDec 10)).WithMaintenanceMarginRatio
      ⟨62500000000000000⟩).Validate = .ok () ∧
    ((DefaultMarketConfig.WithMaxLeverage (Dec.NewDec 10)).WithMaintenanceMarginRatio
      ⟨200000000000000000⟩).Validate =
      .error (Error.other
        "margin ratio opened with max leverage position will be lower than Maintenance margin ratio") :=
  ⟨MarketConfig.Validate_config_ok_iff cfg, rfl, rfl, rfl⟩

/-- The quotient `1 / MaxLeverage` on mantissas: a ratio `m` accepted against the
rounded quotient satisfies `2 * (m * L) <= 2 * P * P + L`. -/
theorem leverage_mantissa_bound (m L : Int) (hL : 0 < L)
    (hm : m ≤ (Dec.OneDec.Quo ⟨L⟩).i) :
    2 * (m * L) ≤ 2 * (precisionReuse * precisionReuse) + L := by
  have hP : (0 : Int) < precisionReuse := by decide
  have hnum : 0 ≤ precisionReuse * precisionReuse * precisionReuse :=
    mul_nonneg (mul_nonneg hP.le hP.le) hP.le
  have hT : (precisionReuse * precisionReuse * precisionReuse).tdiv L =
      precisionReuse * precisionReuse * precisionReuse / L :=
    Int.tdiv_eq_ediv hnum hL.le
  have hT1 := Int.ediv_mul_le (precisionReuse * precisionReuse * precisionReuse)
    (ne_of_gt hL)
  have hR := (chopPrecisionAndRound_bounds
    (precisionReuse * precisionReuse * precisionReuse / L)).1
  simp only [Dec.Quo, Dec.OneDec, hT] at hm
  generalize chopPrecisionAndRound (precisionReuse * precisionReuse * precisionReuse / L) = R
    at hm hR
  generalize precisionReuse * precisionReuse * precisionReuse / L = T at hT1 hR
  have h1 : 2 * (R * precisionReuse) * L ≤ (2 * T + precisionReuse) * L :=
    mul_le_mul_of_nonneg_right hR hL.le
  have h2 : precisionReuse * (2 * (R * L)) ≤
      precisionReuse * (2 * (precisionReuse * precisionReuse) + L) := by nlinarith
  have h3 := le_of_mul_le_mul_left h2 hP
  have h4 : m * L ≤ R * L := mul_le_mul_of_nonneg_right hm hL.le
  linarith

/-- C16 (amended). Every config accepted by `MarketConfig.Validate` satisfies
the leverage constraint up to the rounding of the quotient: as rational numbers
`MaintenanceMarginRatio * MaxLeverage <= 1 + MaxLeverage * 0.5 * 10^-18`, that
is, the maintenance margin ratio exceeds the true `1 / MaxLeverage` by at most
half a smallest unit. -/
theorem MarketConfig_Validate_leverage (cfg : MarketConfig) (h : cfg.Validate = .ok ()) :
    cfg.MaintenanceMarginRatio.toRat * cfg.MaxLeverage.toRat ≤
      1 + cfg.MaxLeverage.toRat / 2000000000000000000 := by
  obtain ⟨_, _, _, _, hL, hm⟩ := (MarketConfig.Validate_config_ok_iff cfg).1 h
  have hb := leverage_mantissa_bound cfg.MaintenanceMarginRatio.i cfg.MaxLeverage.i hL hm
  simp only [precisionReuse] at hb
  have c : ((2 * (cfg.MaintenanceMarginRatio.i * cfg.MaxLeverage.i) : Int) : ℚ) ≤
      ((2 * (1000000000000000000 * 1000000000000000000) + cfg.MaxLeverage.i : Int) : ℚ) := by
    exact_mod_cast hb
  push_cast at c
  simp only [Dec.toRat]
  have e1 : (cfg.MaintenanceMarginRatio.i : ℚ) / 1000000000000000000 *
      ((cfg.MaxLeverage.i : ℚ) / 1000000000000000000) =
      (2 * ((cfg.MaintenanceMarginRatio.i : ℚ) * cfg.MaxLeverage.i)) /
        2000000000000000000000000000000000000 := by ring
  have e2 : 1 + (cfg.MaxLeverage.i : ℚ) / 1000000000000000000 / 2000000000000000000 =
      (2000000000000000000000000000000000000 + (cfg.MaxLeverage.i : ℚ)) /
        2000000000000000000000000000000000000 := by ring
  rw [e1, e2]
  exact div_le_div_of_nonneg_right c (by norm_num)

/-- The amended leverage constraint at the default config. -/
theorem MarketConfig_Validate_leverage_witness :
    DefaultMarketConfig.Validate = .ok () ∧
    DefaultMarketConfig.MaintenanceMarginRatio.toRat * DefaultMarketConfig.MaxLeverage.toRat ≤
      1 + DefaultMarketConfig.MaxLeverage.toRat / 2000000000000000000 :=
  ⟨rfl, MarketConfig_Validate_leverage DefaultMarketConfig rfl⟩

/-- C16 (as stated) fails: the config with max leverage `1.5` and maintenance
margin ratio `0.666666666666666667` is accepted, because the quotient `1 / 1.5`
rounds up to that ratio, and the exact product `MaintenanceMarginRatio *
MaxLeverage` is `1.0000000000000000005`, greater than 1. -/
theorem MarketConfig_Validate_leverage_counterexample :
    ((DefaultMarketConfig.WithMaxLeverage ⟨1500000000000000000⟩).WithMaintenanceMarginRatio
      ⟨666666666666666667⟩).Validate = .ok () ∧
    ¬ ((⟨666666666666666667⟩ : Dec).toRat * (⟨1500000000000000000⟩ : Dec).toRat ≤ 1) := by
  refine ⟨rfl, ?_⟩
  norm_num [Dec.toRat]

/-! ## Quote asset and quote reserve conversion -/

/-- Truncated division by a positive divisor is less than one divisor away from
the dividend, on either side. -/
theorem tdiv_mul_bounds (a b : Int) (hb : 0 < b) :
    a - b < a.tdiv b * b ∧ a.tdiv b * b < a + b := by
  by_cases ha : 0 ≤ a
  · rw [Int.tdiv_eq_ediv ha hb.le]
    have h1 := Int.ediv_mul_le a (ne_of_gt hb)
    have h2 := Int.lt_ediv_add_one_mul_self a hb
    constructor <;> linarith
  · have e : a.tdiv b = -((-a) / b) := by
      have h1 := Int.neg_tdiv (-a) b
      rw [neg_neg] at h1
      rw [h1, Int.tdiv_eq_ediv (by omega) hb.le]
    rw [e]
    have h1 := Int.ediv_mul_le (-a) (ne_of_gt hb)
    have h2 := Int.lt_ediv_add_one_mul_self (-a) hb
    constructor <;> linarith

/-- Dividing by the peg and multiplying back, on mantissas: `T` the truncated
quotient, `Y` its rounding, `Z` the rounded product `Y * G`. -/
theorem quo_then_mul_bounds (P X G T Y Z : Int) (hP : 2 ≤ P) (hG : 0 < G)
    (hT1 : X * P * P - G < T * G) (hT2 : T * G < X * P * P + G)
    (hY1 : 2 * (Y * P) ≤ 2 * T + P) (hY2 : 2 * T ≤ 2 * (Y * P) + P)
    (hZ1 : 2 * (Z * P) ≤ 2 * (Y * G) + P) (hZ2 : 2 * (Y * G) ≤ 2 * (Z * P) + P) :
    (Z - X) * P ≤ G + P ∧ (X - Z) * P ≤ G + P := by
  have hP0 : 0 < P := by omega
  have b1 : 2 * (Y * P) * G ≤ (2 * T + P) * G := mul_le_mul_of_nonneg_right hY1 hG.le
  have b2 : 2 * T * G ≤ (2 * (Y * P) + P) * G := mul_le_mul_of_nonneg_right hY2 hG.le
  have a1 : 2 * (Z * P) * P ≤ (2 * (Y * G) + P) * P := mul_le_mul_of_nonneg_right hZ1 hP0.le
  have a2 : 2 * (Y * G) * P ≤ (2 * (Z * P) + P) * P := mul_le_mul_of_nonneg_right hZ2 hP0.le
  have g : 2 * G ≤ P * G := mul_le_mul_of_nonneg_right hP hG.le
  constructor
  · have h : (2 * P) * ((Z - X) * P) ≤ (2 * P) * (G + P) := by nlinarith
    exact le_of_mul_le_mul_left h (by omega)
  · have h : (2 * P) * ((X - Z) * P) ≤ (2 * P) * (G + P) := by nlinarith
    exact le_of_mul_le_mul_left h (by omega)

/-- Multiplying by the peg and dividing back, on mantissas: `W` the rounded
product `X * G`, `T` the truncated quotient, `V` its rounding. -/
theorem mul_then_quo_bounds (P X G W T V : Int) (hP : 2 ≤ P) (hG : 0 < G)
    (hW1 : 2 * (W * P) ≤ 2 * (X * G) + P) (hW2 : 2 * (X * G) ≤ 2 * (W * P) + P)
    (hT1 : W * P * P - G < T * G) (hT2 : T * G < W * P * P + G)
    (hV1 : 2 * (V * P) ≤ 2 * T + P) (hV2 : 2 * T ≤ 2 * (V * P) + P) :
    (V - X) * G ≤ P + G ∧ (X - V) * G ≤ P + G := by
  have hP0 : 0 < P := by omega
  have b1 : 2 * (V * P) * G ≤ (2 * T + P) * G := mul_le_mul_of_nonneg_right hV1 hG.le
  have b2 : 2 * T * G ≤ (2 * (V * P) + P) * G := mul_le_mul_of_nonneg_right hV2 hG.le
  have a1 : 2 * (W * P) * P ≤ (2 * (X * G) + P) * P := mul_le_mul_of_nonneg_right hW1 hP0.le
  have a2 : 2 * (X * G) * P ≤ (2 * (W * P) + P) * P := mul_le_mul_of_nonneg_right hW2 hP0.le
  have g : 2 * G ≤ P * G := mul_le_mul_of_nonneg_right hP hG.le
  have pp : 2 * P ≤ P * P := mul_le_mul_of_nonneg_right hP hP0.le
  constructor
  · have h : (2 * P) * ((V - X) * G) ≤ (2 * P) * (P + G) := by nlinarith
    exact le_of_mul_le_mul_left h (by omega)
  · have h : (2 * P) * ((X - V) * G) ≤ (2 * P) * (P + G) := by nlinarith
    exact le_of_mul_le_mul_left h (by omega)

/-- Exact values: a mantissa bound `|Z - X| * P <= G + P` is a bound of
`(g + 1) * 10^-18` on the difference of the values. -/
theorem toRat_diff_bound_mul (Z X G : Int)
    (h1 : (Z - X) * precisionReuse ≤ G + precisionReuse)
    (h2 : (X - Z) * precisionReuse ≤ G + precisionReuse) :
    |Dec.toRat ⟨Z⟩ - Dec.toRat ⟨X⟩| ≤ (Dec.toRat ⟨G⟩ + 1) / 1000000000000000000 := by
  simp only [precisionReuse] at h1 h2
  have c1 : (((Z - X) * 1000000000000000000 : Int) : ℚ) ≤
      ((G + 1000000000000000000 : Int) : ℚ) := by exact_mod_cast h1
  have c2 : (((X - Z) * 1000000000000000000 : Int) : ℚ) ≤
      ((G + 1000000000000000000 : Int) : ℚ) := by exact_mod_cast h2
  push_cast at c1 c2
  simp only [Dec.toRat]
  have e2 : ((G : ℚ) / 1000000000000000000 + 1) / 1000000000000000000 =
      ((G : ℚ) + 1000000000000000000) / 1000000000000000000000000000000000000 := by ring
  rw [abs_le, e2]
  constructor
  · have e : (Z : ℚ) / 1000000000000000000 - (X : ℚ) / 1000000000000000000 =
        -((((X : ℚ) - Z) * 1000000000000000000) /
          1000000000000000000000000000000000000) := by ring
    rw [e, neg_le_neg_iff]
    exact div_le_div_of_nonneg_right c2 (by norm_num)
  · have e : (Z : ℚ) / 1000000000000000000 - (X : ℚ) / 1000000000000000000 =
        (((Z : ℚ) - X) * 1000000000000000000) /
          1000000000000000000000000000000000000 := by ring
    rw [e]
    exact div_le_div_of_nonneg_right c1 (by norm_num)

/-- Exact values: a mantissa bound `|V - X| * G <= P + G` with `G > 0` is a bound
of `(1 / g + 1) * 10^-18` on the difference of the values. -/
theorem toRat_diff_bound_quo (V X G : Int) (hG : 0 < G)
    (h1 : (V - X) * G ≤ precisionReuse + G)
    (h2 : (X - V) * G ≤ precisionReuse + G) :
    |Dec.toRat ⟨V⟩ - Dec.toRat ⟨X⟩| ≤ (1 / Dec.toRat ⟨G⟩ + 1) / 1000000000000000000 := by
  simp only [precisionReuse] at h1 h2
  have c1 : (((V - X) * G : Int) : ℚ) ≤ ((1000000000000000000 + G : Int) : ℚ) := by
    exact_mod_cast h1
  have c2 : (((X - V) * G : Int) : ℚ) ≤ ((1000000000000000000 + G : Int) : ℚ) := by
    exact_mod_cast h2
  push_cast at c1 c2
  have hGq : (0 : ℚ) < (G : ℚ) := by exact_mod_cast hG
  have hne : (G : ℚ) ≠ 0 := ne_of_gt hGq
  simp only [Dec.toRat]
  have e2 : (1 / ((G : ℚ) / 1000000000000000000) + 1) / 1000000000000000000 =
      (1000000000000000000 + (G : ℚ)) / ((G : ℚ) * 1000000000000000000) := by
    field_simp
  have hden : (0 : ℚ) ≤ (G : ℚ) * 1000000000000000000 := by positivity
  rw [abs_le, e2]
  constructor
  · have e : (V : ℚ) / 1000000000000000000 - (X : ℚ) / 1000000000000000000 =
        -((((X : ℚ) - V) * G) / ((G : ℚ) * 1000000000000000000)) := by
      field_simp
      ring
    rw [e, neg_le_neg_iff]
    exact div_le_div_of_nonneg_right c2 hden
  · have e : (V : ℚ) / 1000000000000000000 - (X : ℚ) / 1000000000000000000 =
        (((V : ℚ) - X) * G) / ((G : ℚ) * 1000000000000000000) := by
      field_simp
      ring
    rw [e]
    exact div_le_div_of_nonneg_right c1 hden

/-- C17 (amended). For a market with a positive peg multiplier and every amount
`x`, converting quote asset to quote reserve and back gives a value within
`(PegMultiplier + 1) * 10^-18` of `x`, and converting quote reserve to quote
asset and back gives a value within `(1 / PegMultiplier + 1) * 10^-18` of `x`. -/
theorem quote_conversion_round_trip (market : Market) (x : Dec)
    (hpeg : 0 < market.PegMultiplier.i) :
    |(market.FromQuoteReserveToAsset (market.FromQuoteAssetToReserve x)).toRat - x.toRat| ≤
      (market.PegMultiplier.toRat + 1) / 1000000000000000000 ∧
    |(market.FromQuoteAssetToReserve (market.FromQuoteReserveToAsset x)).toRat - x.toRat| ≤
      (1 / market.PegMultiplier.toRat + 1) / 1000000000000000000 := by
  have hP : (2 : Int) ≤ precisionReuse := by decide
  constructor
  · have hT := tdiv_mul_bounds (x.i * precisionReuse * precisionReuse)
      market.PegMultiplier.i hpeg
    have hY := chopPrecisionAndRound_bounds
      ((x.i * precisionReuse * precisionReuse).tdiv market.PegMultiplier.i)
    have hZ := chopPrecisionAndRound_bounds
      (chopPrecisionAndRound
        ((x.i * precisionReuse * precisionReuse).tdiv market.PegMultiplier.i) *
          market.PegMultiplier.i)
    have hb := quo_then_mul_bounds precisionReuse x.i market.PegMultiplier.i _ _ _ hP hpeg
      hT.1 hT.2 hY.1 hY.2 hZ.1 hZ.2
    exact toRat_diff_bound_mul _ _ _ hb.1 hb.2
  · have hW := chopPrecisionAndRound_bounds (x.i * market.PegMultiplier.i)
    have hT := tdiv_mul_bounds
      (chopPrecisionAndRound (x.i * market.PegMultiplier.i) * precisionReuse * precisionReuse)
      market.PegMultiplier.i hpeg
    have hV := chopPrecisionAndRound_bounds
      ((chopPrecisionAndRound (x.i * market.PegMultiplier.i) * precisionReuse *
        precisionReuse).tdiv market.PegMultiplier.i)
    have hb := mul_then_quo_bounds precisionReuse x.i market.PegMultiplier.i _ _ _ hP hpeg
      hW.1 hW.2 hT.1 hT.2 hV.1 hV.2
    exact toRat_diff_bound_quo _ _ _ hpeg hb.1 hb.2

/-- The amended round trip at the worked example market (peg multiplier 1) and
the amount `1/3` rounded to 18 digits. -/
theorem quote_conversion_round_trip_witness :
    0 < exampleMarket.PegMultiplier.i ∧
    (|(exampleMarket.FromQuoteReserveToAsset
          (exampleMarket.FromQuoteAssetToReserve ⟨333333333333333333⟩)).toRat -
        (⟨333333333333333333⟩ : Dec).toRat| ≤
      (exampleMarket.PegMultiplier.toRat + 1) / 1000000000000000000 ∧
    |(exampleMarket.FromQuoteAssetToReserve
          (exampleMarket.FromQuoteReserveToAsset ⟨333333333333333333⟩)).toRat -
        (⟨333333333333333333⟩ : Dec).toRat| ≤
      (1 / exampleMarket.PegMultiplier.toRat + 1) / 1000000000000000000) :=
  ⟨by decide, quote_conversion_round_trip exampleMarket ⟨333333333333333333⟩ (by decide)⟩

/-- C17 (as stated) fails in both directions.  With peg multiplier 30 the amount
`1` converts to the reserve `0.033333333333333333` and back to
`0.99999999999999999`, which is 10 smallest units away.  With peg multiplier
`0.01` the amount `1.000000000000000149` converts to the asset
`0.010000000000000001` and back to `1.0000000000000001`, which is 49 smallest
units away. -/
theorem quote_conversion_round_trip_counterexample :
    (0 < (Dec.NewDec 30).i ∧
      ({ exampleMarket with PegMultiplier := Dec.NewDec 30 } : Market).FromQuoteReserveToAsset
        (({ exampleMarket with PegMultiplier := Dec.NewDec 30 } : Market).FromQuoteAssetToReserve
          (Dec.NewDec 1)) = ⟨999999999999999990⟩ ∧
      ¬ (|(⟨999999999999999990⟩ : Dec).toRat - (Dec.NewDec 1).toRat| ≤
        1 / 1000000000000000000)) ∧
    (0 < (⟨10000000000000000⟩ : Dec).i ∧
      ({ exampleMarket with PegMultiplier := ⟨10000000000000000⟩ } : Market).FromQuoteAssetToReserve
        (({ exampleMarket with PegMultiplier := ⟨10000000000000000⟩ } : Market).FromQuoteReserveToAsset
          ⟨1000000000000000149⟩) = ⟨1000000000000000100⟩ ∧
      ¬ (|(⟨1000000000000000100⟩ : Dec).toRat - (⟨1000000000000000149⟩ : Dec).toRat| ≤
        1 / 1000000000000000000)) := by
  refine ⟨⟨by decide, rfl, ?_⟩, ⟨by decide, rfl, ?_⟩⟩
  · rw [abs_le]
    norm_num [Dec.toRat, Dec.NewDec, precisionReuse]
  · rw [abs_le]
    norm_num [Dec.toRat]

/-! ## Liquidity depth -/

/-- The square root of a non-negative decimal, given the integer square root `q`
of its mantissa. -/
theorem common.MustSqrtDec_eq_ok (d : Dec) (q : Nat) (h1 : (q : Int) * q ≤ d.i)
    (h2 : d.i < ((q : Int) + 1) * (q + 1)) :
    common.MustSqrtDec d = .ok ⟨(q : Int) * 1000000000⟩ := by
  have h0 : 0 ≤ d.i := le_trans (mul_nonneg (Int.natCast_nonneg q) (Int.natCast_nonneg q)) h1
  obtain ⟨n, hn⟩ := Int.eq_ofNat_of_zero_le h0
  have hq : q = Nat.sqrt n := by
    rw [Nat.eq_sqrt]
    rw [hn] at h1 h2
    constructor
    · exact_mod_cast h1
    · exact_mod_cast h2
  unfold common.MustSqrtDec
  rw [if_neg (by omega), hn, Int.toNat_ofNat, ← hq]

theorem common.SqrtDec_eq_ok (d : Dec) (q : Nat) (h1 : (q : Int) * q ≤ d.i)
    (h2 : d.i < ((q : Int) + 1) * (q + 1)) :
    common.SqrtDec d = .ok ⟨(q : Int) * 1000000000⟩ := by
  unfold common.SqrtDec
  rw [common.MustSqrtDec_eq_ok d q h1 h2]

/-- Whenever `MustSqrtDec` returns, `SqrtDec` returns the same value. -/
theorem common.SqrtDec_of_MustSqrtDec (d r : Dec) (h : common.MustSqrtDec d = .ok r) :
    common.SqrtDec d = .ok r := by
  unfold common.SqrtDec
  rw [h]

/-- The bit-length test of `ComputeSqrtDepth` in terms of a power of two. -/
theorem common.BitLen_gt_iff (x : Int) :
    common.BitLen x > common.MaxDecBitLen ↔ 2 ^ 315 ≤ x.natAbs := by
  unfold common.BitLen common.MaxDecBitLen
  exact Nat.lt_size

/-- What `ComputeSqrtDepth` computes: the overflow test is on the square of the
base reserve mantissa, and past it the result is the square root of the
fixed-point product of the reserves. -/
theorem ComputeSqrtDepth_eq (market : Market) :
    market.ComputeSqrtDepth =
      if 2 ^ 315 ≤ (chopPrecisionAndRound (market.BaseReserve.i * market.BaseReserve.i)).natAbs
      then .error Error.ErrLiquidityDepthOverflow
      else common.SqrtDec (market.QuoteReserve.Mul market.BaseReserve) := by
  unfold Market.ComputeSqrtDepth
  simp only [common.BitLen_gt_iff, common.ChopPrecisionAndRound]

/-- The conditions under which `ValidateLiquidityDepth` accepts a market. -/
theorem ValidateLiquidityDepth_ok_iff (market : Market) :
    market.ValidateLiquidityDepth = .ok () ↔
      ∃ computedSqrtDepth, market.ComputeSqrtDepth = .ok computedSqrtDepth ∧
        0 < market.SqrtDepth.i ∧
        |market.SqrtDepth.i - computedSqrtDepth.i| ≤ 1000000000000000000 := by
  unfold Market.ValidateLiquidityDepth
  cases hc : market.ComputeSqrtDepth with
  | error err => simp
  | ok computed =>
    simp only [Dec.IsPositive, Dec.LTE, Dec.Abs, Dec.Sub, Dec.NewDec, precisionReuse,
      Bool.not_eq_true', decide_eq_false_iff_not, decide_eq_true_eq, Except.ok.injEq,
      exists_eq_left', abs_le]
    split_ifs with h1 h2 h3 h4 <;>
      simp only [reduceCtorEq, false_iff, true_iff, not_and, not_le, not_lt] <;>
      (intros; omega)

/-- C18 (amended). `ValidateLiquidityDepth` accepts a market if and only if
`ComputeSqrtDepth` succeeds, the stored `SqrtDepth` is positive, and the stored
`SqrtDepth` differs from the computed depth by at most `1`, that is `sdk.NewDec(1)`
or `10^18` smallest units. -/
theorem ValidateLiquidityDepth_accepts_iff (market : Market) :
    market.ValidateLiquidityDepth = .ok () ↔
      ∃ computedSqrtDepth, market.ComputeSqrtDepth = .ok computedSqrtDepth ∧
        0 < market.SqrtDepth.i ∧
        |market.SqrtDepth.i - computedSqrtDepth.i| ≤ (Dec.NewDec 1).i :=
  ValidateLiquidityDepth_ok_iff market

/-- C18 (as stated) fails: the market with reserves 100 and 1000 and a stored
depth of 317 is accepted, although the computed depth is `316.227766016` and the
two differ by more than `0.77`, far more than one smallest unit. -/
theorem ValidateLiquidityDepth_accepts_counterexample :
    wideDepthMarket.SqrtDepth = Dec.NewDec 317 ∧
    wideDepthMarket.ComputeSqrtDepth = .ok ⟨316227766016000000000⟩ ∧
    wideDepthMarket.ValidateLiquidityDepth = .ok () ∧
    ¬ (|wideDepthMarket.SqrtDepth.i - 316227766016000000000| ≤ 1) := by
  have hc : wideDepthMarket.ComputeSqrtDepth = .ok ⟨316227766016000000000⟩ := by
    rw [ComputeSqrtDepth_eq]
    have e1 : chopPrecisionAndRound
        (wideDepthMarket.BaseReserve.i * wideDepthMarket.BaseReserve.i) =
        10000000000000000000000 := rfl
    have e2 : wideDepthMarket.QuoteReserve.Mul wideDepthMarket.BaseReserve =
        ⟨100000000000000000000000⟩ := rfl
    rw [e1, e2, if_neg (by norm_num)]
    exact common.SqrtDec_eq_ok _ 316227766016 (by decide) (by decide)
  refine ⟨rfl, hc, ?_, by decide⟩
  rw [ValidateLiquidityDepth_ok_iff]
  exact ⟨_, hc, by decide, by decide⟩

/-- C19. The overflow test of `ComputeSqrtDepth` is on `BaseReserve *
BaseReserve`, not on the product of the two reserves: for base reserve `10^40`
and quote reserve 1 the product of the reserve mantissas, chopped and rounded,
has a bit length within `MaxDecBitLen` and the square root of the product is
`10^20`, and the code fails with `ErrLiquidityDepthOverflow`. -/
theorem ComputeSqrtDepth_tests_base_squared :
    ¬ (common.BitLen (common.ChopPrecisionAndRound
        (lopsidedMarket.BaseReserve.i * lopsidedMarket.QuoteReserve.i)) >
      common.MaxDecBitLen) ∧
    common.SqrtDec (lopsidedMarket.QuoteReserve.Mul lopsidedMarket.BaseReserve) =
      .ok (Dec.NewDec 100000000000000000000) ∧
    lopsidedMarket.ComputeSqrtDepth = .error Error.ErrLiquidityDepthOverflow := by
  refine ⟨?_, ?_, ?_⟩
  · rw [common.BitLen_gt_iff]
    have e : common.ChopPrecisionAndRound
        (lopsidedMarket.BaseReserve.i * lopsidedMarket.QuoteReserve.i) =
        10000000000000000000000000000000000000000000000000000000000 := rfl
    rw [e]
    norm_num
  · exact common.SqrtDec_eq_ok _ 100000000000000000000000000000 (by decide) (by decide)
  · rw [ComputeSqrtDepth_eq]
    have e : chopPrecisionAndRound
        (lopsidedMarket.BaseReserve.i * lopsidedMarket.BaseReserve.i) =
        100000000000000000000000000000000000000000000000000000000000000000000000000000000000000000000000000 :=
      rfl
    rw [e, if_pos (by norm_num)]

/-! ## Swap invariant update: the result -/

/-- The conditions under which `Market.Validate` returns no error. -/
theorem Market.Validate_market_ok_iff (pair : Except Error Unit) (market : Market) :
    market.Validate pair = .ok () ↔
      pair = .ok () ∧ 0 < market.QuoteReserve.i ∧ 0 < market.BaseReserve.i ∧
      market.ValidateLiquidityDepth = .ok () ∧ 0 < market.PegMultiplier.i ∧
      market.Config.Validate = .ok () := by
  unfold Market.Validate
  cases pair with
  | error err => simp
  | ok u =>
    cases hr : market.ValidateReserves with
    | error err =>
      simp only [reduceCtorEq, false_iff, true_and, not_and]
      intro hq hb
      simp [Market.ValidateReserves, Dec.IsPositive, hq, hb] at hr
    | ok v =>
      have hqb : 0 < market.QuoteReserve.i ∧ 0 < market.BaseReserve.i := by
        unfold Market.ValidateReserves at hr
        split_ifs at hr with hc
        simp only [Dec.IsPositive, Bool.or_eq_true, Bool.not_eq_true', decide_eq_false_iff_not,
          not_or, not_not] at hc
        exact hc
      cases hl : market.ValidateLiquidityDepth with
      | error err => simp
      | ok w =>
        cases hcfg : market.Config.Validate with
        | error err =>
          simp only [Dec.LTE, Dec.ZeroDec, decide_eq_true_eq]
          split_ifs <;> simp
        | ok x =>
          simp only [Dec.LTE, Dec.ZeroDec, decide_eq_true_eq]
          split_ifs with hp
          · simp only [reduceCtorEq, false_iff]
            rintro ⟨_, _, _, _, hpp, _⟩
            omega
          · simp only [true_iff, true_and]
            exact ⟨hqb.1, hqb.2, by omega, trivial⟩

/-- The market that `UpdateSwapInvariant` builds from the scale factor `c` and
the depth `d`. -/
theorem UpdateSwapInvariant_eq_ok (pair : Except Error Unit) (market : Market)
    (multiplier c d : Dec) (hm : 0 < multiplier.i)
    (hk : (market.BaseReserve.Mul market.QuoteReserve).i ≠ 0)
    (hc : common.SqrtDec
      (((market.BaseReserve.Mul market.QuoteReserve).Mul multiplier).Quo
        (market.BaseReserve.Mul market.QuoteReserve)) = .ok c)
    (hd : common.MustSqrtDec ((c.Mul market.BaseReserve).Mul (c.Mul market.QuoteReserve)) =
      .ok d)
    (hv : Market.Validate pair
      { Pair := market.Pair
        BaseReserve := c.Mul market.BaseReserve
        QuoteReserve := c.Mul market.QuoteReserve
        SqrtDepth := d
        PegMultiplier := market.PegMultiplier
        Config := market.Config
        TotalLong := market.TotalLong
        TotalShort := market.TotalShort } = .ok ()) :
    market.UpdateSwapInvariant pair (some multiplier) =
      .ok { Pair := market.Pair
            BaseReserve := c.Mul market.BaseReserve
            QuoteReserve := c.Mul market.QuoteReserve
            SqrtDepth := d
            PegMultiplier := market.PegMultiplier
            Config := market.Config
            TotalLong := market.TotalLong
            TotalShort := market.TotalShort } := by
  simp [Market.UpdateSwapInvariant, Dec.IsPositive, Dec.IsZero, hm, hk, hc, hd, hv]

/-- What a successful `UpdateSwapInvariant` has computed. -/
theorem UpdateSwapInvariant_ok (pair : Except Error Unit) (market : Market)
    (multiplier : Dec) (newMarket : Market)
    (h : market.UpdateSwapInvariant pair (some multiplier) = .ok newMarket) :
    0 < multiplier.i ∧ (market.BaseReserve.Mul market.QuoteReserve).i ≠ 0 ∧
    ∃ c, common.SqrtDec
        (((market.BaseReserve.Mul market.QuoteReserve).Mul multiplier).Quo
          (market.BaseReserve.Mul market.QuoteReserve)) = .ok c ∧
      common.MustSqrtDec ((c.Mul market.BaseReserve).Mul (c.Mul market.QuoteReserve)) =
        .ok newMarket.SqrtDepth ∧
      newMarket.BaseReserve = c.Mul market.BaseReserve ∧
      newMarket.QuoteReserve = c.Mul market.QuoteReserve ∧
      newMarket.Pair = market.Pair ∧
      newMarket.PegMultiplier = market.PegMultiplier ∧
      newMarket.Config = market.Config ∧
      newMarket.TotalLong = market.TotalLong ∧
      newMarket.TotalShort = market.TotalShort ∧
      newMarket.Validate pair = .ok () := by
  unfold Market.UpdateSwapInvariant at h
  simp only [Dec.IsPositive, Dec.IsZero, Bool.not_eq_true', decide_eq_false_iff_not,
    decide_eq_true_eq] at h
  split_ifs at h with hm hk
  have hm1 : 0 < multiplier.i := by omega
  refine ⟨hm1, hk, ?_⟩
  cases hc : common.SqrtDec
      (((market.BaseReserve.Mul market.QuoteReserve).Mul multiplier).Quo
        (market.BaseReserve.Mul market.QuoteReserve)) with
  | error err => simp [hc] at h
  | ok c =>
    simp only [hc] at h
    cases hd : common.MustSqrtDec
        ((c.Mul market.BaseReserve).Mul (c.Mul market.QuoteReserve)) with
    | error err => simp [hd] at h
    | ok d =>
      simp only [hd] at h
      split at h
      · simp at h
      · rename_i hv
        simp only [Except.ok.injEq] at h
        subst h
        exact ⟨c, rfl, hd, rfl, rfl, rfl, rfl, rfl, rfl, rfl, by
          cases hvv : Market.Validate pair _ with
          | error e => rw [hvv] at hv; simp at hv
          | ok u => rfl⟩

/-- A mantissa of magnitude at most `10^94` passes the bit-length test, since
`10^94 < 2^315`. -/
theorem common.natAbs_lt_of_le (x : Int)
    (h1 : -10000000000000000000000000000000000000000000000000000000000000000000000000000000000000000000000 ≤ x)
    (h2 : x ≤ 10000000000000000000000000000000000000000000000000000000000000000000000000000000000000000000000) :
    ¬ 2 ^ 315 ≤ x.natAbs := by
  have h3 : (x.natAbs : Int) ≤
      10000000000000000000000000000000000000000000000000000000000000000000000000000000000000000000000 := by
    omega
  have h4 : x.natAbs ≤
      10000000000000000000000000000000000000000000000000000000000000000000000000000000000000000000000 := by
    exact_mod_cast h3
  have h5 : (10000000000000000000000000000000000000000000000000000000000000000000000000000000000000000000000 : Nat) <
      2 ^ 315 := by norm_num
  omega

theorem Dec.Mul_comm (a b : Dec) : a.Mul b = b.Mul a := by
  simp only [Dec.Mul, mul_comm]

/-- Sufficient conditions for `UpdateSwapInvariant` to return the rescaled
market: the depth stored in the new market is the depth that its validation
recomputes, so beyond the scale factor and the depth only positivity, the
bit-length test and the unchanged peg and config matter. -/
theorem UpdateSwapInvariant_succeeds (market : Market) (multiplier c d : Dec)
    (hm : 0 < multiplier.i)
    (hk : (market.BaseReserve.Mul market.QuoteReserve).i ≠ 0)
    (hc : common.SqrtDec
      (((market.BaseReserve.Mul market.QuoteReserve).Mul multiplier).Quo
        (market.BaseReserve.Mul market.QuoteReserve)) = .ok c)
    (hd : common.MustSqrtDec ((c.Mul market.BaseReserve).Mul (c.Mul market.QuoteReserve)) =
      .ok d)
    (hB : 0 < (c.Mul market.BaseReserve).i) (hQ : 0 < (c.Mul market.QuoteReserve).i)
    (hbit : ¬ 2 ^ 315 ≤ (chopPrecisionAndRound
      ((c.Mul market.BaseReserve).i * (c.Mul market.BaseReserve).i)).natAbs)
    (hd0 : 0 < d.i) (hpeg : 0 < market.PegMultiplier.i)
    (hcfg : market.Config.Validate = .ok ()) :
    market.UpdateSwapInvariant (.ok ()) (some multiplier) =
      .ok { Pair := market.Pair
            BaseReserve := c.Mul market.BaseReserve
            QuoteReserve := c.Mul market.QuoteReserve
            SqrtDepth := d
            PegMultiplier := market.PegMultiplier
            Config := market.Config
            TotalLong := market.TotalLong
            TotalShort := market.TotalShort } := by
  apply UpdateSwapInvariant_eq_ok _ _ _ _ _ hm hk hc hd
  rw [Market.Validate_market_ok_iff]
  refine ⟨rfl, hQ, hB, ?_, hpeg, hcfg⟩
  rw [ValidateLiquidityDepth_ok_iff]
  refine ⟨d, ?_, hd0, ?_⟩
  · rw [ComputeSqrtDepth_eq, if_neg hbit]
    dsimp only
    rw [Dec.Mul_comm]
    exact common.SqrtDec_of_MustSqrtDec _ _ hd
  · dsimp only
    rw [sub_self, abs_zero]
    decide

/-- The worked example market with its invariant multiplied by 4: the reserves
double. -/
theorem exampleMarket_UpdateSwapInvariant :
    exampleMarket.UpdateSwapInvariant (.ok ()) (some (Dec.NewDec 4)) =
      .ok { exampleMarket with
            BaseReserve := Dec.NewDec 200
            QuoteReserve := Dec.NewDec 2000
            SqrtDepth := ⟨632455532033000000000⟩ } :=
  UpdateSwapInvariant_succeeds exampleMarket (Dec.NewDec 4) (Dec.NewDec 2)
    ⟨632455532033000000000⟩ (by decide) (by decide)
    (common.SqrtDec_eq_ok _ 2000000000 (by decide) (by decide))
    (common.MustSqrtDec_eq_ok _ 632455532033 (by decide) (by decide))
    (by decide) (by decide) (common.natAbs_lt_of_le _ (by decide) (by decide))
    (by decide) (by decide) rfl

/-- Scaling both reserves by the same factor, on mantissas: with `NB` and `NQ`
the rounded products `C * B` and `C * Q`, the cross product `NQ * B - NB * Q` is
at most `(B + Q) / 2` in magnitude. -/
theorem rescale_cross_bounds (P C B Q NB NQ : Int) (hP : 0 < P) (hB : 0 ≤ B) (hQ : 0 ≤ Q)
    (hB1 : 2 * (NB * P) ≤ 2 * (C * B) + P) (hB2 : 2 * (C * B) ≤ 2 * (NB * P) + P)
    (hQ1 : 2 * (NQ * P) ≤ 2 * (C * Q) + P) (hQ2 : 2 * (C * Q) ≤ 2 * (NQ * P) + P) :
    NQ * B - NB * Q ≤ B + Q ∧ NB * Q - NQ * B ≤ B + Q := by
  have a1 : 2 * (NQ * P) * B ≤ (2 * (C * Q) + P) * B := mul_le_mul_of_nonneg_right hQ1 hB
  have a2 : 2 * (C * Q) * B ≤ (2 * (NQ * P) + P) * B := mul_le_mul_of_nonneg_right hQ2 hB
  have b1 : 2 * (NB * P) * Q ≤ (2 * (C * B) + P) * Q := mul_le_mul_of_nonneg_right hB1 hQ
  have b2 : 2 * (C * B) * Q ≤ (2 * (NB * P) + P) * Q := mul_le_mul_of_nonneg_right hB2 hQ
  have hBQ : 0 ≤ B + Q := by omega
  constructor
  · have h : (2 * P) * (NQ * B - NB * Q) ≤ (2 * P) * (B + Q) := by nlinarith
    exact le_of_mul_le_mul_left h (by omega)
  · have h : (2 * P) * (NB * Q - NQ * B) ≤ (2 * P) * (B + Q) := by nlinarith
    exact le_of_mul_le_mul_left h (by omega)

/-- Exact values: a mantissa bound `|NQ * B - NB * Q| <= B + Q` is a bound of
`(b + q) * 10^-18` on the cross product of the values. -/
theorem toRat_cross_bound (NQ NB B Q : Int)
    (h1 : NQ * B - NB * Q ≤ B + Q) (h2 : NB * Q - NQ * B ≤ B + Q) :
    |Dec.toRat ⟨NQ⟩ * Dec.toRat ⟨B⟩ - Dec.toRat ⟨NB⟩ * Dec.toRat ⟨Q⟩| ≤
      (Dec.toRat ⟨B⟩ + Dec.toRat ⟨Q⟩) / 1000000000000000000 := by
  have c1 : ((NQ * B - NB * Q : Int) : ℚ) ≤ ((B + Q : Int) : ℚ) := by exact_mod_cast h1
  have c2 : ((NB * Q - NQ * B : Int) : ℚ) ≤ ((B + Q : Int) : ℚ) := by exact_mod_cast h2
  push_cast at c1 c2
  simp only [Dec.toRat]
  have e2 : ((B : ℚ) / 1000000000000000000 + (Q : ℚ) / 1000000000000000000) /
      1000000000000000000 =
      ((B : ℚ) + Q) / 1000000000000000000000000000000000000 := by ring
  rw [abs_le, e2]
  constructor
  · have e : (NQ : ℚ) / 1000000000000000000 * ((B : ℚ) / 1000000000000000000) -
        (NB : ℚ) / 1000000000000000000 * ((Q : ℚ) / 1000000000000000000) =
        -(((NB : ℚ) * Q - NQ * B) / 1000000000000000000000000000000000000) := by ring
    rw [e, neg_le_neg_iff]
    exact div_le_div_of_nonneg_right c2 (by norm_num)
  · have e : (NQ : ℚ) / 1000000000000000000 * ((B : ℚ) / 1000000000000000000) -
        (NB : ℚ) / 1000000000000000000 * ((Q : ℚ) / 1000000000000000000) =
        ((NQ : ℚ) * B - NB * Q) / 1000000000000000000000000000000000000 := by ring
    rw [e]
    exact div_le_div_of_nonneg_right c1 (by norm_num)

/-- C12. `UpdateSwapInvariant` holds the price: whenever it succeeds on a market
with positive reserves, the returned market has the same `PegMultiplier` and
its reserves satisfy `|newQuote * baseReserve - newBase * quoteReserve| <=
(baseReserve + quoteReserve) * 10^-18`, the products taken exactly. -/
theorem UpdateSwapInvariant_price (pair : Except Error Unit) (market : Market)
    (multiplier : Dec) (newMarket : Market)
    (hB : 0 < market.BaseReserve.i) (hQ : 0 < market.QuoteReserve.i)
    (h : market.UpdateSwapInvariant pair (some multiplier) = .ok newMarket) :
    0 < multiplier.i ∧
    newMarket.PegMultiplier = market.PegMultiplier ∧
    |newMarket.QuoteReserve.toRat * market.BaseReserve.toRat -
        newMarket.BaseReserve.toRat * market.QuoteReserve.toRat| ≤
      (market.BaseReserve.toRat + market.QuoteReserve.toRat) / 1000000000000000000 := by
  obtain ⟨hm, _, c, _, _, hnb, hnq, _, hpeg, _⟩ :=
    UpdateSwapInvariant_ok pair market multiplier newMarket h
  refine ⟨hm, hpeg, ?_⟩
  have hb1 := chopPrecisionAndRound_bounds (c.i * market.BaseReserve.i)
  have hq1 := chopPrecisionAndRound_bounds (c.i * market.QuoteReserve.i)
  have hb := rescale_cross_bounds precisionReuse c.i market.BaseReserve.i
    market.QuoteReserve.i _ _ (by decide) hB.le hQ.le hb1.1 hb1.2 hq1.1 hq1.2
  rw [hnb, hnq]
  exact toRat_cross_bound _ _ _ _ hb.1 hb.2

/-- The price bound at the worked example market with its invariant multiplied
by 4. -/
theorem UpdateSwapInvariant_price_witness :
    (0 < exampleMarket.BaseReserve.i ∧ 0 < exampleMarket.QuoteReserve.i ∧
      exampleMarket.UpdateSwapInvariant (.ok ()) (some (Dec.NewDec 4)) =
        .ok { exampleMarket with
              BaseReserve := Dec.NewDec 200
              QuoteReserve := Dec.NewDec 2000
              SqrtDepth := ⟨632455532033000000000⟩ }) ∧
    (0 < (Dec.NewDec 4).i ∧
      ({ exampleMarket with
          BaseReserve := Dec.NewDec 200
          QuoteReserve := Dec.NewDec 2000
          SqrtDepth := ⟨632455532033000000000⟩ } : Market).PegMultiplier =
        exampleMarket.PegMultiplier ∧
      |({ exampleMarket with
            BaseReserve := Dec.NewDec 200
            QuoteReserve := Dec.NewDec 2000
            SqrtDepth := ⟨632455532033000000000⟩ } : Market).QuoteReserve.toRat *
            exampleMarket.BaseReserve.toRat -
          ({ exampleMarket with
            BaseReserve := Dec.NewDec 200
            QuoteReserve := Dec.NewDec 2000
            SqrtDepth := ⟨632455532033000000000⟩ } : Market).BaseReserve.toRat *
            exampleMarket.QuoteReserve.toRat| ≤
        (exampleMarket.BaseReserve.toRat + exampleMarket.QuoteReserve.toRat) /
          1000000000000000000) :=
  ⟨⟨by decide, by decide, exampleMarket_UpdateSwapInvariant⟩,
    UpdateSwapInvariant_price (.ok ()) exampleMarket (Dec.NewDec 4) _
      (by decide) (by decide) exampleMarket_UpdateSwapInvariant⟩

/-- C13 (amended). Whenever `UpdateSwapInvariant` returns a market, the
multiplier is positive and the returned market has `BaseReserve = c *
baseReserve` and `QuoteReserve = c * quoteReserve`, where `c` is the fixed-point
square root of `cSquared = ((baseReserve * quoteReserve) * multiplier) /
(baseReserve * quoteReserve)` computed in fixed point, which is the multiplier
only up to rounding; `SqrtDepth` is the square root of `newBase * newQuote`, and
`Pair`, `PegMultiplier`, `Config`, `TotalLong` and `TotalShort` are those of the
input market. -/
theorem UpdateSwapInvariant_result (pair : Except Error Unit) (market : Market)
    (multiplier : Dec) (newMarket : Market)
    (h : market.UpdateSwapInvariant pair (some multiplier) = .ok newMarket) :
    0 < multiplier.i ∧
    ∃ c, common.SqrtDec
        (((market.BaseReserve.Mul market.QuoteReserve).Mul multiplier).Quo
          (market.BaseReserve.Mul market.QuoteReserve)) = .ok c ∧
      newMarket.BaseReserve = c.Mul market.BaseReserve ∧
      newMarket.QuoteReserve = c.Mul market.QuoteReserve ∧
      common.SqrtDec (newMarket.BaseReserve.Mul newMarket.QuoteReserve) =
        .ok newMarket.SqrtDepth ∧
      newMarket.Pair = market.Pair ∧
      newMarket.PegMultiplier = market.PegMultiplier ∧
      newMarket.Config = market.Config ∧
      newMarket.TotalLong = market.TotalLong ∧
      newMarket.TotalShort = market.TotalShort := by
  obtain ⟨hm, _, c, hc, hd, hnb, hnq, hpair, hpeg, hcfg, hl, hs, _⟩ :=
    UpdateSwapInvariant_ok pair market multiplier newMarket h
  refine ⟨hm, c, hc, hnb, hnq, ?_, hpair, hpeg, hcfg, hl, hs⟩
  rw [hnb, hnq]
  exact common.SqrtDec_of_MustSqrtDec _ _ hd

/-- The amended result at the worked example market with its invariant
multiplied by 4. -/
theorem UpdateSwapInvariant_result_witness :
    exampleMarket.UpdateSwapInvariant (.ok ()) (some (Dec.NewDec 4)) =
      .ok { exampleMarket with
            BaseReserve := Dec.NewDec 200
            QuoteReserve := Dec.NewDec 2000
            SqrtDepth := ⟨632455532033000000000⟩ } ∧
    (0 < (Dec.NewDec 4).i ∧
    ∃ c, common.SqrtDec
        (((exampleMarket.BaseReserve.Mul exampleMarket.QuoteReserve).Mul (Dec.NewDec 4)).Quo
          (exampleMarket.BaseReserve.Mul exampleMarket.QuoteReserve)) = .ok c ∧
      Dec.NewDec 200 = c.Mul exampleMarket.BaseReserve ∧
      Dec.NewDec 2000 = c.Mul exampleMarket.QuoteReserve ∧
      common.SqrtDec ((Dec.NewDec 200).Mul (Dec.NewDec 2000)) =
        .ok ⟨632455532033000000000⟩ ∧
      exampleMarket.Pair = exampleMarket.Pair ∧
      exampleMarket.PegMultiplier = exampleMarket.PegMultiplier ∧
      exampleMarket.Config = exampleMarket.Config ∧
      exampleMarket.TotalLong = exampleMarket.TotalLong ∧
      exampleMarket.TotalShort = exampleMarket.TotalShort) :=
  ⟨exampleMarket_UpdateSwapInvariant,
    UpdateSwapInvariant_result (.ok ()) exampleMarket (Dec.NewDec 4) _
      exampleMarket_UpdateSwapInvariant⟩

/-- C13 (as stated) fails: the scale factor is not the square root of the
multiplier itself.  For the market with both reserves `10^-9` and the multiplier
`1.4`, the fixed-point invariant is `10^-18`, its product with `1.4` rounds back
to `10^-18`, so `cSquared = 1`, `c = 1` and the reserves come back unchanged,
while the square root of `1.4` is `1.183215956`.  For the market with reserves
`0.5` and `1` and the multiplier `1.000000002000000001`, `cSquared` is one unit
below the multiplier and `c = 1`, while the square root of the multiplier is
`1.000000001`. -/
theorem UpdateSwapInvariant_result_counterexample :
    (0 < dustMarket.BaseReserve.i ∧ 0 < dustMarket.QuoteReserve.i ∧
      0 < (⟨1400000000000000000⟩ : Dec).i ∧
      dustMarket.UpdateSwapInvariant (.ok ()) (some ⟨1400000000000000000⟩) = .ok dustMarket ∧
      common.SqrtDec ⟨1400000000000000000⟩ = .ok ⟨1183215956000000000⟩ ∧
      dustMarket.BaseReserve ≠ (⟨1183215956000000000⟩ : Dec).Mul dustMarket.BaseReserve) ∧
    (0 < halfMarket.BaseReserve.i ∧ 0 < halfMarket.QuoteReserve.i ∧
      0 < (⟨1000000002000000001⟩ : Dec).i ∧
      halfMarket.UpdateSwapInvariant (.ok ()) (some ⟨1000000002000000001⟩) = .ok halfMarket ∧
      common.SqrtDec ⟨1000000002000000001⟩ = .ok ⟨1000000001000000000⟩ ∧
      halfMarket.BaseReserve ≠ (⟨1000000001000000000⟩ : Dec).Mul halfMarket.BaseReserve) := by
  refine ⟨⟨by decide, by decide, by decide, ?_, ?_, by decide⟩,
    ⟨by decide, by decide, by decide, ?_, ?_, by decide⟩⟩
  · exact UpdateSwapInvariant_succeeds dustMarket ⟨1400000000000000000⟩ (Dec.NewDec 1)
      ⟨1000000000⟩ (by decide) (by decide)
      (common.SqrtDec_eq_ok _ 1000000000 (by decide) (by decide))
      (common.MustSqrtDec_eq_ok _ 1 (by decide) (by decide))
      (by decide) (by decide) (common.natAbs_lt_of_le _ (by decide) (by decide))
      (by decide) (by decide) rfl
  · exact common.SqrtDec_eq_ok _ 1183215956 (by decide) (by decide)
  · exact UpdateSwapInvariant_succeeds halfMarket ⟨1000000002000000001⟩ (Dec.NewDec 1)
      ⟨707106781000000000⟩ (by decide) (by decide)
      (common.SqrtDec_eq_ok _ 1000000000 (by decide) (by decide))
      (common.MustSqrtDec_eq_ok _ 707106781 (by decide) (by decide))
      (by decide) (by decide) (common.natAbs_lt_of_le _ (by decide) (by decide))
      (by decide) (by decide) rfl
  · exact common.SqrtDec_eq_ok _ 1000000001 (by decide) (by decide)

/-! ## Trading limit -/

/-- C21. For non-negative amounts, `HasEnoughReservesForTrade` returns no error
if and only if the fixed-point product `QuoteReserve * TradeLimitRatio` is at
least the quote amount and `BaseReserve * TradeLimitRatio` is at least the base
amount; in every other case the error is `ErrOverTradingLimit`. -/
theorem HasEnoughReservesForTrade_iff (market : Market) (quoteAbs baseAbs : Dec)
    (hq : 0 ≤ quoteAbs.i) (hb : 0 ≤ baseAbs.i) :
    (market.HasEnoughReservesForTrade quoteAbs baseAbs = .ok () ↔
      quoteAbs.i ≤ (market.QuoteReserve.Mul market.Config.TradeLimitRatio).i ∧
      baseAbs.i ≤ (market.BaseReserve.Mul market.Config.TradeLimitRatio).i) ∧
    (market.HasEnoughReservesForTrade quoteAbs baseAbs ≠ .ok () →
      market.HasEnoughReservesForTrade quoteAbs baseAbs =
        .error Error.ErrOverTradingLimit) := by
  have hqa : quoteAbs.Abs.i = quoteAbs.i := by
    simp only [Dec.Abs]
    rw [if_neg (by omega)]
  have hba : baseAbs.Abs.i = baseAbs.i := by
    simp only [Dec.Abs]
    rw [if_neg (by omega)]
  by_cases h1 : quoteAbs.i ≤ (market.QuoteReserve.Mul market.Config.TradeLimitRatio).i
  · by_cases h2 : baseAbs.i ≤ (market.BaseReserve.Mul market.Config.TradeLimitRatio).i
    · have e : market.HasEnoughReservesForTrade quoteAbs baseAbs = .ok () := by
        simp [Market.HasEnoughReservesForTrade, Market.HasEnoughQuoteReserve,
          Market.HasEnoughBaseReserve, Dec.GTE, hqa, hba, h1, h2]
      exact ⟨⟨fun _ => ⟨h1, h2⟩, fun _ => e⟩, fun h => absurd e h⟩
    · have e : market.HasEnoughReservesForTrade quoteAbs baseAbs =
          .error Error.ErrOverTradingLimit := by
        simp [Market.HasEnoughReservesForTrade, Market.HasEnoughQuoteReserve,
          Market.HasEnoughBaseReserve, Dec.GTE, hqa, hba, h1, h2]
      refine ⟨⟨fun h => ?_, fun h => absurd h.2 h2⟩, fun _ => e⟩
      rw [e] at h
      simp at h
  · have e : market.HasEnoughReservesForTrade quoteAbs baseAbs =
        .error Error.ErrOverTradingLimit := by
      simp [Market.HasEnoughReservesForTrade, Market.HasEnoughQuoteReserve,
        Market.HasEnoughBaseReserve, Dec.GTE, hqa, hba, h1]
    refine ⟨⟨fun h => ?_, fun h => absurd h.1 h1⟩, fun _ => e⟩
    rw [e] at h
    simp at h

/-- The trading limit at the worked example market: with reserves 1000 and 100
and a trade limit ratio of `0.1`, the amounts 100 and 10 are exactly at the
limit and pass. -/
theorem HasEnoughReservesForTrade_iff_witness :
    (0 ≤ (Dec.NewDec 100).i ∧ 0 ≤ (Dec.NewDec 10).i) ∧
    ((exampleMarket.HasEnoughReservesForTrade (Dec.NewDec 100) (Dec.NewDec 10) = .ok () ↔
      (Dec.NewDec 100).i ≤
        (exampleMarket.QuoteReserve.Mul exampleMarket.Config.TradeLimitRatio).i ∧
      (Dec.NewDec 10).i ≤
        (exampleMarket.BaseReserve.Mul exampleMarket.Config.TradeLimitRatio).i) ∧
    (exampleMarket.HasEnoughReservesForTrade (Dec.NewDec 100) (Dec.NewDec 10) ≠ .ok () →
      exampleMarket.HasEnoughReservesForTrade (Dec.NewDec 100) (Dec.NewDec 10) =
        .error Error.ErrOverTradingLimit)) :=
  ⟨⟨by decide, by decide⟩,
    HasEnoughReservesForTrade_iff exampleMarket (Dec.NewDec 100) (Dec.NewDec 10)
      (by decide) (by decide)⟩

/-! ## Mark price -/

/-- The value of `GetMarkPriceOf` when a reserve is unset or zero. -/
theorem GetMarkPriceOf_zero (baseReserve quoteReserve pegMultiplier : Option Dec)
    (h : baseReserve = none ∨ baseReserve = some ⟨0⟩ ∨
      quoteReserve = none ∨ quoteReserve = some ⟨0⟩) :
    Market.GetMarkPriceOf baseReserve quoteReserve pegMultiplier = .ok ⟨0⟩ := by
  cases baseReserve with
  | none => rfl
  | some base =>
    by_cases hb : base.i = 0
    · simp [Market.GetMarkPriceOf, Dec.IsZero, Dec.ZeroDec, hb]
    · cases quoteReserve with
      | none => simp [Market.GetMarkPriceOf, Dec.IsZero, Dec.ZeroDec, hb]
      | some quote =>
        by_cases hq : quote.i = 0
        · simp [Market.GetMarkPriceOf, Dec.IsZero, Dec.ZeroDec, hb, hq]
        · exfalso
          rcases h with h | h | h | h
          · cases h
          · exact hb (by rw [Option.some.inj h])
          · cases h
          · exact hq (by rw [Option.some.inj h])

/-- The value of `GetMarkPriceOf` when both reserves are set and not zero. -/
theorem GetMarkPriceOf_nonzero (base quote : Dec) (pegMultiplier : Option Dec)
    (hb : base.i ≠ 0) (hq : quote.i ≠ 0) :
    Market.GetMarkPriceOf (some base) (some quote) pegMultiplier =
      (quote.Quo base).MulChecked pegMultiplier := by
  simp [Market.GetMarkPriceOf, Dec.IsZero, Dec.QuoChecked, hb, hq]

/-- On a market whose fields are all set the call returns `GetMarkPrice`. -/
theorem GetMarkPriceOf_set (market : Market) :
    Market.GetMarkPriceOf (some market.BaseReserve) (some market.QuoteReserve)
        (some market.PegMultiplier) = .ok market.GetMarkPrice := by
  by_cases hb : market.BaseReserve.i = 0
  · rw [GetMarkPriceOf_zero _ _ _ (Or.inr (Or.inl (by rw [← hb])))]
    simp [Market.GetMarkPrice, Dec.IsZero, Dec.ZeroDec, hb]
  · by_cases hq : market.QuoteReserve.i = 0
    · rw [GetMarkPriceOf_zero _ _ _ (Or.inr (Or.inr (Or.inr (by rw [← hq]))))]
      simp [Market.GetMarkPrice, Dec.IsZero, Dec.ZeroDec, hq]
    · rw [GetMarkPriceOf_nonzero _ _ _ hb hq]
      simp [Market.GetMarkPrice, Dec.IsZero, Dec.MulChecked, hb, hq]

/-- C24 (amended). `GetMarkPrice` returns `0` when the base reserve or the quote
reserve is unset or zero, whether or not the peg multiplier is set, so it never
takes the aborting quotient by zero; otherwise, when the peg multiplier is set,
it returns `(QuoteReserve / BaseReserve) * PegMultiplier`.  So it returns a
value on every market whose peg multiplier is set.  For base 100, quote 1000 and
peg 1 the result is exactly 10. -/
theorem GetMarkPrice_total (baseReserve quoteReserve pegMultiplier : Option Dec)
    (market : Market) :
    ((baseReserve = none ∨ baseReserve = some ⟨0⟩ ∨
        quoteReserve = none ∨ quoteReserve = some ⟨0⟩) →
      Market.GetMarkPriceOf baseReserve quoteReserve pegMultiplier = .ok ⟨0⟩) ∧
    (∀ base quote peg : Dec, baseReserve = some base → quoteReserve = some quote →
      pegMultiplier = some peg → base.i ≠ 0 → quote.i ≠ 0 →
      Market.GetMarkPriceOf baseReserve quoteReserve pegMultiplier =
        .ok ((quote.Quo base).Mul peg)) ∧
    (pegMultiplier ≠ none →
      ∃ price, Market.GetMarkPriceOf baseReserve quoteReserve pegMultiplier = .ok price) ∧
    (∀ quote : Dec,
      quote.QuoChecked ⟨0⟩ = .error (Error.runtimePanic "division by zero")) ∧
    (Market.GetMarkPriceOf (some market.BaseReserve) (some market.QuoteReserve)
        (some market.PegMultiplier) = .ok market.GetMarkPrice ∧
      ((market.BaseReserve.i = 0 ∨ market.QuoteReserve.i = 0) →
        market.GetMarkPrice = ⟨0⟩) ∧
      (market.BaseReserve.i ≠ 0 → market.QuoteReserve.i ≠ 0 →
        market.GetMarkPrice =
          (market.QuoteReserve.Quo market.BaseReserve).Mul market.PegMultiplier)) ∧
    Market.GetMarkPriceOf (some (Dec.NewDec 100)) (some (Dec.NewDec 1000))
        (some (Dec.NewDec 1)) = .ok (Dec.NewDec 10) ∧
    exampleMarket.GetMarkPrice = Dec.NewDec 10 := by
  refine ⟨GetMarkPriceOf_zero _ _ _, ?_, ?_, fun _ => rfl,
    ⟨GetMarkPriceOf_set market, ?_, ?_⟩, rfl, rfl⟩
  · intro base quote peg hb hq hp hb0 hq0
    subst hb hq hp
    rw [GetMarkPriceOf_nonzero _ _ _ hb0 hq0]
    rfl
  · intro hp
    obtain ⟨peg, rfl⟩ := Option.ne_none_iff_exists'.1 hp
    by_cases hz : baseReserve = none ∨ baseReserve = some ⟨0⟩ ∨
        quoteReserve = none ∨ quoteReserve = some ⟨0⟩
    · exact ⟨_, GetMarkPriceOf_zero _ _ _ hz⟩
    · cases baseReserve with
      | none => exact absurd (Or.inl rfl) hz
      | some base =>
        cases quoteReserve with
        | none => exact absurd (Or.inr (Or.inr (Or.inl rfl))) hz
        | some quote =>
          have hb0 : base.i ≠ 0 := fun h =>
            hz (Or.inr (Or.inl (by rw [← h])))
          have hq0 : quote.i ≠ 0 := fun h =>
            hz (Or.inr (Or.inr (Or.inr (by rw [← h]))))
          exact ⟨_, (GetMarkPriceOf_nonzero _ _ _ hb0 hq0).trans rfl⟩
  · rintro (h | h)
    · simp [Market.GetMarkPrice, Dec.IsZero, Dec.ZeroDec, h]
    · simp [Market.GetMarkPrice, Dec.IsZero, Dec.ZeroDec, h]
  · intro hb0 hq0
    simp [Market.GetMarkPrice, Dec.IsZero, hb0, hq0]

/-- C24 (as stated) fails on a market whose reserves are set and not zero and
whose peg multiplier is unset: no guard tests the peg multiplier, the product
with the nil decimal aborts the call, and no value is returned. -/
theorem GetMarkPrice_total_counterexample :
    Market.GetMarkPriceOf (some (Dec.NewDec 100)) (some (Dec.NewDec 1000)) none =
      .error (Error.runtimePanic "nil pointer dereference") ∧
    ¬ ∃ price, Market.GetMarkPriceOf (some (Dec.NewDec 100)) (some (Dec.NewDec 1000))
        none = .ok price := by
  have e : Market.GetMarkPriceOf (some (Dec.NewDec 100)) (some (Dec.NewDec 1000)) none =
      .error (Error.runtimePanic "nil pointer dereference") := rfl
  refine ⟨e, ?_⟩
  rintro ⟨price, h⟩
  rw [e] at h
  cases h

/-! ## Repeg cost: failures -/

/-- C28. `GetRepegCost` returns an error if and only if the peg candidate is not
positive, with `ErrNonPositivePegMultiplier` also when the bias is zero, or the
peg candidate is positive, the bias is not zero and `BaseReserve + bias <= 0`,
with `ErrBaseReserveAtZero`; in every other case it succeeds. -/
theorem GetRepegCost_fails_iff (market : Market) (pegCandidate : Dec) :
    (pegCandidate.i ≤ 0 →
      market.GetRepegCost pegCandidate = .error Error.ErrNonPositivePegMultiplier) ∧
    (0 < pegCandidate.i → market.GetBias.i ≠ 0 →
      market.BaseReserve.i + market.GetBias.i ≤ 0 →
      market.GetRepegCost pegCandidate = .error Error.ErrBaseReserveAtZero) ∧
    ((∃ err, market.GetRepegCost pegCandidate = .error err) ↔
      (pegCandidate.i ≤ 0 ∨
        (0 < pegCandidate.i ∧ market.GetBias.i ≠ 0 ∧
          market.BaseReserve.i + market.GetBias.i ≤ 0))) ∧
    (¬ (pegCandidate.i ≤ 0 ∨
        (0 < pegCandidate.i ∧ market.GetBias.i ≠ 0 ∧
          market.BaseReserve.i + market.GetBias.i ≤ 0)) →
      ∃ cost, market.GetRepegCost pegCandidate = .ok cost) := by
  by_cases hp : pegCandidate.i ≤ 0
  · have hn : ¬ 0 < pegCandidate.i := by omega
    have e : market.GetRepegCost pegCandidate = .error Error.ErrNonPositivePegMultiplier := by
      simp [Market.GetRepegCost, Dec.IsPositive, hn]
    refine ⟨fun _ => e, fun h => absurd h hn, ⟨fun _ => Or.inl hp, fun _ => ⟨_, e⟩⟩, ?_⟩
    intro h
    exact absurd (Or.inl hp) h
  · have hpos : 0 < pegCandidate.i := by omega
    by_cases hb0 : market.GetBias.i = 0
    · have e : market.GetRepegCost pegCandidate = .ok Dec.ZeroDec := by
        simp [Market.GetRepegCost, Dec.IsPositive, Dec.IsZero, hpos, hb0]
      refine ⟨fun h => absurd h hp, fun _ h => absurd hb0 h, ⟨?_, ?_⟩, fun _ => ⟨_, e⟩⟩
      · rintro ⟨err, he⟩
        rw [e] at he
        simp at he
      · rintro (h | ⟨_, h, _⟩)
        · exact absurd h hp
        · exact absurd hb0 h
    · by_cases hle : market.BaseReserve.i + market.GetBias.i ≤ 0
      · have e : market.GetRepegCost pegCandidate = .error Error.ErrBaseReserveAtZero := by
          simp [Market.GetRepegCost, Market.GetQuoteReserveByBase, Dec.IsPositive, Dec.IsZero,
            Dec.LTE, Dec.Add, Dec.ZeroDec, hpos, hb0, hle]
        refine ⟨fun h => absurd h hp, fun _ _ _ => e,
          ⟨fun _ => Or.inr ⟨hpos, hb0, hle⟩, fun _ => ⟨_, e⟩⟩, ?_⟩
        intro h
        exact absurd (Or.inr ⟨hpos, hb0, hle⟩) h
      · have e : ∃ cost, market.GetRepegCost pegCandidate = .ok cost := by
          simp only [Market.GetRepegCost, Market.GetQuoteReserveByBase, Dec.IsPositive,
            Dec.IsZero, Dec.LTE, Dec.Add, Dec.ZeroDec, Dec.IsNegative, hpos, hb0, hle,
            decide_True, decide_False, Bool.not_true, Bool.false_eq_true, if_false]
          split_ifs <;> exact ⟨_, rfl⟩
        obtain ⟨cost, hc⟩ := e
        refine ⟨fun h => absurd h hp, fun _ _ h => absurd h hle, ⟨?_, ?_⟩, fun _ => ⟨_, hc⟩⟩
        · rintro ⟨err, he⟩
          rw [hc] at he
          simp at he
        · rintro (h | ⟨_, _, h⟩)
          · exact absurd h hp
          · exact absurd h hle

/-! ## Open interest -/

/-- One call of `AddToBaseReserveAndTotalLongShort` on mantissas: the base
reserve plus the bias is kept and neither total decreases. -/
theorem AddToBaseReserveAndTotalLongShort_step (market : Market) (amount : Dec) :
    (market.AddToBaseReserveAndTotalLongShort amount).BaseReserve.i +
        (market.AddToBaseReserveAndTotalLongShort amount).TotalLong.i -
        (market.AddToBaseReserveAndTotalLongShort amount).TotalShort.i =
      market.BaseReserve.i + market.TotalLong.i - market.TotalShort.i ∧
    market.TotalLong.i ≤ (market.AddToBaseReserveAndTotalLongShort amount).TotalLong.i ∧
    market.TotalShort.i ≤ (market.AddToBaseReserveAndTotalLongShort amount).TotalShort.i := by
  simp only [Market.AddToBaseReserveAndTotalLongShort, Dec.IsPositive, Dec.IsNegative,
    decide_eq_true_eq]
  split_ifs with h1 h2 <;> simp only [Dec.Add, Dec.Neg] <;> omega

/-- C29. `AddToBaseReserveAndTotalLongShort(amount)` leaves `BaseReserve +
GetBias()`, that is `BaseReserve + TotalLong - TotalShort`, unchanged and never
decreases `TotalLong` or `TotalShort`; so over any sequence of such calls the
quantity keeps its initial value and non-negative totals stay non-negative. -/
theorem AddToBaseReserveAndTotalLongShort_conserves (market : Market) (amount : Dec)
    (amounts : List Dec) :
    ((market.AddToBaseReserveAndTotalLongShort amount).BaseReserve.i +
        (market.AddToBaseReserveAndTotalLongShort amount).GetBias.i =
      market.BaseReserve.i + market.GetBias.i ∧
    market.BaseReserve.i + market.GetBias.i =
      market.BaseReserve.i + market.TotalLong.i - market.TotalShort.i ∧
    market.TotalLong.i ≤ (market.AddToBaseReserveAndTotalLongShort amount).TotalLong.i ∧
    market.TotalShort.i ≤ (market.AddToBaseReserveAndTotalLongShort amount).TotalShort.i) ∧
    ((amounts.foldl Market.AddToBaseReserveAndTotalLongShort market).BaseReserve.i +
        (amounts.foldl Market.AddToBaseReserveAndTotalLongShort market).TotalLong.i -
        (amounts.foldl Market.AddToBaseReserveAndTotalLongShort market).TotalShort.i =
      market.BaseReserve.i + market.TotalLong.i - market.TotalShort.i ∧
    market.TotalLong.i ≤
      (amounts.foldl Market.AddToBaseReserveAndTotalLongShort market).TotalLong.i ∧
    market.TotalShort.i ≤
      (amounts.foldl Market.AddToBaseReserveAndTotalLongShort market).TotalShort.i ∧
    (0 ≤ market.TotalLong.i →
      0 ≤ (amounts.foldl Market.AddToBaseReserveAndTotalLongShort market).TotalLong.i) ∧
    (0 ≤ market.TotalShort.i →
      0 ≤ (amounts.foldl Market.AddToBaseReserveAndTotalLongShort market).TotalShort.i)) := by
  constructor
  · have h := AddToBaseReserveAndTotalLongShort_step market amount
    simp only [Market.GetBias, Dec.Sub]
    refine ⟨by omega, by omega, h.2.1, h.2.2⟩
  · have key : ∀ (l : List Dec) (m : Market),
        (l.foldl Market.AddToBaseReserveAndTotalLongShort m).BaseReserve.i +
            (l.foldl Market.AddToBaseReserveAndTotalLongShort m).TotalLong.i -
            (l.foldl Market.AddToBaseReserveAndTotalLongShort m).TotalShort.i =
          m.BaseReserve.i + m.TotalLong.i - m.TotalShort.i ∧
        m.TotalLong.i ≤ (l.foldl Market.AddToBaseReserveAndTotalLongShort m).TotalLong.i ∧
        m.TotalShort.i ≤ (l.foldl Market.AddToBaseReserveAndTotalLongShort m).TotalShort.i := by
      intro l
      induction l with
      | nil =>
        intro m
        simp
      | cons a rest ih =>
        intro m
        have h1 := AddToBaseReserveAndTotalLongShort_step m a
        have h2 := ih (m.AddToBaseReserveAndTotalLongShort a)
        simp only [List.foldl_cons]
        refine ⟨by omega, by omega, by omega⟩
    have h := key amounts market
    refine ⟨h.1, h.2.1, h.2.2, fun h0 => by omega, fun h0 => by omega⟩

/-! ## Stablecoin fee split -/

/-- Rounding a mantissa that is a whole number of units is exact. -/
theorem chopPrecisionAndRound_mul_precision (n : Int) :
    chopPrecisionAndRound (n * precisionReuse) = n := by
  have h := chopPrecisionAndRound_bounds (n * precisionReuse)
  simp only [precisionReuse] at h ⊢
  omega

/-- C30. The fee split conserves the fee: for a fee coin of amount `A >= 0` and
a ratio in `[0, 1]`, the ecosystem-fund share is the floor of the exact product
`A * efFeeRatio`, the treasury share is `A` minus it, and `0 <= amountEf <= A`,
`amountTreasury >= 0` and `amountEf + amountTreasury = A`. -/
theorem splitAndSendFeesToEfAndTreasury_conserves (efFeeRatio : Dec) (amount : Int)
    (hA : 0 ≤ amount) (h0 : 0 ≤ efFeeRatio.i) (h1 : efFeeRatio.i ≤ precisionReuse) :
    (splitAndSendFeesToEfAndTreasury efFeeRatio amount).1 =
      ⌊(amount : ℚ) * efFeeRatio.toRat⌋ ∧
    (splitAndSendFeesToEfAndTreasury efFeeRatio amount).2 =
      amount - (splitAndSendFeesToEfAndTreasury efFeeRatio amount).1 ∧
    0 ≤ (splitAndSendFeesToEfAndTreasury efFeeRatio amount).1 ∧
    (splitAndSendFeesToEfAndTreasury efFeeRatio amount).1 ≤ amount ∧
    0 ≤ (splitAndSendFeesToEfAndTreasury efFeeRatio amount).2 ∧
    (splitAndSendFeesToEfAndTreasury efFeeRatio amount).1 +
      (splitAndSendFeesToEfAndTreasury efFeeRatio amount).2 = amount := by
  have hmul : (SdkInt.ToDec amount).Mul efFeeRatio = ⟨amount * efFeeRatio.i⟩ := by
    simp only [Dec.Mul, SdkInt.ToDec]
    rw [show amount * precisionReuse * efFeeRatio.i = amount * efFeeRatio.i * precisionReuse
      by ring, chopPrecisionAndRound_mul_precision]
  have hnn : 0 ≤ amount * efFeeRatio.i := mul_nonneg hA h0
  have hle : amount * efFeeRatio.i ≤ amount * precisionReuse :=
    mul_le_mul_of_nonneg_left h1 hA
  have ht := (chopPrecisionAndTruncate_bounds (amount * efFeeRatio.i)).1 hnn
  have hfloor := Dec.TruncateInt_eq_floor ⟨amount * efFeeRatio.i⟩ hnn
  have hval : (⟨amount * efFeeRatio.i⟩ : Dec).toRat = (amount : ℚ) * efFeeRatio.toRat := by
    simp only [Dec.toRat]
    push_cast
    ring
  have hef : (splitAndSendFeesToEfAndTreasury efFeeRatio amount).1 =
      chopPrecisionAndTruncate (amount * efFeeRatio.i) := by
    simp only [splitAndSendFeesToEfAndTreasury, hmul, Dec.TruncateInt]
  have htr : (splitAndSendFeesToEfAndTreasury efFeeRatio amount).2 =
      amount - chopPrecisionAndTruncate (amount * efFeeRatio.i) := by
    simp only [splitAndSendFeesToEfAndTreasury, hmul, Dec.TruncateInt]
  have hefA : chopPrecisionAndTruncate (amount * efFeeRatio.i) ≤ amount := by
    have h2 := ht.2.1
    simp only [precisionReuse] at h2 hle
    omega
  rw [hef, htr]
  refine ⟨?_, rfl, ht.1, hefA, ?_, ?_⟩
  · rw [← hval, ← hfloor]
    rfl
  · show (0 : Int) ≤ amount - chopPrecisionAndTruncate (amount * efFeeRatio.i)
    omega
  · show chopPrecisionAndTruncate (amount * efFeeRatio.i) +
      (amount - chopPrecisionAndTruncate (amount * efFeeRatio.i)) = amount
    omega

/-- The fee split of 1001 at the ratio `0.5`: 500 to the ecosystem fund and 501
to the treasury. -/
theorem splitAndSendFeesToEfAndTreasury_conserves_witness :
    (0 ≤ (1001 : Int) ∧ 0 ≤ (⟨500000000000000000⟩ : Dec).i ∧
      (⟨500000000000000000⟩ : Dec).i ≤ precisionReuse) ∧
    splitAndSendFeesToEfAndTreasury ⟨500000000000000000⟩ 1001 = (500, 501) ∧
    ((splitAndSendFeesToEfAndTreasury ⟨500000000000000000⟩ 1001).1 =
      ⌊((1001 : Int) : ℚ) * (⟨500000000000000000⟩ : Dec).toRat⌋ ∧
    (splitAndSendFeesToEfAndTreasury ⟨500000000000000000⟩ 1001).2 =
      1001 - (splitAndSendFeesToEfAndTreasury ⟨500000000000000000⟩ 1001).1 ∧
    0 ≤ (splitAndSendFeesToEfAndTreasury ⟨500000000000000000⟩ 1001).1 ∧
    (splitAndSendFeesToEfAndTreasury ⟨500000000000000000⟩ 1001).1 ≤ 1001 ∧
    0 ≤ (splitAndSendFeesToEfAndTreasury ⟨500000000000000000⟩ 1001).2 ∧
    (splitAndSendFeesToEfAndTreasury ⟨500000000000000000⟩ 1001).1 +
      (splitAndSendFeesToEfAndTreasury ⟨500000000000000000⟩ 1001).2 = 1001) :=
  ⟨⟨by decide, by decide, by decide⟩, rfl,
    splitAndSendFeesToEfAndTreasury_conserves ⟨500000000000000000⟩ 1001
      (by decide) (by decide) (by decide)⟩

/-! ## Fluctuation and spread guards -/

theorem chopPrecisionAndRoundNonNeg_eq (d : Int) (h : 0 ≤ d) :
    chopPrecisionAndRoundNonNeg d =
      if d % 1000000000000000000 = 0 then d / 1000000000000000000
      else if d % 1000000000000000000 < 500000000000000000 then d / 1000000000000000000
      else if d % 1000000000000000000 > 500000000000000000 then d / 1000000000000000000 + 1
      else if d / 1000000000000000000 % 2 = 0 then d / 1000000000000000000
      else d / 1000000000000000000 + 1 := by
  unfold chopPrecisionAndRoundNonNeg
  simp only [Int.tdiv_eq_ediv h (show (0 : Int) ≤ precisionReuse by decide),
    Int.tmod_eq_emod h (show (0 : Int) ≤ precisionReuse by decide)]
  simp only [precisionReuse, fivePrecision]

theorem chopPrecisionAndRoundNonNeg_mono (x y : Int) (hx : 0 ≤ x) (h : x ≤ y) :
    chopPrecisionAndRoundNonNeg x ≤ chopPrecisionAndRoundNonNeg y := by
  rw [chopPrecisionAndRoundNonNeg_eq x hx, chopPrecisionAndRoundNonNeg_eq y (by omega)]
  split_ifs <;> omega

/-- Rounding half to even is monotone. -/
theorem chopPrecisionAndRound_mono (x y : Int) (h : x ≤ y) :
    chopPrecisionAndRound x ≤ chopPrecisionAndRound y := by
  unfold chopPrecisionAndRound
  split_ifs with hx hy hy
  · have h1 := chopPrecisionAndRoundNonNeg_mono (-y) (-x) (by omega) (by omega)
    omega
  · have h1 := chopPrecisionAndRoundNonNeg_eq (-x) (by omega)
    have h2 := chopPrecisionAndRoundNonNeg_eq y (by omega)
    rw [h1, h2]
    split_ifs <;> omega
  · omega
  · exact chopPrecisionAndRoundNonNeg_mono x y (by omega) h

/-- Rounding commutes with negation. -/
theorem chopPrecisionAndRound_neg (d : Int) :
    chopPrecisionAndRound (-d) = -chopPrecisionAndRound d := by
  unfold chopPrecisionAndRound
  split_ifs with h1 h2 h2
  · omega
  · rw [neg_neg]
  · rw [neg_neg]
  · have h0 : d = 0 := by omega
    subst h0
    decide

/-- The fluctuation band of a snapshot is not inverted when the ratio and the
snapshot price are non-negative. -/
theorem fluctuation_band_ordered (snapshot : ReserveSnapshot) (ratio : Dec)
    (hr : 0 ≤ ratio.i) (hp : 0 ≤ snapshot.getMarkPrice.i) :
    (snapshot.GetLowerMarkPriceFluctuationLimit ratio).i ≤
      (snapshot.GetUpperMarkPriceFluctuationLimit ratio).i := by
  simp only [ReserveSnapshot.GetLowerMarkPriceFluctuationLimit,
    ReserveSnapshot.GetUpperMarkPriceFluctuationLimit, Dec.Mul, Dec.Add, Dec.Sub, Dec.OneDec]
  apply chopPrecisionAndRound_mono
  exact mul_le_mul_of_nonneg_left (by omega) hp

/-- C22. `IsOverFluctuationLimitInRelationWithSnapshot` is false when the
fluctuation limit ratio is `0`; otherwise it is true if and only if the mark
price is strictly greater than `snapshotPrice * (1 + ratio)` or strictly less
than `snapshotPrice * (1 - ratio)`.  So wherever there is a band, the lower edge
not above the upper one, a mark price exactly on either edge is not a violation;
there is a band whenever the ratio and the snapshot price are non-negative.  For
a snapshot price of 10 and a ratio of `0.1` the mark price 11 is not a violation
and `11.000000000000000001` is. -/
theorem IsOverFluctuationLimitInRelationWithSnapshot_iff (market : Market)
    (snapshot : ReserveSnapshot) :
    (market.Config.FluctuationLimitRatio.i = 0 →
      market.IsOverFluctuationLimitInRelationWithSnapshot snapshot = false) ∧
    (market.Config.FluctuationLimitRatio.i ≠ 0 →
      (market.IsOverFluctuationLimitInRelationWithSnapshot snapshot = true ↔
        (snapshot.getMarkPrice.Mul
            (Dec.OneDec.Add market.Config.FluctuationLimitRatio)).i < market.GetMarkPrice.i ∨
        market.GetMarkPrice.i <
          (snapshot.getMarkPrice.Mul
            (Dec.OneDec.Sub market.Config.FluctuationLimitRatio)).i)) ∧
    ((snapshot.getMarkPrice.Mul (Dec.OneDec.Sub market.Config.FluctuationLimitRatio)).i ≤
        (snapshot.getMarkPrice.Mul (Dec.OneDec.Add market.Config.FluctuationLimitRatio)).i →
      (market.GetMarkPrice =
          snapshot.getMarkPrice.Mul (Dec.OneDec.Add market.Config.FluctuationLimitRatio) →
        market.IsOverFluctuationLimitInRelationWithSnapshot snapshot = false) ∧
      (market.GetMarkPrice =
          snapshot.getMarkPrice.Mul (Dec.OneDec.Sub market.Config.FluctuationLimitRatio) →
        market.IsOverFluctuationLimitInRelationWithSnapshot snapshot = false)) ∧
    (0 ≤ market.Config.FluctuationLimitRatio.i → 0 ≤ snapshot.getMarkPrice.i →
      (snapshot.getMarkPrice.Mul (Dec.OneDec.Sub market.Config.FluctuationLimitRatio)).i ≤
        (snapshot.getMarkPrice.Mul (Dec.OneDec.Add market.Config.FluctuationLimitRatio)).i) ∧
    (({ exampleMarket with QuoteReserve := Dec.NewDec 1100 } : Market).GetMarkPrice =
        exampleSnapshot.GetUpperMarkPriceFluctuationLimit ⟨100000000000000000⟩ ∧
      ({ exampleMarket with QuoteReserve := Dec.NewDec 1100 } :
        Market).IsOverFluctuationLimitInRelationWithSnapshot exampleSnapshot = false ∧
      ({ exampleMarket with QuoteReserve := ⟨1100000000000000000100⟩ } :
        Market).IsOverFluctuationLimitInRelationWithSnapshot exampleSnapshot = true) := by
  have hiff : market.Config.FluctuationLimitRatio.i ≠ 0 →
      (market.IsOverFluctuationLimitInRelationWithSnapshot snapshot = true ↔
        (snapshot.getMarkPrice.Mul
            (Dec.OneDec.Add market.Config.FluctuationLimitRatio)).i < market.GetMarkPrice.i ∨
        market.GetMarkPrice.i <
          (snapshot.getMarkPrice.Mul
            (Dec.OneDec.Sub market.Config.FluctuationLimitRatio)).i) := by
    intro h0
    simp [Market.IsOverFluctuationLimitInRelationWithSnapshot, Dec.IsZero, h0, Dec.GT, Dec.LT,
      ReserveSnapshot.GetUpperMarkPriceFluctuationLimit,
      ReserveSnapshot.GetLowerMarkPriceFluctuationLimit]
  have hzero : market.Config.FluctuationLimitRatio.i = 0 →
      market.IsOverFluctuationLimitInRelationWithSnapshot snapshot = false := by
    intro h0
    simp [Market.IsOverFluctuationLimitInRelationWithSnapshot, Dec.IsZero, h0]
  refine ⟨hzero, hiff, ?_, ?_, rfl, rfl, rfl⟩
  · intro hband
    by_cases h0 : market.Config.FluctuationLimitRatio.i = 0
    · exact ⟨fun _ => hzero h0, fun _ => hzero h0⟩
    · constructor
      · intro he
        rw [← Bool.not_eq_true, hiff h0, he]
        omega
      · intro he
        rw [← Bool.not_eq_true, hiff h0, he]
        omega
  · intro hr hp
    exact fluctuation_band_ordered snapshot market.Config.FluctuationLimitRatio hr hp

/-- The sign of a quotient by a positive divisor, and its absolute value: the
absolute value of the quotient is the quotient of the absolute value. -/
theorem Dec.Quo_Abs (a d : Dec) (hd : 0 < d.i) : (a.Quo d).Abs = a.Abs.Quo d := by
  have hP : (0 : Int) ≤ precisionReuse := by decide
  by_cases ha : a.i < 0
  · have habs : a.Abs = ⟨-a.i⟩ := by
      simp only [Dec.Abs, if_pos ha]
    have hnum : a.i * precisionReuse * precisionReuse ≤ 0 :=
      mul_nonpos_of_nonpos_of_nonneg (mul_nonpos_of_nonpos_of_nonneg (by omega) hP) hP
    have hneg : (-a.i * precisionReuse * precisionReuse).tdiv d.i =
        -((a.i * precisionReuse * precisionReuse).tdiv d.i) := by
      rw [show -a.i * precisionReuse * precisionReuse =
        -(a.i * precisionReuse * precisionReuse) by ring, Int.neg_tdiv]
    have hq : 0 ≤ (-a.i * precisionReuse * precisionReuse).tdiv d.i :=
      Int.tdiv_nonneg (by nlinarith) hd.le
    have hc : chopPrecisionAndRound ((a.i * precisionReuse * precisionReuse).tdiv d.i) ≤ 0 :=
      chopPrecisionAndRound_nonpos _ (by omega)
    rw [habs]
    simp only [Dec.Quo, Dec.Abs, hneg, chopPrecisionAndRound_neg, Dec.mk.injEq]
    split_ifs <;> omega
  · have habs : a.Abs = a := by
      simp only [Dec.Abs, if_neg ha]
    have hnum : 0 ≤ a.i * precisionReuse * precisionReuse :=
      mul_nonneg (mul_nonneg (by omega) hP) hP
    have hc : 0 ≤ chopPrecisionAndRound ((a.i * precisionReuse * precisionReuse).tdiv d.i) :=
      chopPrecisionAndRound_nonneg _ (Int.tdiv_nonneg hnum hd.le)
    rw [habs]
    simp only [Dec.Quo, Dec.Abs, Dec.mk.injEq]
    rw [if_neg (by omega)]

/-- C23. For a strictly positive index price `IsOverSpreadLimit` divides by a
non-zero divisor and so returns, and it returns true if and only if the
fixed-point quotient `|GetMarkPrice() - indexPrice| / indexPrice` is at least
`Config.MaxOracleSpreadRatio`. -/
theorem IsOverSpreadLimit_iff (market : Market) (indexPrice : Dec) (h : 0 < indexPrice.i) :
    ∃ over, market.IsOverSpreadLimit indexPrice = .ok over ∧
      (over = true ↔
        market.Config.MaxOracleSpreadRatio.i ≤
          (((market.GetMarkPrice.Sub indexPrice).Abs).Quo indexPrice).i) := by
  have h0 : ¬ indexPrice.i = 0 := by omega
  have e : market.IsOverSpreadLimit indexPrice =
      .ok ((((market.GetMarkPrice.Sub indexPrice).Quo indexPrice).Abs).GTE
        market.Config.MaxOracleSpreadRatio) := by
    simp only [Market.IsOverSpreadLimit, Dec.IsZero, h0, decide_False,
      Bool.false_eq_true, if_false]
  refine ⟨_, e, ?_⟩
  rw [Dec.Quo_Abs _ _ h]
  simp only [Dec.GTE, decide_eq_true_eq, ge_iff_le]

/-- The spread test at the worked example market: the mark price is 10, so
against an index price of 10 the spread is 0 and the result is false. -/
theorem IsOverSpreadLimit_iff_witness :
    0 < (Dec.NewDec 10).i ∧
    exampleMarket.IsOverSpreadLimit (Dec.NewDec 10) = .ok false ∧
    ∃ over, exampleMarket.IsOverSpreadLimit (Dec.NewDec 10) = .ok over ∧
      (over = true ↔
        exampleMarket.Config.MaxOracleSpreadRatio.i ≤
          (((exampleMarket.GetMarkPrice.Sub (Dec.NewDec 10)).Abs).Quo (Dec.NewDec 10)).i) :=
  ⟨by decide, rfl, IsOverSpreadLimit_iff exampleMarket (Dec.NewDec 10) (by decide)⟩

/-! ## Market validation -/

/-- A market whose pair passes and which has a non-positive reserve is rejected
by the test of the reserves. -/
theorem Validate_rejects_reserves (market : Market)
    (h : market.BaseReserve.i ≤ 0 ∨ market.QuoteReserve.i ≤ 0) :
    market.Validate (.ok ()) = .error Error.ErrNonPositiveReserves := by
  have hr : market.ValidateReserves = .error Error.ErrNonPositiveReserves := by
    unfold Market.ValidateReserves
    rw [if_pos]
    simp only [Dec.IsPositive, Bool.or_eq_true, Bool.not_eq_true', decide_eq_false_iff_not,
      not_lt]
    omega
  simp only [Market.Validate, hr]

/-- A market whose pair, reserves and depth pass and whose peg multiplier is not
positive is rejected by the test of the peg multiplier. -/
theorem Validate_rejects_peg (market : Market)
    (hb : 0 < market.BaseReserve.i) (hq : 0 < market.QuoteReserve.i)
    (hl : market.ValidateLiquidityDepth = .ok ()) (hp : market.PegMultiplier.i ≤ 0) :
    market.Validate (.ok ()) = .error Error.ErrNonPositivePegMultiplier := by
  have hr : market.ValidateReserves = .ok () := by
    unfold Market.ValidateReserves
    rw [if_neg]
    simp only [Dec.IsPositive, Bool.or_eq_true, Bool.not_eq_true', decide_eq_false_iff_not,
      not_lt]
    omega
  simp only [Market.Validate, hr, hl, Dec.LTE, Dec.ZeroDec, decide_eq_true_eq]
  rw [if_pos hp]

/-- The depth test accepts the example market with its peg multiplier set to
zero: the computed depth is `316.227766016` and the stored one is less than
`10^-9` above it. -/
theorem zeroPegMarket_ValidateLiquidityDepth :
    zeroPegMarket.ValidateLiquidityDepth = .ok () := by
  have hc : zeroPegMarket.ComputeSqrtDepth = .ok ⟨316227766016000000000⟩ := by
    rw [ComputeSqrtDepth_eq]
    have e1 : chopPrecisionAndRound
        (zeroPegMarket.BaseReserve.i * zeroPegMarket.BaseReserve.i) =
        10000000000000000000000 := rfl
    have e2 : zeroPegMarket.QuoteReserve.Mul zeroPegMarket.BaseReserve =
        ⟨100000000000000000000000⟩ := rfl
    rw [e1, e2, if_neg (by norm_num)]
    exact common.SqrtDec_eq_ok _ 316227766016 (by decide) (by decide)
  rw [ValidateLiquidityDepth_ok_iff]
  exact ⟨_, hc, by decide, by decide⟩

/-- C25. On every market on which `Validate` returns no error the base reserve,
the quote reserve, the stored depth and the peg multiplier are positive and
`Config.Validate()` succeeds, whatever `market.Pair.Validate()` returned.  On a
market whose pair passes `market.Pair.Validate()`, a non-positive reserve is
rejected with `ErrNonPositiveReserves`, and a peg multiplier that is not
positive, the reserves and the depth being valid, with
`ErrNonPositivePegMultiplier`; so are the example market with its base reserve set
to zero and with its peg multiplier set to zero. -/
theorem Market_Validate_invariants (pair : Except Error Unit) (market : Market) :
    (market.Validate pair = .ok () →
      0 < market.BaseReserve.i ∧ 0 < market.QuoteReserve.i ∧ 0 < market.SqrtDepth.i ∧
      0 < market.PegMultiplier.i ∧ market.Config.Validate = .ok ()) ∧
    ((market.BaseReserve.i ≤ 0 ∨ market.QuoteReserve.i ≤ 0) →
      market.Validate (.ok ()) = .error Error.ErrNonPositiveReserves) ∧
    (0 < market.BaseReserve.i → 0 < market.QuoteReserve.i →
      market.ValidateLiquidityDepth = .ok () → market.PegMultiplier.i ≤ 0 →
      market.Validate (.ok ()) = .error Error.ErrNonPositivePegMultiplier) ∧
    zeroBaseMarket.Validate (.ok ()) = .error Error.ErrNonPositiveReserves ∧
    zeroPegMarket.Validate (.ok ()) = .error Error.ErrNonPositivePegMultiplier := by
  refine ⟨?_, Validate_rejects_reserves market, Validate_rejects_peg market,
    Validate_rejects_reserves zeroBaseMarket (Or.inl (by decide)),
    Validate_rejects_peg zeroPegMarket (by decide) (by decide)
      zeroPegMarket_ValidateLiquidityDepth (by decide)⟩
  intro h
  obtain ⟨_, hq, hb, hl, hp, hc⟩ := (Market.Validate_market_ok_iff pair market).1 h
  obtain ⟨_, _, hd, _⟩ := (ValidateLiquidityDepth_ok_iff market).1 hl
  exact ⟨hb, hq, hd, hp, hc⟩

/-- The outcome of `ValidateLiquidityDepth` once the depth has been computed. -/
theorem ValidateLiquidityDepth_eq (market : Market) (computedSqrtDepth : Dec)
    (hc : market.ComputeSqrtDepth = .ok computedSqrtDepth) :
    market.ValidateLiquidityDepth =
      if market.SqrtDepth.i ≤ 0 then .error Error.ErrLiquidityDepth
      else if 1000000000000000000 < |market.SqrtDepth.i - computedSqrtDepth.i| then
        .error (Error.other "%!w(<nil>): market: computed sqrt and current sqrt differ")
      else .ok () := by
  unfold Market.ValidateLiquidityDepth
  rw [hc]
  simp only [Dec.IsPositive, Dec.LTE, Dec.Abs, Dec.Sub, Dec.NewDec, precisionReuse,
    Bool.not_eq_true', decide_eq_false_iff_not, decide_eq_true_eq, lt_abs]
  split_ifs <;> first | rfl | omega

/-- A market with a valid pair and positive reserves whose depth validation
fails is rejected with the error of the depth validation. -/
theorem Validate_of_depth_error (market : Market) (err : Error)
    (hq : 0 < market.QuoteReserve.i) (hb : 0 < market.BaseReserve.i)
    (hl : market.ValidateLiquidityDepth = .error err) :
    market.Validate (.ok ()) = .error err := by
  have hr : market.ValidateReserves = .ok () := by
    unfold Market.ValidateReserves
    rw [if_neg]
    simp only [Dec.IsPositive, Bool.or_eq_true, Bool.not_eq_true', decide_eq_false_iff_not,
      not_lt]
    omega
  simp only [Market.Validate, hr, hl]

/-- C27. A positive stored depth that is more than the tolerance away from the
computed depth is not reported as `ErrLiquidityDepth`: for reserves 100 and 1000
and a stored depth of 400 the computed depth is `316.227766016`, and
`ValidateLiquidityDepth` and `Validate` return the error formatted around the nil
error of `ComputeSqrtDepth`, which wraps no error kind, while a stored depth of 0
is reported as `ErrLiquidityDepth`. -/
theorem ValidateLiquidityDepth_tolerance_error :
    wrongDepthMarket.ComputeSqrtDepth = .ok ⟨316227766016000000000⟩ ∧
    0 < wrongDepthMarket.SqrtDepth.i ∧
    ¬ (|wrongDepthMarket.SqrtDepth.i - 316227766016000000000| ≤ (Dec.NewDec 1).i) ∧
    wrongDepthMarket.ValidateLiquidityDepth =
      .error (Error.other "%!w(<nil>): market: computed sqrt and current sqrt differ") ∧
    wrongDepthMarket.ValidateLiquidityDepth ≠ .error Error.ErrLiquidityDepth ∧
    wrongDepthMarket.Validate (.ok ()) =
      .error (Error.other "%!w(<nil>): market: computed sqrt and current sqrt differ") ∧
    ({ exampleMarket with SqrtDepth := Dec.ZeroDec } : Market).ValidateLiquidityDepth =
      .error Error.ErrLiquidityDepth := by
  have hc : ∀ d : Dec, ({ exampleMarket with SqrtDepth := d } : Market).ComputeSqrtDepth =
      .ok ⟨316227766016000000000⟩ := by
    intro d
    rw [ComputeSqrtDepth_eq]
    have e1 : chopPrecisionAndRound
        (({ exampleMarket with SqrtDepth := d } : Market).BaseReserve.i *
          ({ exampleMarket with SqrtDepth := d } : Market).BaseReserve.i) =
        10000000000000000000000 := rfl
    have e2 : ({ exampleMarket with SqrtDepth := d } : Market).QuoteReserve.Mul
        ({ exampleMarket with SqrtDepth := d } : Market).BaseReserve =
        ⟨100000000000000000000000⟩ := rfl
    rw [e1, e2, if_neg (by norm_num)]
    exact common.SqrtDec_eq_ok _ 316227766016 (by decide) (by decide)
  have hcw : wrongDepthMarket.ComputeSqrtDepth = .ok ⟨316227766016000000000⟩ :=
    hc (Dec.NewDec 400)
  have hv : wrongDepthMarket.ValidateLiquidityDepth =
      .error (Error.other "%!w(<nil>): market: computed sqrt and current sqrt differ") := by
    rw [ValidateLiquidityDepth_eq wrongDepthMarket _ hcw, if_neg (by decide),
      if_pos (by decide)]
  refine ⟨hcw, by decide, by decide, hv, ?_, ?_, ?_⟩
  · rw [hv]
    simp
  · exact Validate_of_depth_error _ _ (by decide) (by decide) hv
  · rw [ValidateLiquidityDepth_eq _ _ (hc Dec.ZeroDec), if_pos (by decide)]

/-! ## Cost of a swap invariant update -/

/-- The repeg example market with its invariant multiplied by 4: the reserves
50 and 1000 become 100 and 2000. -/
theorem repegMarket_UpdateSwapInvariant :
    repegMarket.UpdateSwapInvariant (.ok ()) (some (Dec.NewDec 4)) =
      .ok { repegMarket with
            BaseReserve := Dec.NewDec 100
            QuoteReserve := Dec.NewDec 2000
            SqrtDepth := ⟨447213595499000000000⟩ } :=
  UpdateSwapInvariant_succeeds repegMarket (Dec.NewDec 4) (Dec.NewDec 2)
    ⟨447213595499000000000⟩ (by decide) (by decide)
    (common.SqrtDec_eq_ok _ 2000000000 (by decide) (by decide))
    (common.MustSqrtDec_eq_ok _ 447213595499 (by decide) (by decide))
    (by decide) (by decide) (common.natAbs_lt_of_le _ (by decide) (by decide))
    (by decide) (by decide) rfl

/-- The cost once the two values of open interest and the updated market are
known. -/
theorem GetSwapInvariantUpdateCost_eq_ok (pair : Except Error Unit) (market : Market)
    (multiplier : Option Dec) (newMarket : Market) (quoteReserveBefore quoteReserveAfter : Dec)
    (hb : market.getMarketQuoteReserveValue = .ok quoteReserveBefore)
    (hu : market.UpdateSwapInvariant pair multiplier = .ok newMarket)
    (ha : newMarket.getMarketQuoteReserveValue = .ok quoteReserveAfter) :
    market.GetSwapInvariantUpdateCost pair multiplier =
      .ok (market.FromQuoteReserveToAsset (quoteReserveAfter.Sub quoteReserveBefore)) := by
  simp only [Market.GetSwapInvariantUpdateCost, hb, hu, ha]

/-- C26. Whenever `GetSwapInvariantUpdateCost` succeeds, `UpdateSwapInvariant`
has returned a market `newMarket` and the cost is the fixed-point product of the
peg multiplier with `V(newMarket) - V(market)`, where `V(m)` is
`m.GetQuoteReserveByBase(TotalLong) + m.GetQuoteReserveByBase(TotalShort)`;
whenever `UpdateSwapInvariant` fails, it fails.  On the repeg example (base 50,
quote 1000, total long 50) with multiplier 4, `V` goes from 500 to
`666.666666666666666667` and the cost is `166.666666666666666667`. -/
theorem GetSwapInvariantUpdateCost_value (pair : Except Error Unit) (market : Market)
    (multiplier : Option Dec) :
    (∀ cost, market.GetSwapInvariantUpdateCost pair multiplier = .ok cost →
      ∃ newMarket longBefore shortBefore longAfter shortAfter,
        market.UpdateSwapInvariant pair multiplier = .ok newMarket ∧
        market.GetQuoteReserveByBase market.TotalLong = .ok longBefore ∧
        market.GetQuoteReserveByBase market.TotalShort = .ok shortBefore ∧
        newMarket.GetQuoteReserveByBase newMarket.TotalLong = .ok longAfter ∧
        newMarket.GetQuoteReserveByBase newMarket.TotalShort = .ok shortAfter ∧
        cost = market.PegMultiplier.Mul
          ((longAfter.Add shortAfter).Sub (longBefore.Add shortBefore))) ∧
    (∀ err, market.UpdateSwapInvariant pair multiplier = .error err →
      ∃ err1, market.GetSwapInvariantUpdateCost pair multiplier = .error err1) ∧
    (repegMarket.getMarketQuoteReserveValue = .ok (Dec.NewDec 500) ∧
      repegMarket.GetSwapInvariantUpdateCost (.ok ()) (some (Dec.NewDec 4)) =
        .ok ⟨166666666666666666667⟩) := by
  refine ⟨?_, ?_, rfl, ?_⟩
  · intro cost h
    unfold Market.GetSwapInvariantUpdateCost Market.getMarketQuoteReserveValue at h
    cases hlb : market.GetQuoteReserveByBase market.TotalLong with
    | error e => simp [hlb] at h
    | ok longBefore =>
      cases hsb : market.GetQuoteReserveByBase market.TotalShort with
      | error e => simp [hlb, hsb] at h
      | ok shortBefore =>
        cases hu : market.UpdateSwapInvariant pair multiplier with
        | error e => simp [hlb, hsb, hu] at h
        | ok newMarket =>
          cases hla : newMarket.GetQuoteReserveByBase newMarket.TotalLong with
          | error e => simp [hlb, hsb, hu, hla] at h
          | ok longAfter =>
            cases hsa : newMarket.GetQuoteReserveByBase newMarket.TotalShort with
            | error e => simp [hlb, hsb, hu, hla, hsa] at h
            | ok shortAfter =>
              simp only [hlb, hsb, hu, hla, hsa, Except.ok.injEq] at h
              refine ⟨newMarket, longBefore, shortBefore, longAfter, shortAfter,
                rfl, rfl, rfl, hla, hsa, ?_⟩
              rw [← h, Market.FromQuoteReserveToAsset, Dec.Mul_comm]
  · intro err hu
    unfold Market.GetSwapInvariantUpdateCost
    cases hb : market.getMarketQuoteReserveValue with
    | error e => exact ⟨e, rfl⟩
    | ok before =>
      simp only [hu]
      exact ⟨err, rfl⟩
  · have hb : repegMarket.getMarketQuoteReserveValue = .ok (Dec.NewDec 500) := rfl
    have ha : ({ repegMarket with
            BaseReserve := Dec.NewDec 100
            QuoteReserve := Dec.NewDec 2000
            SqrtDepth := ⟨447213595499000000000⟩ } : Market).getMarketQuoteReserveValue =
        .ok ⟨666666666666666666667⟩ := rfl
    exact (GetSwapInvariantUpdateCost_eq_ok _ _ _ _ _ _ hb
      repegMarket_UpdateSwapInvariant ha).trans rfl

end Nibiru
